import Mathlib

/-!
# NixCore: CoinSpend wire format and the HD-wallet send RPC

A shallow embedding of

* `src/sigma/coinspend.h` (`sigma::CoinSpend`),
* `src/libzerocoin/CoinSpend.h` (`libzerocoin::CoinSpend`),
* `src/wallet/hd/rpchdwallet.cpp` (`sendtypeto`, `SendToInner`),

followed by the properties established about them.

A stream is a list of bytes: writing appends at the end, reading consumes
from the front and fails when the bytes run out.  The per-type
serializers that `READWRITE` dispatches to live in headers outside the
embedded files, so every `SerializationOp` takes them as a parameter; the
little-endian and compact-size codecs further down are one instance of
them.
-/

set_option autoImplicit false

namespace NixCore

/-! ## Streams and field codecs -/

/-- One octet of a stream. -/
abbrev Byte := Fin 256

/-- The byte buffer behind a stream: `write` appends, `read` consumes the front. -/
abbrev CDataStream := List Byte

/-- The serializer and deserializer of one field type.  `Unserialize` returns the
value read and the rest of the stream, or `none` where the implementation throws. -/
structure FieldCodec (α : Type) where
  Serialize : α → List Byte
  Unserialize : CDataStream → Option (α × CDataStream)

/-- The codec gives back `x` from the bytes it wrote for `x`, whatever follows them. -/
def FieldCodec.RoundTripsAt {α : Type} (c : FieldCodec α) (x : α) : Prop :=
  ∀ rest : CDataStream, c.Unserialize (c.Serialize x ++ rest) = some (x, rest)

/-- The decoder accepts only what the encoder writes: a read that succeeds has consumed
exactly the bytes that `Serialize` writes for the value read, and the codec round-trips
at that value. -/
def FieldCodec.Canonical {α : Type} (c : FieldCodec α) : Prop :=
  ∀ (s : CDataStream) (x : α) (rest : CDataStream),
    c.Unserialize s = some (x, rest) → s = c.Serialize x ++ rest ∧ c.RoundTripsAt x

/-- The two serialization actions: `CSerActionSerialize` and `CSerActionUnserialize`. -/
inductive SerAction where
  | CSerActionSerialize
  | CSerActionUnserialize
  deriving DecidableEq, Repr

/-- The action's `ForRead()`. -/
def SerAction.ForRead : SerAction → Bool
  | .CSerActionSerialize => false
  | .CSerActionUnserialize => true

/-- The macro `READWRITE(obj)`: under the write action the bytes of `obj` are appended
to the stream and `obj` is kept; under the read action `obj` is replaced by the value
read from the front of the stream. -/
def READWRITE {α : Type} (c : FieldCodec α) (ser_action : SerAction) (s : CDataStream)
    (obj : α) : Option (CDataStream × α) :=
  match ser_action with
  | .CSerActionSerialize => some (s ++ c.Serialize obj, obj)
  | .CSerActionUnserialize => (c.Unserialize s).map fun r => (r.2, r.1)

/-! ## `sigma::CoinSpend` -/

namespace sigma

/-- The members of `sigma::CoinSpend` that hold data (`params` is the pointer to the
chain-wide configuration and is carried separately). -/
structure CoinSpend (Scalar SigmaPlusProof CoinDenomination : Type) where
  version : Nat
  denomination : CoinDenomination
  accumulatorBlockHash : Nat
  coinSerialNumber : Scalar
  ecdsaSignature : List Byte
  ecdsaPubkey : List Byte
  sigmaProof : SigmaPlusProof

/-- What `sigma::CoinSpend` uses from outside its header: the codecs behind `READWRITE`
for each member type, the two denomination conversions of `sigma/coin.h`, and the
values the members are initialised with.

`IntegerToDenomination value denom_out` and `DenominationToInteger denom denom_out`
take the current content of their output argument and return the `bool` result
together with the content of the output argument afterwards. -/
structure Params (Scalar SigmaPlusProof CoinDenomination : Type) where
  proofCodec : FieldCodec SigmaPlusProof
  scalarCodec : FieldCodec Scalar
  uintCodec : FieldCodec Nat
  int64Codec : FieldCodec Int
  uint256Codec : FieldCodec Nat
  vectorCodec : FieldCodec (List Byte)
  SIGMA_1 : CoinDenomination
  IntegerToDenomination : Int → CoinDenomination → Bool × CoinDenomination
  DenominationToInteger : CoinDenomination → Int → Bool × Int
  emptyScalar : Scalar
  emptyProof : SigmaPlusProof

variable {Scalar SigmaPlusProof CoinDenomination : Type}

/-- The method `setVersion(unsigned int nVersion)`. -/
def CoinSpend.setVersion (self : CoinSpend Scalar SigmaPlusProof CoinDenomination)
    (nVersion : Nat) : CoinSpend Scalar SigmaPlusProof CoinDenomination :=
  { self with version := nVersion % 2 ^ 32 }

/-- The method `getVersion()`: the unsigned member converted to `int`. -/
def CoinSpend.getVersion (self : CoinSpend Scalar SigmaPlusProof CoinDenomination) : Int :=
  if self.version % 2 ^ 32 < 2 ^ 31 then (self.version % 2 ^ 32 : Nat)
  else (self.version % 2 ^ 32 : Nat) - 2 ^ 32

/-- The method `getAccumulatorBlockHash()`. -/
def CoinSpend.getAccumulatorBlockHash
    (self : CoinSpend Scalar SigmaPlusProof CoinDenomination) : Nat :=
  self.accumulatorBlockHash

/-- The method `SerializationOp(s, ser_action)`: one `READWRITE` per member in the
order of the header, the denomination going through an `int64_t` on the wire.  Each
`READWRITE` yields the stream after it (`.1`) and the member after it (`.2`); the
object after the call is made of these members.  The `bool` returned by either
denomination conversion is dropped, as in the header. -/
def CoinSpend.SerializationOp (p : Params Scalar SigmaPlusProof CoinDenomination)
    (ser_action : SerAction) (s : CDataStream)
    (self : CoinSpend Scalar SigmaPlusProof CoinDenomination) :
    Option (CDataStream × CoinSpend Scalar SigmaPlusProof CoinDenomination) := do
  let sigmaProof ← READWRITE p.proofCodec ser_action s self.sigmaProof
  let coinSerialNumber ←
    READWRITE p.scalarCodec ser_action sigmaProof.1 self.coinSerialNumber
  let version ← READWRITE p.uintCodec ser_action coinSerialNumber.1 self.version
  let denomination_value : Int := -1
  let denomination ←
    if ser_action.ForRead then do
      let denomination_value ←
        READWRITE p.int64Codec ser_action version.1 denomination_value
      pure (denomination_value.1,
        (p.IntegerToDenomination denomination_value.2 self.denomination).2)
    else do
      let denomination_value := (p.DenominationToInteger self.denomination denomination_value).2
      let written ← READWRITE p.int64Codec ser_action version.1 denomination_value
      pure (written.1, self.denomination)
  let accumulatorBlockHash ←
    READWRITE p.uint256Codec ser_action denomination.1 self.accumulatorBlockHash
  let ecdsaPubkey ← READWRITE p.vectorCodec ser_action accumulatorBlockHash.1 self.ecdsaPubkey
  let ecdsaSignature ← READWRITE p.vectorCodec ser_action ecdsaPubkey.1 self.ecdsaSignature
  pure (ecdsaSignature.1,
        { version := version.2
          denomination := denomination.2
          accumulatorBlockHash := accumulatorBlockHash.2
          coinSerialNumber := coinSerialNumber.2
          ecdsaSignature := ecdsaSignature.2
          ecdsaPubkey := ecdsaPubkey.2
          sigmaProof := sigmaProof.2 })

/-- The bytes of a spend: what `strm << spend` leaves in an empty stream. -/
def CoinSpend.Serialize (p : Params Scalar SigmaPlusProof CoinDenomination)
    (self : CoinSpend Scalar SigmaPlusProof CoinDenomination) : List Byte :=
  match CoinSpend.SerializationOp p .CSerActionSerialize [] self with
  | some (s, _) => s
  | none => []

/-- The object the stream constructor holds before it reads: `denomination(SIGMA_1)`,
`sigmaProof(p)`, `version = 0`, the other members default-constructed. -/
def CoinSpend.init (p : Params Scalar SigmaPlusProof CoinDenomination) :
    CoinSpend Scalar SigmaPlusProof CoinDenomination :=
  { version := 0
    denomination := p.SIGMA_1
    accumulatorBlockHash := 0
    coinSerialNumber := p.emptyScalar
    ecdsaSignature := []
    ecdsaPubkey := []
    sigmaProof := p.emptyProof }

/-- The stream constructor `CoinSpend(const Params* p, Stream& strm)`, that is
`strm >> *this` on the initial object: the object built and the rest of the stream,
or `none` when a read throws. -/
def CoinSpend.fromStream (p : Params Scalar SigmaPlusProof CoinDenomination)
    (strm : CDataStream) :
    Option (CoinSpend Scalar SigmaPlusProof CoinDenomination × CDataStream) :=
  (CoinSpend.SerializationOp p .CSerActionUnserialize strm (CoinSpend.init p)).map
    fun r => (r.2, r.1)

/-- The member operations that the header defines in full. -/
inductive MemberOp where
  | setVersion (nVersion : Nat)
  | getVersion
  | getAccumulatorBlockHash
  deriving DecidableEq, Repr

/-- The object after a call of a member operation: `setVersion` assigns the version,
the two accessors are `const`. -/
def CoinSpend.call (self : CoinSpend Scalar SigmaPlusProof CoinDenomination) :
    MemberOp → CoinSpend Scalar SigmaPlusProof CoinDenomination
  | .setVersion nVersion => self.setVersion nVersion
  | .getVersion => self
  | .getAccumulatorBlockHash => self

/-- Each member's codec round-trips at the value the spend holds; for the denomination
this is the `int64_t` codec at the wire integer, and `IntegerToDenomination` giving the
denomination back from that integer. -/
def CoinSpend.FieldsRoundTrip (p : Params Scalar SigmaPlusProof CoinDenomination)
    (self : CoinSpend Scalar SigmaPlusProof CoinDenomination) : Prop :=
  p.proofCodec.RoundTripsAt self.sigmaProof ∧
  p.scalarCodec.RoundTripsAt self.coinSerialNumber ∧
  p.uintCodec.RoundTripsAt self.version ∧
  p.int64Codec.RoundTripsAt (p.DenominationToInteger self.denomination (-1)).2 ∧
  (∀ denom_out, (p.IntegerToDenomination (p.DenominationToInteger self.denomination (-1)).2
      denom_out).2 = self.denomination) ∧
  p.uint256Codec.RoundTripsAt self.accumulatorBlockHash ∧
  p.vectorCodec.RoundTripsAt self.ecdsaPubkey ∧
  p.vectorCodec.RoundTripsAt self.ecdsaSignature

/-- Every codec of the parameters is canonical. -/
def Params.Canonical (p : Params Scalar SigmaPlusProof CoinDenomination) : Prop :=
  p.proofCodec.Canonical ∧ p.scalarCodec.Canonical ∧ p.uintCodec.Canonical ∧
  p.int64Codec.Canonical ∧ p.uint256Codec.Canonical ∧ p.vectorCodec.Canonical

/-- The layout in the words of the specification: the denomination as an integer, the
proof, the serial number, the version, the ECDSA public key and signature, and the
reference hash last. -/
def CoinSpend.specLayout (p : Params Scalar SigmaPlusProof CoinDenomination)
    (self : CoinSpend Scalar SigmaPlusProof CoinDenomination) : List Byte :=
  p.int64Codec.Serialize (p.DenominationToInteger self.denomination (-1)).2
    ++ p.proofCodec.Serialize self.sigmaProof
    ++ p.scalarCodec.Serialize self.coinSerialNumber
    ++ p.uintCodec.Serialize self.version
    ++ p.vectorCodec.Serialize self.ecdsaPubkey
    ++ p.vectorCodec.Serialize self.ecdsaSignature
    ++ p.uint256Codec.Serialize self.accumulatorBlockHash

end sigma

/-! ## `libzerocoin::CoinSpend` -/

namespace libzerocoin

/-- The members of `libzerocoin::CoinSpend` that hold data.  The denomination is kept
as an `int`, as the header says. -/
structure CoinSpend (Bignum AccumulatorProofOfKnowledge SerialNumberSignatureOfKnowledge
    CommitmentProofOfKnowledge : Type) where
  denomination : Int
  version : Nat
  accCommitmentToCoinValue : Bignum
  serialCommitmentToCoinValue : Bignum
  coinSerialNumber : Bignum
  ecdsaSignature : List Byte
  ecdsaPubkey : List Byte
  accumulatorPoK : AccumulatorProofOfKnowledge
  serialNumberSoK : SerialNumberSignatureOfKnowledge
  commitmentPoK : CommitmentProofOfKnowledge
  accumulatorBlockHash : Nat

/-- What `libzerocoin::CoinSpend` uses from outside its header: the codecs behind
`READWRITE` for each member type, the constant `ZQ_ONE`, and the values the members
are initialised with. -/
structure Params (Bignum AccumulatorProofOfKnowledge SerialNumberSignatureOfKnowledge
    CommitmentProofOfKnowledge : Type) where
  intCodec : FieldCodec Int
  uintCodec : FieldCodec Nat
  bignumCodec : FieldCodec Bignum
  accumulatorPoKCodec : FieldCodec AccumulatorProofOfKnowledge
  serialNumberSoKCodec : FieldCodec SerialNumberSignatureOfKnowledge
  commitmentPoKCodec : FieldCodec CommitmentProofOfKnowledge
  uint256Codec : FieldCodec Nat
  vectorCodec : FieldCodec (List Byte)
  ZQ_ONE : Int
  emptyBignum : Bignum
  emptyAccumulatorPoK : AccumulatorProofOfKnowledge
  emptySerialNumberSoK : SerialNumberSignatureOfKnowledge
  emptyCommitmentPoK : CommitmentProofOfKnowledge

variable {Bignum AccumulatorProofOfKnowledge SerialNumberSignatureOfKnowledge
  CommitmentProofOfKnowledge : Type}

/-- The method `setVersion(unsigned int nVersion)`. -/
def CoinSpend.setVersion
    (self : CoinSpend Bignum AccumulatorProofOfKnowledge SerialNumberSignatureOfKnowledge
      CommitmentProofOfKnowledge) (nVersion : Nat) :
    CoinSpend Bignum AccumulatorProofOfKnowledge SerialNumberSignatureOfKnowledge
      CommitmentProofOfKnowledge :=
  { self with version := nVersion % 2 ^ 32 }

/-- The method `getVersion()`: the unsigned member converted to `int`. -/
def CoinSpend.getVersion
    (self : CoinSpend Bignum AccumulatorProofOfKnowledge SerialNumberSignatureOfKnowledge
      CommitmentProofOfKnowledge) : Int :=
  if self.version % 2 ^ 32 < 2 ^ 31 then (self.version % 2 ^ 32 : Nat)
  else (self.version % 2 ^ 32 : Nat) - 2 ^ 32

/-- The method `getAccumulatorBlockHash()`. -/
def CoinSpend.getAccumulatorBlockHash
    (self : CoinSpend Bignum AccumulatorProofOfKnowledge SerialNumberSignatureOfKnowledge
      CommitmentProofOfKnowledge) : Nat :=
  self.accumulatorBlockHash

/-- The method `SerializationOp(s, ser_action)`: eleven `READWRITE`s in the order of
the header.  Each yields the stream after it (`.1`) and the member after it (`.2`);
the object after the call is made of these members. -/
def CoinSpend.SerializationOp
    (p : Params Bignum AccumulatorProofOfKnowledge SerialNumberSignatureOfKnowledge
      CommitmentProofOfKnowledge)
    (ser_action : SerAction) (s : CDataStream)
    (self : CoinSpend Bignum AccumulatorProofOfKnowledge SerialNumberSignatureOfKnowledge
      CommitmentProofOfKnowledge) :
    Option (CDataStream × CoinSpend Bignum AccumulatorProofOfKnowledge
      SerialNumberSignatureOfKnowledge CommitmentProofOfKnowledge) := do
  let denomination ← READWRITE p.intCodec ser_action s self.denomination
  let accCommitmentToCoinValue ←
    READWRITE p.bignumCodec ser_action denomination.1 self.accCommitmentToCoinValue
  let serialCommitmentToCoinValue ←
    READWRITE p.bignumCodec ser_action accCommitmentToCoinValue.1
      self.serialCommitmentToCoinValue
  let coinSerialNumber ←
    READWRITE p.bignumCodec ser_action serialCommitmentToCoinValue.1 self.coinSerialNumber
  let accumulatorPoK ←
    READWRITE p.accumulatorPoKCodec ser_action coinSerialNumber.1 self.accumulatorPoK
  let serialNumberSoK ←
    READWRITE p.serialNumberSoKCodec ser_action accumulatorPoK.1 self.serialNumberSoK
  let commitmentPoK ←
    READWRITE p.commitmentPoKCodec ser_action serialNumberSoK.1 self.commitmentPoK
  let version ← READWRITE p.uintCodec ser_action commitmentPoK.1 self.version
  let ecdsaPubkey ← READWRITE p.vectorCodec ser_action version.1 self.ecdsaPubkey
  let ecdsaSignature ← READWRITE p.vectorCodec ser_action ecdsaPubkey.1 self.ecdsaSignature
  let accumulatorBlockHash ←
    READWRITE p.uint256Codec ser_action ecdsaSignature.1 self.accumulatorBlockHash
  pure (accumulatorBlockHash.1,
        { denomination := denomination.2
          version := version.2
          accCommitmentToCoinValue := accCommitmentToCoinValue.2
          serialCommitmentToCoinValue := serialCommitmentToCoinValue.2
          coinSerialNumber := coinSerialNumber.2
          ecdsaSignature := ecdsaSignature.2
          ecdsaPubkey := ecdsaPubkey.2
          accumulatorPoK := accumulatorPoK.2
          serialNumberSoK := serialNumberSoK.2
          commitmentPoK := commitmentPoK.2
          accumulatorBlockHash := accumulatorBlockHash.2 })

/-- The bytes of a spend: what `strm << spend` leaves in an empty stream. -/
def CoinSpend.Serialize
    (p : Params Bignum AccumulatorProofOfKnowledge SerialNumberSignatureOfKnowledge
      CommitmentProofOfKnowledge)
    (self : CoinSpend Bignum AccumulatorProofOfKnowledge SerialNumberSignatureOfKnowledge
      CommitmentProofOfKnowledge) : List Byte :=
  match CoinSpend.SerializationOp p .CSerActionSerialize [] self with
  | some (s, _) => s
  | none => []

/-- The object the stream constructor holds before it reads: `denomination(ZQ_ONE)`,
the three proofs built from the parameters, `version = 0`, the other members
default-constructed. -/
def CoinSpend.init
    (p : Params Bignum AccumulatorProofOfKnowledge SerialNumberSignatureOfKnowledge
      CommitmentProofOfKnowledge) :
    CoinSpend Bignum AccumulatorProofOfKnowledge SerialNumberSignatureOfKnowledge
      CommitmentProofOfKnowledge :=
  { denomination := p.ZQ_ONE
    version := 0
    accCommitmentToCoinValue := p.emptyBignum
    serialCommitmentToCoinValue := p.emptyBignum
    coinSerialNumber := p.emptyBignum
    ecdsaSignature := []
    ecdsaPubkey := []
    accumulatorPoK := p.emptyAccumulatorPoK
    serialNumberSoK := p.emptySerialNumberSoK
    commitmentPoK := p.emptyCommitmentPoK
    accumulatorBlockHash := 0 }

/-- The stream constructor `CoinSpend(const Params* p, Stream& strm)`, that is
`strm >> *this` on the initial object: the object built and the rest of the stream,
or `none` when a read throws. -/
def CoinSpend.fromStream
    (p : Params Bignum AccumulatorProofOfKnowledge SerialNumberSignatureOfKnowledge
      CommitmentProofOfKnowledge)
    (strm : CDataStream) :
    Option (CoinSpend Bignum AccumulatorProofOfKnowledge SerialNumberSignatureOfKnowledge
      CommitmentProofOfKnowledge × CDataStream) :=
  (CoinSpend.SerializationOp p .CSerActionUnserialize strm (CoinSpend.init p)).map
    fun r => (r.2, r.1)

/-- The member operations that the header defines in full. -/
inductive MemberOp where
  | setVersion (nVersion : Nat)
  | getVersion
  | getAccumulatorBlockHash
  deriving DecidableEq, Repr

/-- The object after a call of a member operation: `setVersion` assigns the version,
the two accessors are `const`. -/
def CoinSpend.call
    (self : CoinSpend Bignum AccumulatorProofOfKnowledge SerialNumberSignatureOfKnowledge
      CommitmentProofOfKnowledge) :
    MemberOp → CoinSpend Bignum AccumulatorProofOfKnowledge SerialNumberSignatureOfKnowledge
      CommitmentProofOfKnowledge
  | .setVersion nVersion => self.setVersion nVersion
  | .getVersion => self
  | .getAccumulatorBlockHash => self

/-- Every codec of the parameters is canonical. -/
def Params.Canonical
    (p : Params Bignum AccumulatorProofOfKnowledge SerialNumberSignatureOfKnowledge
      CommitmentProofOfKnowledge) : Prop :=
  p.intCodec.Canonical ∧ p.uintCodec.Canonical ∧ p.bignumCodec.Canonical ∧
  p.accumulatorPoKCodec.Canonical ∧ p.serialNumberSoKCodec.Canonical ∧
  p.commitmentPoKCodec.Canonical ∧ p.uint256Codec.Canonical ∧ p.vectorCodec.Canonical

/-- Each member's codec round-trips at the value the spend holds. -/
def CoinSpend.FieldsRoundTrip
    (p : Params Bignum AccumulatorProofOfKnowledge SerialNumberSignatureOfKnowledge
      CommitmentProofOfKnowledge)
    (self : CoinSpend Bignum AccumulatorProofOfKnowledge SerialNumberSignatureOfKnowledge
      CommitmentProofOfKnowledge) : Prop :=
  p.intCodec.RoundTripsAt self.denomination ∧
  p.bignumCodec.RoundTripsAt self.accCommitmentToCoinValue ∧
  p.bignumCodec.RoundTripsAt self.serialCommitmentToCoinValue ∧
  p.bignumCodec.RoundTripsAt self.coinSerialNumber ∧
  p.accumulatorPoKCodec.RoundTripsAt self.accumulatorPoK ∧
  p.serialNumberSoKCodec.RoundTripsAt self.serialNumberSoK ∧
  p.commitmentPoKCodec.RoundTripsAt self.commitmentPoK ∧
  p.uintCodec.RoundTripsAt self.version ∧
  p.vectorCodec.RoundTripsAt self.ecdsaPubkey ∧
  p.vectorCodec.RoundTripsAt self.ecdsaSignature ∧
  p.uint256Codec.RoundTripsAt self.accumulatorBlockHash

end libzerocoin

/-! ## An instance of the field codecs

Fixed-width little-endian integers and byte vectors behind a compact-size length, as
the stream operators of the code base write them. -/

/-- Modelled from the spec: `serialize.h` is not among the embedded files.  The `k`
low-order bytes of `n`, least significant first: the fixed-width integer encoding. -/
def WriteLE : Nat → Nat → List Byte
  | 0, _ => []
  | k + 1, n => ⟨n % 256, Nat.mod_lt n (by decide)⟩ :: WriteLE k (n / 256)

/-- Modelled from the spec: `serialize.h` is not among the embedded files.  The number
that a little-endian byte string stands for. -/
def ReadLE : List Byte → Nat
  | [] => 0
  | b :: bs => b.val + 256 * ReadLE bs

/-- Modelled from the spec: `serialize.h` is not among the embedded files.  An unsigned
integer of `k` bytes (`unsigned int` for `k = 4`, `uint256` for `k = 32`); reading
throws when fewer than `k` bytes are left. -/
def fixedUInt (k : Nat) : FieldCodec Nat where
  Serialize := fun n => WriteLE k n
  Unserialize := fun s =>
    if k ≤ s.length then some (ReadLE (s.take k), s.drop k) else none

/-- Modelled from the spec: `serialize.h` is not among the embedded files.  A signed
two-complement integer of `k` bytes (`int` for `k = 4`, `int64_t` for `k = 8`). -/
def fixedInt (k : Nat) : FieldCodec Int where
  Serialize := fun z => WriteLE k (z % 256 ^ k).toNat
  Unserialize := fun s =>
    if k ≤ s.length then
      some (if 2 * ReadLE (s.take k) < 256 ^ k then (ReadLE (s.take k) : Int)
            else (ReadLE (s.take k) : Int) - 256 ^ k, s.drop k)
    else none

/-- Modelled from the spec: `serialize.h` is not among the embedded files.  The largest
size a length prefix may announce. -/
def MAX_SIZE : Nat := 0x02000000

/-- Modelled from the spec: `serialize.h` is not among the embedded files.  The
variable-length size prefix: one byte below 253, otherwise a marker byte and 2, 4 or
8 bytes. -/
def WriteCompactSize (nSize : Nat) : List Byte :=
  if nSize < 253 then WriteLE 1 nSize
  else if nSize ≤ 0xFFFF then 253 :: WriteLE 2 nSize
  else if nSize ≤ 0xFFFFFFFF then 254 :: WriteLE 4 nSize
  else 255 :: WriteLE 8 nSize

/-- Modelled from the spec: `serialize.h` is not among the embedded files.  Reading a
size prefix; a size that a shorter form could hold, or one above `MAX_SIZE`, throws. -/
def ReadCompactSize (s : CDataStream) : Option (Nat × CDataStream) :=
  match s with
  | [] => none
  | chSize :: s =>
    let r : Option (Nat × CDataStream) :=
      if chSize.val < 253 then some (chSize.val, s)
      else if chSize.val = 253 then
        ((fixedUInt 2).Unserialize s).bind fun r => if r.1 < 253 then none else some r
      else if chSize.val = 254 then
        ((fixedUInt 4).Unserialize s).bind fun r => if r.1 < 0x10000 then none else some r
      else
        ((fixedUInt 8).Unserialize s).bind fun r => if r.1 < 0x100000000 then none else some r
    r.bind fun r => if MAX_SIZE < r.1 then none else some r

/-- Modelled from the spec: `serialize.h` is not among the embedded files.  A byte
vector: its length as a compact size, then its bytes. -/
def byteVector : FieldCodec (List Byte) where
  Serialize := fun v => WriteCompactSize v.length ++ v
  Unserialize := fun s =>
    (ReadCompactSize s).bind fun r =>
      if r.1 ≤ r.2.length then some (r.2.take r.1, r.2.drop r.1) else none

/-- Modelled from the spec: `sigma/coin.h` is not among the embedded files; only the
enumerator `SIGMA_1` is named in `sigma/coinspend.h`.  A denomination table with two
entries stands for it here. -/
inductive CoinDenomination where
  | SIGMA_1
  | SIGMA_10
  deriving DecidableEq, Repr

/-- Modelled from the spec: the constant `COIN` of `amount.h`, which is not among the
embedded files: the number of base units in one coin. -/
def COIN : Int := 100000000

/-- Modelled from the spec: `sigma/coin.h` is not among the embedded files.  The
conversion from the wire integer: a value in the table sets the output and returns
`true`; any other value returns `false` and leaves the output as it was. -/
def IntegerToDenomination (value : Int) (denom_out : CoinDenomination) :
    Bool × CoinDenomination :=
  if value = 1 * COIN then (true, .SIGMA_1)
  else if value = 10 * COIN then (true, .SIGMA_10)
  else (false, denom_out)

/-- Modelled from the spec: `sigma/coin.h` is not among the embedded files.  The
conversion to the wire integer. -/
def DenominationToInteger (denom : CoinDenomination) (_denom_out : Int) : Bool × Int :=
  match denom with
  | .SIGMA_1 => (true, 1 * COIN)
  | .SIGMA_10 => (true, 10 * COIN)

/-- The sigma parameters with the codecs above: a scalar is 32 bytes, the proof is
carried as a byte vector. -/
def sigma.sampleParams : sigma.Params Nat (List Byte) CoinDenomination where
  proofCodec := byteVector
  scalarCodec := fixedUInt 32
  uintCodec := fixedUInt 4
  int64Codec := fixedInt 8
  uint256Codec := fixedUInt 32
  vectorCodec := byteVector
  SIGMA_1 := .SIGMA_1
  IntegerToDenomination := IntegerToDenomination
  DenominationToInteger := DenominationToInteger
  emptyScalar := 0
  emptyProof := []

/-- The legacy parameters with the codecs above: a big number and each of the three
proofs are carried as byte vectors. -/
def libzerocoin.sampleParams :
    libzerocoin.Params (List Byte) (List Byte) (List Byte) (List Byte) where
  intCodec := fixedInt 4
  uintCodec := fixedUInt 4
  bignumCodec := byteVector
  accumulatorPoKCodec := byteVector
  serialNumberSoKCodec := byteVector
  commitmentPoKCodec := byteVector
  uint256Codec := fixedUInt 32
  vectorCodec := byteVector
  ZQ_ONE := 1
  emptyBignum := []
  emptyAccumulatorPoK := []
  emptySerialNumberSoK := []
  emptyCommitmentPoK := []

/-- A sigma spend of denomination `SIGMA_10`. -/
def sigma.sampleSpend : sigma.CoinSpend Nat (List Byte) CoinDenomination where
  version := 30
  denomination := .SIGMA_10
  accumulatorBlockHash := 0xabcdef
  coinSerialNumber := 0x1234
  ecdsaSignature := [7, 8, 9]
  ecdsaPubkey := [2, 5]
  sigmaProof := [1, 2, 3, 4]

/-- A legacy spend. -/
def libzerocoin.sampleSpend :
    libzerocoin.CoinSpend (List Byte) (List Byte) (List Byte) (List Byte) where
  denomination := 10
  version := 2
  accCommitmentToCoinValue := [11, 12]
  serialCommitmentToCoinValue := [13]
  coinSerialNumber := [14, 15, 16]
  ecdsaSignature := [7, 8, 9]
  ecdsaPubkey := [2, 5]
  accumulatorPoK := [21]
  serialNumberSoK := [22, 23]
  commitmentPoK := [24]
  accumulatorBlockHash := 0xabcdef

/-! ## The send RPC of the HD wallet (`wallet/hd/rpchdwallet.cpp`) -/

/-- Modelled from the spec: the `univalue` library is not among the embedded files.  A
JSON value; a number keeps its text, as the library does. -/
inductive UniValue where
  | VNULL
  | VOBJ (members : List (String × UniValue))
  | VARR (values : List UniValue)
  | VSTR (val : String)
  | VNUM (val : String)
  | VBOOL (val : Bool)

/-- The error codes of `rpc/protocol.h` that the embedded functions raise. -/
inductive RPCErrorCode where
  | RPC_MISC_ERROR
  | RPC_TYPE_ERROR
  | RPC_INVALID_ADDRESS_OR_KEY
  | RPC_INVALID_PARAMETER
  | RPC_CLIENT_P2P_DISABLED
  | RPC_WALLET_ERROR
  | RPC_WALLET_INSUFFICIENT_FUNDS
  | RPC_WALLET_UNLOCK_NEEDED
  | RPC_WALLET_NOT_FOUND
  | RPC_WALLET_NOT_SPECIFIED
  | RPC_METHOD_NOT_FOUND
  deriving DecidableEq, Repr

/-- What a function of the RPC layer throws: the object built by `JSONRPCError(code,
message)`, or a `std::runtime_error`. -/
inductive Exception where
  | JSONRPCError (code : RPCErrorCode) (message : String)
  | runtime_error (what : String)
  deriving DecidableEq, Repr

namespace UniValue

/-- Modelled from the spec: `univalue.h` is not among the embedded files.  The constant
`NullUniValue`. -/
def NullUniValue : UniValue := .VNULL

/-- Modelled from the spec: `univalue.h` is not among the embedded files.  The method
`size()`: the number of elements of an array or members of an object, else 0. -/
def size : UniValue → Nat
  | .VARR values => values.length
  | .VOBJ members => members.length
  | _ => 0

/-- Modelled from the spec: `univalue.h` is not among the embedded files.  The method
`operator[](size_t)`: the element at `index`, or null when there is none. -/
def atIndex : UniValue → Nat → UniValue
  | .VARR values, index => values.getD index NullUniValue
  | .VOBJ members, index => (members.map Prod.snd).getD index NullUniValue
  | _, _ => NullUniValue

/-- Modelled from the spec: `univalue.h` is not among the embedded files.  The value
kept under the first occurrence of `key`. -/
def findKey : List (String × UniValue) → String → Option UniValue
  | [], _ => none
  | (k, v) :: rest, key => if k = key then some v else findKey rest key

/-- Modelled from the spec: `univalue.h` is not among the embedded files.  The method
`exists(key)`. -/
def existsKey : UniValue → String → Bool
  | .VOBJ members, key => (findKey members key).isSome
  | _, _ => false

/-- Modelled from the spec: `univalue.h` is not among the embedded files.  The method
`operator[](key)`: the member under `key`, or null when there is none. -/
def atKey : UniValue → String → UniValue
  | .VOBJ members, key => (findKey members key).getD NullUniValue
  | _, _ => NullUniValue

/-- Modelled from the spec: `univalue.h` is not among the embedded files. -/
def isNull : UniValue → Bool
  | .VNULL => true
  | _ => false

/-- Modelled from the spec: `univalue.h` is not among the embedded files. -/
def isArray : UniValue → Bool
  | .VARR _ => true
  | _ => false

/-- Modelled from the spec: `univalue.h` is not among the embedded files. -/
def isObject : UniValue → Bool
  | .VOBJ _ => true
  | _ => false

/-- Modelled from the spec: `univalue.h` is not among the embedded files.  The method
`get_str()`, which throws on a value that is no string. -/
def get_str : UniValue → Except Exception String
  | .VSTR val => .ok val
  | _ => .error (.runtime_error "JSON value is not a string as expected")

/-- Modelled from the spec: `univalue.h` is not among the embedded files.  The method
`get_bool()`, which throws on a value that is no boolean. -/
def get_bool : UniValue → Except Exception Bool
  | .VBOOL val => .ok val
  | _ => .error (.runtime_error "JSON value is not a boolean as expected")

/-- Modelled from the spec: `univalue.h` is not among the embedded files.  The method
`get_int()`: throws on a value that is no number or whose text is no 32-bit integer;
`ParseInt32` is the parser of `utilstrencodings.h`. -/
def get_int (ParseInt32 : String → Option Int) : UniValue → Except Exception Int
  | .VNUM val =>
    match ParseInt32 val with
    | some n => .ok n
    | none => .error (.runtime_error "JSON integer out of range")
  | _ => .error (.runtime_error "JSON value is not an integer as expected")

/-- Modelled from the spec: `univalue.h` is not among the embedded files.  The method
`erase(first, last)` of an array: the elements at `first`, ..., `last - 1` are
removed. -/
def erase : UniValue → Nat → Nat → UniValue
  | .VARR values, first, last => .VARR (values.take first ++ values.drop last)
  | v, _, _ => v

end UniValue

/-- The output types named in the file; `WordToType` knows no other. -/
inductive OutputTypes where
  | OUTPUT_NULL
  | OUTPUT_STANDARD
  deriving DecidableEq, Repr

/-- The number `strprintf` prints for an output type under `%d`. -/
def OutputTypes.toInt : OutputTypes → Int
  | .OUTPUT_NULL => 0
  | .OUTPUT_STANDARD => 1

/-- The members of `CTempRecipient` that the send RPC reads or writes. -/
structure CTempRecipient where
  nType : OutputTypes
  nAmount : Int
  nAmountSelected : Int
  fSubtractFeeFromAmount : Bool
  address : String
  sNarration : String
  scriptPubKey : List Byte
  fScriptSet : Bool
  fChange : Bool
  n : Int

/-- What the send RPC asks of a built transaction: `GetHash().GetHex()`,
`GetVirtualTransactionSize` and `EncodeHexTx`. -/
structure CTransaction where
  hash : String
  vsize : Int
  hex : String

/-- A wallet transaction: the `mapValue` of comments and narrations, and the
transaction itself. -/
structure CWalletTx where
  mapValue : List (String × String)
  tx : CTransaction

/-- The keys of a transaction record's `mapValue` that the send RPC sets. -/
inductive RTxValueType where
  | RTXVT_COMMENT
  | RTXVT_TO
  deriving DecidableEq, Repr

/-- A transaction record: its `mapValue`. -/
structure CTransactionRecord where
  mapValue : List (RTxValueType × String)

/-- The coin-control settings, as far as the send RPC reads them back. -/
structure CCoinControl where
  fNeedHardwareKey : Bool
  settings : UniValue

/-- What `AddStandardInputs` leaves behind: its return value and the arguments it
received by reference. -/
structure AddStandardInputsResult where
  rv : Int
  wtx : CWalletTx
  rtx : CTransactionRecord
  vecSend : List CTempRecipient
  nFeeRet : Int
  coincontrol : CCoinControl
  sError : String

/-- The wallet, as the send RPC sees it: the methods of `CHDWallet` it calls.
`CommitTransaction` takes the record when the overload with a record is called and
returns the `bool` result with the message of the validation state. -/
structure CHDWallet where
  GetName : String
  IsLocked : Bool
  GetBroadcastTransactions : Bool
  GetBalance : Int
  AddStandardInputs : CWalletTx → CTransactionRecord → List CTempRecipient → Bool →
    CCoinControl → AddStandardInputsResult
  CommitTransaction : CWalletTx → Option CTransactionRecord → Bool × String

/-- What the send RPC uses from outside the file: the loaded wallets, the connection
manager, and helper functions of other translation units.  `ReadCoinControl` stands
for the block that fills the `CCoinControl` from the coin-control object and reports
its `debug` flag; `sendtypetoHelp` is the usage text. -/
structure Externals where
  vpwallets : List CHDWallet
  g_connman : Bool
  urlDecode : String → String
  ObserveSafeMode : Except Exception Unit
  IsValidStealthAddress : String → Bool
  IsValid : String → Bool
  AmountFromValue : UniValue → Except Exception Int
  ValueFromAmount : Int → UniValue
  ParseHex : String → List Byte
  ParseInt32 : String → Option Int
  TrimQuotes : String → String
  ReadCoinControl : UniValue → Except Exception (CCoinControl × Bool)
  sendtypetoHelp : String

/-- The members of `JSONRPCRequest` that the send RPC reads. -/
structure JSONRPCRequest where
  params : UniValue
  fHelp : Bool
  URI : String
  fSkipBlock : Bool

/-- What a call of an RPC function did: the value it returned or the exception it
threw, and the transactions it passed to `CommitTransaction`, in order. -/
structure RPCOutcome where
  result : Except Exception UniValue
  committed : List (CWalletTx × Option CTransactionRecord)

/-- The constant `WALLET_ENDPOINT_BASE`. -/
def WALLET_ENDPOINT_BASE : String := "/wallet/"

/-- The function `EnsureWalletIsUnlocked`. -/
def EnsureWalletIsUnlocked (pwallet : CHDWallet) : Except Exception Unit :=
  if pwallet.IsLocked then
    throw (.JSONRPCError .RPC_WALLET_UNLOCK_NEEDED
      "Error: Wallet locked, please enter the wallet passphrase with walletpassphrase first.")
  else pure ()

/-- The function `GetHDWalletForJSONRPCRequest`: the wallet named by a wallet endpoint,
else the only loaded wallet, else null. -/
def GetHDWalletForJSONRPCRequest (ext : Externals) (request : JSONRPCRequest) :
    Except Exception (Option CHDWallet) :=
  if WALLET_ENDPOINT_BASE.data.isPrefixOf request.URI.data then
    let requestedWallet :=
      ext.urlDecode (String.mk (request.URI.data.drop WALLET_ENDPOINT_BASE.data.length))
    match ext.vpwallets.find? (fun pwallet => pwallet.GetName == requestedWallet) with
    | some pwallet => pure (some pwallet)
    | none =>
      throw (.JSONRPCError .RPC_WALLET_NOT_FOUND
        "Requested wallet does not exist or is not loaded")
  else if ext.vpwallets.length == 1 || (request.fHelp && ext.vpwallets.length > 0) then
    pure ext.vpwallets.head?
  else pure none

/-- Modelled from the spec: `wallet/rpcwallet.cpp` is not among the embedded files.  The
function `EnsureWalletIsAvailable(pwallet, avoidException)`: `true` on a wallet; on a
null pointer `false` when exceptions are to be avoided, else it throws. -/
def EnsureWalletIsAvailable (ext : Externals) (pwallet : Option CHDWallet)
    (avoidException : Bool) : Except Exception Bool :=
  match pwallet with
  | some _ => pure true
  | none =>
    if avoidException then pure false
    else if ext.vpwallets.isEmpty then
      throw (.JSONRPCError .RPC_METHOD_NOT_FOUND
        "Method not found (wallet method is disabled because no wallet is loaded)")
    else
      throw (.JSONRPCError .RPC_WALLET_NOT_SPECIFIED
        "Wallet file not specified (must request wallet RPC through /wallet/<filename> uri-path).")

/-- The function `AddOutput`: a recipient is appended to `vecSend`; the return value
is always 0. -/
def AddOutput (nType : OutputTypes) (vecSend : List CTempRecipient) (address : String)
    (nValue : Int) (fSubtractFeeFromAmount : Bool) (sNarr : String) :
    Int × List CTempRecipient :=
  (0, vecSend ++ [{ nType := nType, nAmount := nValue, nAmountSelected := nValue,
                    fSubtractFeeFromAmount := fSubtractFeeFromAmount, address := address,
                    sNarration := sNarr, scriptPubKey := [], fScriptSet := false,
                    fChange := false, n := 0 }])

/-- An assignment `m[key] = value` of a `std::map`, kept as an association list. -/
def mapAssign {κ ν : Type} [DecidableEq κ] :
    List (κ × ν) → κ → ν → List (κ × ν)
  | [], key, value => [(key, value)]
  | (k, v) :: rest, key, value =>
    if k = key then (k, value) :: rest else (k, v) :: mapAssign rest key value

/-- The update of `mapChanged` in the fee report: the amount is added under the
address, and the map stays ordered by key. -/
def mapChangedAdd : List (String × Int) → String → Int → List (String × Int)
  | [], sAddr, nAmount => [(sAddr, nAmount)]
  | (k, v) :: rest, sAddr, nAmount =>
    if k = sAddr then (k, v + nAmount) :: rest
    else if sAddr < k then (sAddr, nAmount) :: (k, v) :: rest
    else (k, v) :: mapChangedAdd rest sAddr nAmount

/-- The loop of `SendToInner` over the array of outputs, from output `k` on: each
output object is checked and appended to `vecSend`, and its amount is added to
`nTotal`. -/
def SendToInner.outputs (ext : Externals) (typeOut : OutputTypes) :
    List UniValue → List CTempRecipient × Int → Except Exception (List CTempRecipient × Int)
  | [], acc => pure acc
  | obj :: rest, (vecSend, nTotal) => do
    let sError := ""
    if !obj.isObject then
      throw (.JSONRPCError .RPC_TYPE_ERROR "Not an object")
    let sAddress ←
      if obj.existsKey "address" then (obj.atKey "address").get_str
      else throw (.JSONRPCError .RPC_INVALID_PARAMETER "Must provide an address.")
    if !ext.IsValidStealthAddress sAddress then
      throw (.JSONRPCError .RPC_INVALID_ADDRESS_OR_KEY "Invalid NIX stealth address")
    if !obj.existsKey "script" && !ext.IsValid sAddress then
      throw (.JSONRPCError .RPC_INVALID_ADDRESS_OR_KEY "Invalid NIX address")
    let nAmount ←
      if obj.existsKey "amount" then ext.AmountFromValue (obj.atKey "amount")
      else throw (.JSONRPCError .RPC_INVALID_PARAMETER "Must provide an amount.")
    if nAmount ≤ 0 then
      throw (.JSONRPCError .RPC_TYPE_ERROR "Invalid amount")
    let nTotal := nTotal + nAmount
    let fSubtractFeeFromAmount ←
      if obj.existsKey "subfee" then (obj.atKey "subfee").get_bool else pure false
    let sNarr ← if obj.existsKey "narr" then (obj.atKey "narr").get_str else pure ""
    let (rv, vecSend) := AddOutput typeOut vecSend sAddress nAmount fSubtractFeeFromAmount sNarr
    if 0 ≠ rv then
      throw (.JSONRPCError .RPC_MISC_ERROR ("AddOutput failed: " ++ sError ++ "."))
    let vecSend ←
      if obj.existsKey "script" then do
        -- the statement under this test builds the error object and drops it: there
        -- is no throw in front of it
        let _dropped : Option Exception :=
          if sAddress ≠ "script" then
            some (.JSONRPCError .RPC_INVALID_PARAMETER
              "address parameter must be 'script' to set script explicitly.")
          else none
        let sScript ← (obj.atKey "script").get_str
        let scriptData := ext.ParseHex sScript
        let vecSend := vecSend.dropLast ++
          (vecSend.getLast?.map fun r =>
            { r with scriptPubKey := scriptData, fScriptSet := true }).toList
        if typeOut ≠ .OUTPUT_STANDARD then
          throw (.runtime_error "In progress, setting script only works for standard outputs.")
        pure vecSend
      else pure vecSend
    SendToInner.outputs ext typeOut rest (vecSend, nTotal)

/-- The locals of `SendToInner` once the inputs have been added. -/
structure SendToInner.Locals where
  wtx : CWalletTx
  rtx : CTransactionRecord
  vecSend : List CTempRecipient
  nFeeRet : Int
  fShowHex : Bool
  fCheckFeeOnly : Bool
  coincontrol : CCoinControl

/-- The recipients that `SendToInner` has parsed, with the offsets that the form of
the outputs sets for the comment, `test_fee` and coin-control parameters. -/
structure SendToInner.Recipients where
  vecSend : List CTempRecipient
  nTotal : Int
  nCommentOfs : Nat
  nTestFeeOfs : Nat
  nCoinControlOfs : Nat

/-- The part of `SendToInner` that reads the recipients: an array of output objects in
parameter 0, or else one address in parameter 0 with its amount in parameter 1, the
fee flag in parameter 4 and the narration (at most 24 characters) in parameter 5. -/
def SendToInner.recipients (ext : Externals) (request : JSONRPCRequest)
    (typeOut : OutputTypes) : Except Exception SendToInner.Recipients := do
  let nTotal : Int := 0
  let vecSend : List CTempRecipient := []
  let sError := ""
  -- size_t nCommentOfs = 2; size_t nTestFeeOfs = 99; size_t nCoinControlOfs = 99;
  if (request.params.atIndex 0).isArray then do
    let outputs ← match request.params.atIndex 0 with
      | .VARR values => pure values
      | _ => throw (.runtime_error "JSON value is not an array as expected")
    let (vecSend, nTotal) ← SendToInner.outputs ext typeOut outputs (vecSend, nTotal)
    pure { vecSend := vecSend, nTotal := nTotal,
           nCommentOfs := 1, nTestFeeOfs := 5, nCoinControlOfs := 6 }
  else do
    let sAddress ← (request.params.atIndex 0).get_str
    if !ext.IsValidStealthAddress sAddress then
      throw (.JSONRPCError .RPC_INVALID_ADDRESS_OR_KEY "Invalid NIX stealth address")
    if !ext.IsValid sAddress then
      throw (.JSONRPCError .RPC_INVALID_ADDRESS_OR_KEY "Invalid NIX address")
    let nAmount ← ext.AmountFromValue (request.params.atIndex 1)
    if nAmount ≤ 0 then
      throw (.JSONRPCError .RPC_TYPE_ERROR "Invalid amount")
    let nTotal := nTotal + nAmount
    let fSubtractFeeFromAmount ←
      if request.params.size > 4 then (request.params.atIndex 4).get_bool else pure false
    let sNarr ←
      if request.params.size > 5 then do
        let sNarr ← (request.params.atIndex 5).get_str
        if sNarr.utf8ByteSize > 24 then
          throw (.JSONRPCError .RPC_INVALID_PARAMETER
            "Narration can range from 1 to 24 characters.")
        pure sNarr
      else pure ""
    let (rv, vecSend) :=
      AddOutput typeOut vecSend sAddress nAmount fSubtractFeeFromAmount sNarr
    if 0 ≠ rv then
      throw (.JSONRPCError .RPC_MISC_ERROR ("AddOutput failed: " ++ sError ++ "."))
    pure { vecSend := vecSend, nTotal := nTotal,
           nCommentOfs := 2, nTestFeeOfs := 99, nCoinControlOfs := 99 }

/-- The part of `SendToInner` that reads one wallet comment: the parameter at `nv`,
when present and not null, is trimmed of quotes and, when not empty, stored under
`key` in the transaction and under `rkey` in the record. -/
def SendToInner.comment (ext : Externals) (request : JSONRPCRequest) (nv : Nat)
    (key : String) (rkey : RTxValueType) (wtx : CWalletTx) (rtx : CTransactionRecord) :
    Except Exception (CWalletTx × CTransactionRecord) :=
  if request.params.size > nv && !(request.params.atIndex nv).isNull then do
    let s ← (request.params.atIndex nv).get_str
    let s := ext.TrimQuotes s
    if !s.isEmpty then
      pure ({ wtx with mapValue := mapAssign wtx.mapValue key s },
            { mapValue := mapAssign rtx.mapValue rkey s })
    else pure (wtx, rtx)
  else pure (wtx, rtx)

/-- The part of `SendToInner` that reads `inputs_per_sig`: 64 unless there is a
parameter at `nv`. -/
def SendToInner.inputsPerSig (ext : Externals) (request : JSONRPCRequest) (nv : Nat) :
    Except Exception Int :=
  if request.params.size > nv then (request.params.atIndex nv).get_int ext.ParseInt32
  else pure 64

/-- The part of `SendToInner` that reads `test_fee` into `fCheckFeeOnly`: `false`
unless there is a parameter at `nTestFeeOfs`. -/
def SendToInner.checkFeeOnly (request : JSONRPCRequest) (nTestFeeOfs : Nat) :
    Except Exception Bool :=
  let fCheckFeeOnly := false
  let nv := nTestFeeOfs
  if request.params.size > nv then (request.params.atIndex nv).get_bool
  else pure fCheckFeeOnly

/-- The part of `SendToInner` that reads the coin control: the object at
`nCoinControlOfs`, when there is one, fills the `CCoinControl` and may set `fShowHex`. -/
def SendToInner.coinControl (ext : Externals) (request : JSONRPCRequest)
    (nCoinControlOfs : Nat) : Except Exception (CCoinControl × Bool) :=
  let fShowHex := false
  let coincontrol : CCoinControl := { fNeedHardwareKey := false, settings := .VNULL }
  let nv := nCoinControlOfs
  if request.params.size > nv && (request.params.atIndex nv).isObject then do
    let (coincontrol, debug) ← ext.ReadCoinControl (request.params.atIndex nv)
    pure (coincontrol, if debug then true else fShowHex)
  else pure (coincontrol, fShowHex)

/-- The body of `SendToInner` from `ObserveSafeMode()` to the call of
`AddStandardInputs`: the recipients are parsed, the balance is checked, the comments,
`inputs_per_sig`, `test_fee` and the coin control are read at their offsets, and the
inputs are added (signed unless `fCheckFeeOnly`).  The wait of
`BlockUntilSyncedToCurrentChain` has no effect on the values computed here. -/
def SendToInner.prepare (ext : Externals) (pwallet : CHDWallet) (request : JSONRPCRequest)
    (typeIn typeOut : OutputTypes) : Except Exception SendToInner.Locals := do
  ext.ObserveSafeMode
  EnsureWalletIsUnlocked pwallet
  if pwallet.GetBroadcastTransactions && !ext.g_connman then
    throw (.JSONRPCError .RPC_CLIENT_P2P_DISABLED
      "Error: Peer-to-peer functionality missing or disabled")
  let r ← SendToInner.recipients ext request typeOut
  match typeIn with
  | .OUTPUT_STANDARD =>
    if r.nTotal > pwallet.GetBalance then
      throw (.JSONRPCError .RPC_WALLET_INSUFFICIENT_FUNDS "Insufficient funds")
  | _ =>
    throw (.JSONRPCError .RPC_WALLET_ERROR
      ("Unknown input type: " ++ toString typeIn.toInt ++ "."))
  -- wallet comments
  let wtx : CWalletTx := { mapValue := [], tx := { hash := "", vsize := 0, hex := "" } }
  let rtx : CTransactionRecord := { mapValue := [] }
  let nv := r.nCommentOfs
  let (wtx, rtx) ← SendToInner.comment ext request nv "comment" .RTXVT_COMMENT wtx rtx
  let nv := nv + 1
  let (wtx, rtx) ← SendToInner.comment ext request nv "to" .RTXVT_TO wtx rtx
  let nv := nv + 1
  let _nInputsPerSig ← SendToInner.inputsPerSig ext request nv
  let fCheckFeeOnly ← SendToInner.checkFeeOnly request r.nTestFeeOfs
  let (coincontrol, fShowHex) ← SendToInner.coinControl ext request r.nCoinControlOfs
  match typeIn with
  | .OUTPUT_STANDARD =>
    let a := pwallet.AddStandardInputs wtx rtx r.vecSend (!fCheckFeeOnly) coincontrol
    if 0 ≠ a.rv then
      throw (.JSONRPCError .RPC_WALLET_ERROR ("AddStandardInputs failed: " ++ a.sError ++ "."))
    pure { wtx := a.wtx, rtx := a.rtx, vecSend := a.vecSend, nFeeRet := a.nFeeRet,
           fShowHex := fShowHex, fCheckFeeOnly := fCheckFeeOnly,
           coincontrol := a.coincontrol }
  | _ =>
    throw (.JSONRPCError .RPC_WALLET_ERROR
      ("Unknown input type: " ++ toString typeIn.toInt ++ "."))

/-- The fee report that `SendToInner` returns under `fCheckFeeOnly`: `fee`, `bytes`,
`need_hwdevice`, `hex` under `fShowHex`, and `outputs_fee`. -/
def SendToInner.feeReport (ext : Externals) (l : SendToInner.Locals) : UniValue :=
  let result : List (String × UniValue) :=
    [("fee", ext.ValueFromAmount l.nFeeRet),
     ("bytes", .VNUM (toString l.wtx.tx.vsize)),
     ("need_hwdevice", .VBOOL (if l.coincontrol.fNeedHardwareKey then true else false))]
  let result := if l.fShowHex then result ++ [("hex", .VSTR l.wtx.tx.hex)] else result
  let mapChanged : List (String × Int) :=
    l.vecSend.foldl
      (fun mapChanged r =>
        if !r.fChange && r.nAmount ≠ r.nAmountSelected then
          mapChangedAdd mapChanged r.address r.nAmount
        else mapChanged)
      []
  let objChangedOutputs : List (String × UniValue) :=
    mapChanged.map fun v => (v.1, .VNUM (toString v.2))
  .VOBJ (result ++ [("outputs_fee", .VOBJ objChangedOutputs)])

/-- The function `SendToInner`.  When `EnsureWalletIsAvailable` returns `false` (no
wallet, and exceptions avoided) it returns null; when the preparation throws it throws;
under `fCheckFeeOnly` it returns the fee report and the transaction is dropped;
otherwise the narrations are stored, the transaction is passed to `CommitTransaction`
(with the record unless both types are standard), and the transaction id is returned.
`PostProcessTempRecipients`, which runs after the commit, is not part of the outcome. -/
def SendToInner (ext : Externals) (request : JSONRPCRequest) (typeIn typeOut : OutputTypes) :
    RPCOutcome :=
  match GetHDWalletForJSONRPCRequest ext request with
  | .error e => { result := .error e, committed := [] }
  | .ok none =>
    match EnsureWalletIsAvailable ext none request.fHelp with
    | .error e => { result := .error e, committed := [] }
    | .ok _ => { result := .ok UniValue.NullUniValue, committed := [] }
  | .ok (some pwallet) =>
  match SendToInner.prepare ext pwallet request typeIn typeOut with
  | .error e => { result := .error e, committed := [] }
  | .ok l =>
    if l.fCheckFeeOnly then
      { result := .ok (SendToInner.feeReport ext l), committed := [] }
    else
      -- store sent narrations
      let wtx : CWalletTx :=
        l.vecSend.foldl
          (fun wtx r =>
            if r.nType ≠ .OUTPUT_STANDARD || r.sNarration.utf8ByteSize < 1 then wtx
            else { wtx with mapValue := mapAssign wtx.mapValue ("n" ++ toString r.n) r.sNarration })
          l.wtx
      let rtx : Option CTransactionRecord :=
        if typeIn = .OUTPUT_STANDARD ∧ typeOut = .OUTPUT_STANDARD then none else some l.rtx
      let state := pwallet.CommitTransaction wtx rtx
      if !state.1 then
        { result := .error (.JSONRPCError .RPC_WALLET_ERROR
            ("Transaction commit failed: " ++ state.2)),
          committed := [(wtx, rtx)] }
      else
        { result := .ok (.VSTR wtx.tx.hash), committed := [(wtx, rtx)] }

/-- The function `WordToType`. -/
def WordToType (s : String) : OutputTypes :=
  if s = "nix" then .OUTPUT_STANDARD else .OUTPUT_NULL

/-- The RPC `sendtypeto`: the help text is thrown unless there are 3 to 7 parameters;
the two type words are read and removed, and `SendToInner` does the rest. -/
def sendtypeto (ext : Externals) (request : JSONRPCRequest) : RPCOutcome :=
  match GetHDWalletForJSONRPCRequest ext request with
  | .error e => { result := .error e, committed := [] }
  | .ok pwallet =>
  match EnsureWalletIsAvailable ext pwallet request.fHelp with
  | .error e => { result := .error e, committed := [] }
  | .ok false => { result := .ok UniValue.NullUniValue, committed := [] }
  | .ok true =>
    if request.fHelp || request.params.size < 3 || request.params.size > 7 then
      { result := .error (.runtime_error ext.sendtypetoHelp), committed := [] }
    else
      match (request.params.atIndex 0).get_str with
      | .error e => { result := .error e, committed := [] }
      | .ok sTypeIn =>
      match (request.params.atIndex 1).get_str with
      | .error e => { result := .error e, committed := [] }
      | .ok sTypeOut =>
        let typeIn := WordToType sTypeIn
        let typeOut := WordToType sTypeOut
        if typeIn = .OUTPUT_NULL then
          { result := .error (.JSONRPCError .RPC_INVALID_PARAMETER "Unknown input type."),
            committed := [] }
        else if typeOut = .OUTPUT_NULL then
          { result := .error (.JSONRPCError .RPC_INVALID_PARAMETER "Unknown output type."),
            committed := [] }
        else
          let req := { request with params := request.params.erase 0 2 }
          SendToInner ext req typeIn typeOut

/-- A wallet that is unlocked, holds five coins, finds inputs for every send and
commits every transaction. -/
def sampleWallet : CHDWallet where
  GetName := "wallet.dat"
  IsLocked := false
  GetBroadcastTransactions := true
  GetBalance := 5 * COIN
  AddStandardInputs := fun wtx rtx vecSend _sign coincontrol =>
    { rv := 0
      wtx := { wtx with tx := { hash := "5ac1e0", vsize := 226, hex := "0200" } }
      rtx := rtx
      vecSend := vecSend
      nFeeRet := 4520
      coincontrol := coincontrol
      sError := "" }
  CommitTransaction := fun _ _ => (true, "")

/-- The stealth address of the example in the help text of the send commands. -/
def sampleStealthAddress : String :=
  "GPGyji8uZFip6H15GUfj6bsutRVLsCyBFL3P7k7T7MUDRaYU8GfwUHpfxonLFAvAwr2RkigyGfTgWMfzLAAP8KMRHq7RE8cwpEEekH"

/-- An environment with that one wallet loaded, in which the sample stealth address is
the valid address and the amount `0.1` is ten million base units. -/
def sampleExternals : Externals where
  vpwallets := [sampleWallet]
  g_connman := true
  urlDecode := id
  ObserveSafeMode := pure ()
  IsValidStealthAddress := fun sAddress => sAddress = sampleStealthAddress
  IsValid := fun sAddress => sAddress = sampleStealthAddress
  AmountFromValue := fun v =>
    match v with
    | .VNUM "0.1" => pure 10000000
    | _ => throw (.JSONRPCError .RPC_TYPE_ERROR "Invalid amount")
  ValueFromAmount := fun n => .VNUM (toString n)
  ParseHex := fun _ => []
  ParseInt32 := fun s => if s = "64" then some 64 else none
  TrimQuotes := id
  ReadCoinControl := fun v => pure ({ fNeedHardwareKey := false, settings := v }, false)
  sendtypetoHelp := "sendtypeto \"typein\" \"typeout\" [outputs] (\"comment\" \"comment-to\" inputs_per_sig test_fee coin_control)"

/-- The request `sendtypeto nix nix [one output of 0.1] "" "" 64 true`: seven
parameters in the order of the usage line, with `test_fee = true`. -/
def testFeeRequest : JSONRPCRequest where
  params := .VARR
    [.VSTR "nix", .VSTR "nix",
     .VARR [.VOBJ [("address", .VSTR sampleStealthAddress),
                   ("amount", .VNUM "0.1")]],
     .VSTR "", .VSTR "", .VNUM "64", .VBOOL true]
  fHelp := false
  URI := ""
  fSkipBlock := false

/-- The request `sendtypeto nix nix [one output of 0.1] "" "" true`: six parameters,
with `test_fee = true` in the sixth place, where the numbered list of the help text
puts it. -/
def testFeeRequestSixth : JSONRPCRequest where
  params := .VARR
    [.VSTR "nix", .VSTR "nix",
     .VARR [.VOBJ [("address", .VSTR sampleStealthAddress),
                   ("amount", .VNUM "0.1")]],
     .VSTR "", .VSTR "", .VBOOL true]
  fHelp := false
  URI := ""
  fSkipBlock := false

/-- A narration of 26 characters, two more than the help text of `sendtypeto` allows. -/
def longNarration : String := "this narration is too long"

/-- The request `sendtypeto nix nix [one output of 0.1 with the long narration]`. -/
def longNarrationRequest : JSONRPCRequest where
  params := .VARR
    [.VSTR "nix", .VSTR "nix",
     .VARR [.VOBJ [("address", .VSTR sampleStealthAddress),
                   ("amount", .VNUM "0.1"),
                   ("narr", .VSTR longNarration)]]]
  fHelp := false
  URI := ""
  fSkipBlock := false

/-- The sample environment with a hex parser that knows the one-byte script `51`. -/
def scriptExternals : Externals :=
  { sampleExternals with ParseHex := fun s => if s = "51" then [81] else [] }

/-- The request `sendtypeto nix nix [one output of 0.1 to the sample address with the
script 51]`: the output has a `script` field, and its address is not the word
`script`. -/
def scriptRequest : JSONRPCRequest where
  params := .VARR
    [.VSTR "nix", .VSTR "nix",
     .VARR [.VOBJ [("address", .VSTR sampleStealthAddress),
                   ("amount", .VNUM "0.1"),
                   ("script", .VSTR "51")]]]
  fHelp := false
  URI := ""
  fSkipBlock := false

/-! ## The RPC `reservebalance` -/

/-- Modelled from the spec: `amount.h` is not among the embedded files.  The constant
`CENT`, a hundredth of a coin in base units. -/
def CENT : Int := 1000000

/-- What a call of `reservebalance` did: the value it returned or the exception it
threw, and the member `nReserveBalance` of the wallet after the call. -/
structure ReserveOutcome where
  result : Except Exception UniValue
  nReserveBalance : Int

/-- The usage text that `reservebalance` throws. -/
def reservebalanceHelp : String :=
  "reservebalance reserve ( amount )\n" ++
  "reserve is true or false to turn balance reserve on or off.\n" ++
  "amount is a real and rounded to cent.\n" ++
  "Set reserve amount not participating in network protection.\n" ++
  "If no parameters provided current setting is printed.\n" ++
  "Wallet must be unlocked to modify.\n"

/-- Modelled from the spec: `wallet/hd/hdwallet.cpp` is not among the embedded files.
The method `SetReserveBalance`: the value of `nReserveBalance` after the call is the
argument. -/
def SetReserveBalance (nNewReserveBalance : Int) : Int := nNewReserveBalance

/-- The part of `reservebalance` that changes the setting, run when there is at least
one parameter: the value of `nReserveBalance` after it.  The division of `int64_t`
truncates towards zero. -/
def reservebalance.set (ext : Externals) (pwallet : CHDWallet) (request : JSONRPCRequest) :
    Except Exception Int := do
  EnsureWalletIsUnlocked pwallet
  let fReserve ← (request.params.atIndex 0).get_bool
  if fReserve then do
    if request.params.size == 1 then
      throw (.JSONRPCError .RPC_INVALID_PARAMETER "must provide amount to reserve balance.")
    let nAmount ← ext.AmountFromValue (request.params.atIndex 1)
    let nAmount := (nAmount.tdiv CENT) * CENT  -- round to cent
    if nAmount < 0 then
      throw (.JSONRPCError .RPC_INVALID_PARAMETER "amount cannot be negative.")
    pure (SetReserveBalance nAmount)
  else do
    if request.params.size > 1 then
      throw (.JSONRPCError .RPC_INVALID_PARAMETER "cannot specify amount to turn off reserve.")
    pure (SetReserveBalance 0)

/-- The RPC `reservebalance`; `nReserveBalance` is the member of the wallet before the
call.  Without parameters the setting is only printed. -/
def reservebalance (ext : Externals) (nReserveBalance : Int) (request : JSONRPCRequest) :
    ReserveOutcome :=
  match GetHDWalletForJSONRPCRequest ext request with
  | .error e => { result := .error e, nReserveBalance := nReserveBalance }
  | .ok pwallet =>
  match EnsureWalletIsAvailable ext pwallet request.fHelp with
  | .error e => { result := .error e, nReserveBalance := nReserveBalance }
  | .ok false => { result := .ok UniValue.NullUniValue, nReserveBalance := nReserveBalance }
  | .ok true =>
    if request.fHelp || request.params.size > 2 then
      { result := .error (.runtime_error reservebalanceHelp),
        nReserveBalance := nReserveBalance }
    else
      match pwallet with
      | none => { result := .ok UniValue.NullUniValue, nReserveBalance := nReserveBalance }
      | some pwallet =>
        let changed : Except Exception Int :=
          if request.params.size > 0 then reservebalance.set ext pwallet request
          else pure nReserveBalance
        match changed with
        | .error e => { result := .error e, nReserveBalance := nReserveBalance }
        | .ok nReserveBalance =>
          { result := .ok (.VOBJ [("reserve", .VBOOL (decide (nReserveBalance > 0))),
                                  ("amount", ext.ValueFromAmount nReserveBalance)]),
            nReserveBalance := nReserveBalance }

/-- The sample environment with an amount that is no whole number of cents: `0.12345678`
is 12345678 base units. -/
def reserveExternals : Externals :=
  { sampleExternals with
    AmountFromValue := fun v =>
      match v with
      | .VNUM "0.12345678" => pure 12345678
      | _ => throw (.JSONRPCError .RPC_TYPE_ERROR "Invalid amount") }

/-- The request `reservebalance true 0.12345678`. -/
def reserveRequest : JSONRPCRequest where
  params := .VARR [.VBOOL true, .VNUM "0.12345678"]
  fHelp := false
  URI := ""
  fSkipBlock := false

/-- The request `reservebalance false`. -/
def reserveOffRequest : JSONRPCRequest where
  params := .VARR [.VBOOL false]
  fHelp := false
  URI := ""
  fSkipBlock := false

/-! ## The RPC `extkey`, mode `options` -/

/-- The key of `CStoredExtKey::mapValue` that `ManageExtKey` uses. -/
inductive ExtKeyValueTypes where
  | EKVT_N_LOOKAHEAD
  deriving DecidableEq, Repr

/-- The members of `CStoredExtKey`, a loose ext key, that `ManageExtKey` reads or
writes; `nFlags` is a 32-bit word. -/
structure CStoredExtKey where
  sLabel : String
  nFlags : Nat
  mapValue : List (ExtKeyValueTypes × List Byte)
  deriving DecidableEq, Repr

/-- The members of `CExtKeyAccount` that `ManageExtAccount` reads or writes. -/
structure CExtKeyAccount where
  sLabel : String
  nFlags : Nat
  deriving DecidableEq, Repr

/-- A key id, as the maps of the wallet are indexed by it. -/
abbrev CKeyID : Type := Nat

/-- What the mode `options` of `extkey` uses from outside the file: the flag bits of
`extkey.h`, helper functions, the decoding of the key argument (`SetString`, and the id
under each of the three address types, when the address is valid for it), the outcome of
the database calls, the usage text, and the branches of the other modes (not embedded). -/
structure ExtKeyExternals where
  EAF_ACTIVE : Nat
  EAF_RECEIVE_ON : Nat
  IsStringBoolPositive : String → Bool
  strtoul : String → Option Nat
  SetCompressedInt64 : Nat → List Byte
  GetCompressedInt64 : List Byte → Nat
  SetString : String → Bool
  ExtKeyHashID : String → Option CKeyID
  ExtAccHashID : String → Option CKeyID
  ExtPublicKeyID : String → Option CKeyID
  TxnBegin : Bool
  WriteExtKey : CKeyID → CStoredExtKey → Bool
  WriteExtAccount : CKeyID → CExtKeyAccount → Bool
  TxnCommit : Bool
  help : String
  otherModes : String → String → JSONRPCRequest → Except Exception UniValue

/-- The ext keys and accounts of a wallet: the maps in memory, and the records of the
wallet database. -/
structure ExtKeyWallet where
  mapExtKeys : List (CKeyID × CStoredExtKey)
  mapExtAccounts : List (CKeyID × CExtKeyAccount)
  dbExtKeys : List (CKeyID × CStoredExtKey)
  dbExtAccounts : List (CKeyID × CExtKeyAccount)
  deriving DecidableEq, Repr

/-- What a call of `extkey` did: the value it returned or the exception it threw, and
the keys and accounts of the wallet after the call. -/
structure ExtKeyOutcome where
  result : Except Exception UniValue
  wallet : ExtKeyWallet

/-- The value of `flags & bit ? "true" : "false"`. -/
def flagText (nFlags bit : Nat) : UniValue :=
  .VSTR (if nFlags &&& bit ≠ 0 then "true" else "false")

/-- The 32-bit update `flags &= ~bit`. -/
def clearFlag (nFlags bit : Nat) : Nat :=
  nFlags &&& ((2 ^ 32 - 1) ^^^ (bit % 2 ^ 32))

/-- The value of `(int)n` for a 64-bit unsigned `n`. -/
def toInt32 (n : Nat) : Int :=
  if n % 2 ^ 32 < 2 ^ 31 then (n % 2 ^ 32 : Nat) else (n % 2 ^ 32 : Nat) - 2 ^ 32

/-- The entry `look_ahead` that `ManageExtKey` reports: the stored number, or the word
`default`. -/
def lookAheadEntry (ek : ExtKeyExternals) (sek : CStoredExtKey) : String × UniValue :=
  match sek.mapValue.lookup .EKVT_N_LOOKAHEAD with
  | some v => ("look_ahead", .VNUM (toString (toInt32 (ek.GetCompressedInt64 v))))
  | none => ("look_ahead", .VSTR "default")

/-- The function `ManageExtKey`: the return value, the key and the result object after
the call.  The default of `-defaultlookaheadsize`, which the function reads first, is
overwritten before any use and is left out. -/
def ManageExtKey (ek : ExtKeyExternals) (sek : CStoredExtKey) (sOptName sOptValue : String)
    (result : List (String × UniValue)) :
    Except Exception (Int × CStoredExtKey × List (String × UniValue)) :=
  if sOptName = "label" then
    let sek := if sOptValue.utf8ByteSize == 0 then { sek with sLabel := sOptValue } else sek
    pure (0, sek, result ++ [("set_label", .VSTR sek.sLabel)])
  else if sOptName = "active" then
    let sek :=
      if sOptValue.utf8ByteSize > 0 then
        if ek.IsStringBoolPositive sOptValue then
          { sek with nFlags := sek.nFlags ||| ek.EAF_ACTIVE }
        else { sek with nFlags := clearFlag sek.nFlags ek.EAF_ACTIVE }
      else sek
    pure (0, sek, result ++ [("set_active", flagText sek.nFlags ek.EAF_ACTIVE)])
  else if sOptName = "receive_on" then
    let sek :=
      if sOptValue.utf8ByteSize > 0 then
        if ek.IsStringBoolPositive sOptValue then
          { sek with nFlags := sek.nFlags ||| ek.EAF_RECEIVE_ON }
        else { sek with nFlags := clearFlag sek.nFlags ek.EAF_RECEIVE_ON }
      else sek
    pure (0, sek, result ++ [("receive_on", flagText sek.nFlags ek.EAF_RECEIVE_ON)])
  else if sOptName = "look_ahead" then
    if sOptValue.utf8ByteSize > 0 then
      match ek.strtoul sOptValue with
      | none =>
        throw (.JSONRPCError .RPC_INVALID_PARAMETER "Failed: look_ahead invalid number.")
      | some nLookAhead =>
        if nLookAhead < 1 || nLookAhead > 1000 then
          throw (.JSONRPCError .RPC_INVALID_PARAMETER "Failed: look_ahead number out of range.")
        else
          let v := ek.SetCompressedInt64 nLookAhead
          let sek := { sek with mapValue := mapAssign sek.mapValue .EKVT_N_LOOKAHEAD v }
          pure (0, sek,
            result ++ [("note", .VSTR "Wallet must be restarted to reload lookahead pool."),
                       lookAheadEntry ek sek])
    else pure (0, sek, result ++ [lookAheadEntry ek sek])
  else
    -- List all possible
    pure (0, sek,
      result ++ [("label", .VSTR sek.sLabel),
                 ("active", flagText sek.nFlags ek.EAF_ACTIVE),
                 ("receive_on", flagText sek.nFlags ek.EAF_RECEIVE_ON),
                 lookAheadEntry ek sek])

/-- The function `ManageExtAccount`: the return value, the account and the result
object after the call. -/
def ManageExtAccount (ek : ExtKeyExternals) (sea : CExtKeyAccount)
    (sOptName sOptValue : String) (result : List (String × UniValue)) :
    Except Exception (Int × CExtKeyAccount × List (String × UniValue)) :=
  if sOptName = "label" then
    let sea := if sOptValue.utf8ByteSize > 0 then { sea with sLabel := sOptValue } else sea
    pure (0, sea, result ++ [("set_label", .VSTR sea.sLabel)])
  else if sOptName = "active" then
    let sea :=
      if sOptValue.utf8ByteSize > 0 then
        if ek.IsStringBoolPositive sOptValue then
          { sea with nFlags := sea.nFlags ||| ek.EAF_ACTIVE }
        else { sea with nFlags := clearFlag sea.nFlags ek.EAF_ACTIVE }
      else sea
    pure (0, sea, result ++ [("set_active", flagText sea.nFlags ek.EAF_ACTIVE)])
  else
    -- List all possible
    pure (0, sea,
      result ++ [("label", .VSTR sea.sLabel),
                 ("active", flagText sea.nFlags ek.EAF_ACTIVE)])

/-- The parameters that the mode `options` reads from `nParamOffset` on: the key (unless
`sInKey` is set already), the option name and the new value; a parameter that is absent
leaves its variable empty. -/
def extkey.optionArgs (request : JSONRPCRequest) (nParamOffset : Nat) (sInKey : String) :
    Except Exception (String × String × String) := do
  let first ←
    if sInKey.utf8ByteSize == 0 then
      if request.params.size > nParamOffset then do
        let s ← (request.params.atIndex nParamOffset).get_str
        pure (s, nParamOffset + 1)
      else throw (.runtime_error "Must specify ext key or id.")
    else pure (sInKey, nParamOffset)
  let second ←
    if request.params.size > first.2 then do
      let s ← (request.params.atIndex first.2).get_str
      pure (s, first.2 + 1)
    else pure ("", first.2)
  let sOptValue ←
    if request.params.size > second.2 then (request.params.atIndex second.2).get_str
    else pure ""
  pure (first.1, second.1, sOptValue)

/-- The decoding of the key argument in the mode `options`: the id, `fAccount` and
`fKey`.  An ext key hash names a key, an ext account hash an account, and an ext public
key an account when the wallet has one under its id, else a key. -/
def extkey.optionTarget (ek : ExtKeyExternals) (w : ExtKeyWallet) (sInKey : String) :
    Except Exception (CKeyID × Bool × Bool) :=
  if !ek.SetString sInKey then throw (.runtime_error "Invalid key or account id.")
  else
    match ek.ExtKeyHashID sInKey with
    | some id => pure (id, false, true)
    | none =>
    match ek.ExtAccHashID sInKey with
    | some id => pure (id, true, false)
    | none =>
    match ek.ExtPublicKeyID sInKey with
    | some id =>
      if (w.mapExtAccounts.lookup id).isSome then pure (id, true, false)
      else pure (id, false, true)
    | none => throw (.runtime_error "Invalid key or account id.")

/-- The end of the mode `options`: the transaction is aborted when there is no new
value; else it is committed, which stores the written record, and `result` gains the
entry `Success.`. -/
def extkey.optionsCommit (ek : ExtKeyExternals) (w written : ExtKeyWallet)
    (sOptValue : String) (result : List (String × UniValue)) : ExtKeyOutcome :=
  if sOptValue.utf8ByteSize == 0 then
    { result := .ok (.VOBJ result), wallet := w }
  else if !ek.TxnCommit then
    { result := .error (.runtime_error "TxnCommit failed."), wallet := w }
  else
    { result := .ok (.VOBJ (result ++ [("result", .VSTR "Success.")])), wallet := written }

/-- The mode `options` for a key: the key in memory is taken first, else the record of
the database; `ManageExtKey` works on it (on the key in memory itself, when there is
one), and the key is written to the database when there is a new value. -/
def extkey.optionsKey (ek : ExtKeyExternals) (w : ExtKeyWallet) (id : CKeyID)
    (sOptName sOptValue : String) (result : List (String × UniValue)) : ExtKeyOutcome :=
  let found : Option (CStoredExtKey × Bool) :=
    match w.mapExtKeys.lookup id with
    | some sek => some (sek, true)
    | none => (w.dbExtKeys.lookup id).map fun sek => (sek, false)
  match found with
  | none => { result := .error (.runtime_error "Key not in wallet."), wallet := w }
  | some (sek, inMemory) =>
    match ManageExtKey ek sek sOptName sOptValue result with
    | .error e => { result := .error e, wallet := w }
    | .ok (rv, sek, result) =>
      let w := if inMemory then { w with mapExtKeys := mapAssign w.mapExtKeys id sek } else w
      if 0 ≠ rv then
        { result := .error (.runtime_error ("Error: " ++ "")), wallet := w }
      else if sOptValue.utf8ByteSize > 0 && !ek.WriteExtKey id sek then
        { result := .error (.runtime_error "WriteExtKey failed."), wallet := w }
      else
        let written :=
          if sOptValue.utf8ByteSize > 0 then
            { w with dbExtKeys := mapAssign w.dbExtKeys id sek }
          else w
        extkey.optionsCommit ek w written sOptValue result

/-- The mode `options` for an account, as for a key, with `ManageExtAccount`. -/
def extkey.optionsAccount (ek : ExtKeyExternals) (w : ExtKeyWallet) (id : CKeyID)
    (sOptName sOptValue : String) (result : List (String × UniValue)) : ExtKeyOutcome :=
  let found : Option (CExtKeyAccount × Bool) :=
    match w.mapExtAccounts.lookup id with
    | some sea => some (sea, true)
    | none => (w.dbExtAccounts.lookup id).map fun sea => (sea, false)
  match found with
  | none => { result := .error (.runtime_error "Account not in wallet."), wallet := w }
  | some (sea, inMemory) =>
    match ManageExtAccount ek sea sOptName sOptValue result with
    | .error e => { result := .error e, wallet := w }
    | .ok (rv, sea, result) =>
      let w :=
        if inMemory then { w with mapExtAccounts := mapAssign w.mapExtAccounts id sea } else w
      if 0 ≠ rv then
        { result := .error (.runtime_error ("Error: " ++ "")), wallet := w }
      else if sOptValue.utf8ByteSize > 0 && !ek.WriteExtAccount id sea then
        { result := .error (.runtime_error "Write failed."), wallet := w }
      else
        let written :=
          if sOptValue.utf8ByteSize > 0 then
            { w with dbExtAccounts := mapAssign w.dbExtAccounts id sea }
          else w
        extkey.optionsCommit ek w written sOptValue result

/-- The branch `mode == "options"` of `extkey`; `result` is the empty object there. -/
def extkey.options (ek : ExtKeyExternals) (w : ExtKeyWallet) (request : JSONRPCRequest)
    (nParamOffset : Nat) (sInKey : String) : ExtKeyOutcome :=
  match extkey.optionArgs request nParamOffset sInKey with
  | .error e => { result := .error e, wallet := w }
  | .ok (sInKey, sOptName, sOptValue) =>
  match extkey.optionTarget ek w sInKey with
  | .error e => { result := .error e, wallet := w }
  | .ok (id, fAccount, fKey) =>
    if !ek.TxnBegin then { result := .error (.runtime_error "TxnBegin failed."), wallet := w }
    else if fKey then extkey.optionsKey ek w id sOptName sOptValue []
    else if fAccount then extkey.optionsAccount ek w id sOptName sOptValue []
    else extkey.optionsCommit ek w w sOptValue []

/-- Modelled from the spec: the C library is not among the embedded files.  The
function `strstr`, as a test: `needle`, up to its first NUL, occurs in `haystack`. -/
def strstr (haystack needle : String) : Bool :=
  let n := needle.data.takeWhile fun c => c ≠ Char.ofNat 0
  haystack.data.tails.any fun t => n.isPrefixOf t

/-- The list of mode words of `extkey`. -/
def extkey.pmodes : String :=
  " info list gen account key import importaccount setmaster setdefaultaccount deriveaccount options "

/-- The choice of the mode in `extkey`: the mode, `sInKey` and `nParamOffset`.  Without
parameters the mode is `list`; a first parameter that occurs in the list of modes between
spaces, in lower case, is the mode; any other first parameter is a key for `info`. -/
def extkey.mode (request : JSONRPCRequest) : Except Exception (String × String × Nat) :=
  if request.params.size > 0 then do
    let s ← (request.params.atIndex 0).get_str
    let st := String.mk ((" " ++ s ++ " ").data.map Char.toLower)
    if strstr extkey.pmodes st then
      pure (String.mk (st.data.filter fun c => c ≠ ' '), "", 1)
    else pure ("info", s, 1)
  else pure ("list", "", 0)

/-- The RPC `extkey`, with the branch of the mode `options` embedded and the branches
of the other modes left to `otherModes`; `w` holds the ext keys and accounts of the
wallet that the request names. -/
def extkey (ext : Externals) (ek : ExtKeyExternals) (w : ExtKeyWallet)
    (request : JSONRPCRequest) : ExtKeyOutcome :=
  match GetHDWalletForJSONRPCRequest ext request with
  | .error e => { result := .error e, wallet := w }
  | .ok pwallet =>
  match EnsureWalletIsAvailable ext pwallet request.fHelp with
  | .error e => { result := .error e, wallet := w }
  | .ok false => { result := .ok UniValue.NullUniValue, wallet := w }
  | .ok true =>
  match ext.ObserveSafeMode with
  | .error e => { result := .error e, wallet := w }
  | .ok _ =>
    if request.fHelp || request.params.size > 5 then
      { result := .error (.runtime_error ek.help), wallet := w }
    else
      match pwallet with
      | none => { result := .ok UniValue.NullUniValue, wallet := w }
      | some pwallet =>
      match EnsureWalletIsUnlocked pwallet with
      | .error e => { result := .error e, wallet := w }
      | .ok _ =>
      match extkey.mode request with
      | .error e => { result := .error e, wallet := w }
      | .ok (mode, sInKey, nParamOffset) =>
        if mode = "options" then extkey.options ek w request nParamOffset sInKey
        else { result := ek.otherModes mode sInKey request, wallet := w }

/-- The id string of the sample loose key. -/
def sampleExtKeyId : String := "xGwy1bGkwfBz6nPbUkVjdfBvTNs78gd1ZJ"

/-- The id string of the sample account. -/
def sampleExtAccountId : String := "aGwy1bGkwfBz6nPbUkVjdfBvTNs78gd1ZJ"

/-- An environment for `extkey` in which the two sample id strings decode to the ids 7
and 8 and every database call succeeds. -/
def sampleExtKeyExternals : ExtKeyExternals where
  EAF_ACTIVE := 1
  EAF_RECEIVE_ON := 2
  IsStringBoolPositive := fun s => s = "true"
  strtoul := fun s => s.toNat?
  SetCompressedInt64 := fun n => WriteLE 8 n
  GetCompressedInt64 := fun v => ReadLE v
  SetString := fun s => s = sampleExtKeyId || s = sampleExtAccountId
  ExtKeyHashID := fun s => if s = sampleExtKeyId then some 7 else none
  ExtAccHashID := fun s => if s = sampleExtAccountId then some 8 else none
  ExtPublicKeyID := fun _ => none
  TxnBegin := true
  WriteExtKey := fun _ _ => true
  WriteExtAccount := fun _ _ => true
  TxnCommit := true
  help := "extkey \"mode\""
  otherModes := fun _ _ _ => throw (.runtime_error "extkey \"mode\"")

/-- A wallet with one loose key, labelled `old`, under the id 7 and one account,
labelled `old`, under the id 8. -/
def sampleExtKeyWallet : ExtKeyWallet where
  mapExtKeys := [(7, { sLabel := "old", nFlags := 1, mapValue := [] })]
  mapExtAccounts := [(8, { sLabel := "old", nFlags := 1 })]
  dbExtKeys := [(7, { sLabel := "old", nFlags := 1, mapValue := [] })]
  dbExtAccounts := [(8, { sLabel := "old", nFlags := 1 })]

/-- The request `extkey options <sample key> label new`. -/
def labelKeyRequest : JSONRPCRequest where
  params := .VARR [.VSTR "options", .VSTR sampleExtKeyId, .VSTR "label", .VSTR "new"]
  fHelp := false
  URI := ""
  fSkipBlock := false

/-- The request `extkey options <sample account> label new`. -/
def labelAccountRequest : JSONRPCRequest where
  params := .VARR [.VSTR "options", .VSTR sampleExtAccountId, .VSTR "label", .VSTR "new"]
  fHelp := false
  URI := ""
  fSkipBlock := false

/-! ## The RPC `filtertransactions` -/

/-- Modelled from the spec: `univalue.h` is not among the embedded files. -/
def UniValue.isStr : UniValue → Bool
  | .VSTR _ => true
  | _ => false

/-- Modelled from the spec: `univalue.h` is not among the embedded files. -/
def UniValue.isNum : UniValue → Bool
  | .VNUM _ => true
  | _ => false

/-- Modelled from the spec: `univalue.h` is not among the embedded files. -/
def UniValue.isBool : UniValue → Bool
  | .VBOOL _ => true
  | _ => false

/-- Modelled from the spec: `univalue.h` is not among the embedded files.  The method
`get_obj()`, which throws on a value that is no object. -/
def UniValue.get_obj : UniValue → Except Exception UniValue
  | .VOBJ members => .ok (.VOBJ members)
  | _ => .error (.runtime_error "JSON value is not an object as expected")

/-- Modelled from the spec: `univalue.h` is not among the embedded files.  The method
`get_real()`: throws on a value that is no number or whose text is no number; `strtod`
gives the `double` that the text denotes, a rational number. -/
def UniValue.get_real (strtod : String → Option ℚ) : UniValue → Except Exception ℚ
  | .VNUM val =>
    match strtod val with
    | some x => .ok x
    | none => .error (.runtime_error "JSON double out of range")
  | _ => .error (.runtime_error "JSON value is not a number as expected")

/-- Modelled from the spec: `univalue.h` is not among the embedded files.  The method
`get_int64()`; `ParseInt64` is the parser of `utilstrencodings.h`. -/
def UniValue.get_int64 (ParseInt64 : String → Option Int) : UniValue → Except Exception Int
  | .VNUM val =>
    match ParseInt64 val with
    | some n => .ok n
    | none => .error (.runtime_error "JSON integer out of range")
  | _ => .error (.runtime_error "JSON value is not an integer as expected")

/-- Modelled from the spec: `univalue.h` is not among the embedded files.  The effect of
`o.get(key).setStr(val)` on the members of an object: the value under the first
occurrence of `key` becomes the string `val`. -/
def UniValue.setStrAt : List (String × UniValue) → String → String → List (String × UniValue)
  | [], _, _ => []
  | (k, v) :: rest, key, val =>
    if k = key then (k, .VSTR val) :: rest else (k, v) :: UniValue.setStrAt rest key val

/-- Modelled from the spec: `univalue.h` is not among the embedded files.  The name of a
type, as `uvTypeName` prints it. -/
def UniValue.typeName : UniValue → String
  | .VNULL => "null"
  | .VOBJ _ => "object"
  | .VARR _ => "array"
  | .VSTR _ => "string"
  | .VNUM _ => "number"
  | .VBOOL _ => "bool"

/-- Modelled from the spec: the C++ standard library is not among the embedded files.
The test `s.find(search) != std::string::npos`: `search` occurs in `s`. -/
def stringFind (s search : String) : Bool :=
  s.data.tails.any fun t => search.data.isPrefixOf t

/-- The alternatives of `CTxDestination` that the transaction list tells apart, and one
for the others. -/
inductive CTxDestination where
  | CNoDestination
  | CKeyID (id : Nat)
  | CScriptID (id : Nat)
  deriving DecidableEq, Repr

/-- The members of `COutputEntry`, an output as `GetAmounts` reports it. -/
structure COutputEntry where
  destination : CTxDestination
  amount : Int
  vout : Int
  ismine : Nat

/-- The members of `COutputRecord`, an output of a transaction record. -/
structure COutputRecord where
  nType : OutputTypes
  nFlags : Nat
  n : Int
  nValue : Int
  scriptPubKey : List Byte
  sNarration : String
  vPath : List Byte

/-- An item of `wtxOrdered`: what `filtertransactions` and `ParseOutputs` ask of a
wallet transaction.  `listReceived`, `listSent`, `nFee` and `strSentAccount` are what
`GetAmounts` reports under `ISMINE_ALL`; `IsFromMeWatchOnly` is
`IsFromMe(ISMINE_WATCH_ONLY)`. -/
structure TxItem where
  GetTxTime : Int
  mapValue : List (String × String)
  listReceived : List COutputEntry
  listSent : List COutputEntry
  nFee : Int
  strSentAccount : String
  IsFromMeWatchOnly : Bool
  isAbandoned : Bool
  IsCoinBase : Bool
  GetDepthInMainChain : Int
  GetBlocksToMaturity : Int

/-- An item of `rtxOrdered`: the hash of a transaction record and the members of the
record that `filtertransactions` and `ParseRecords` read. -/
structure RtxItem where
  hash : String
  blockHash : String
  nIndex : Int
  nTimeReceived : Int
  nFee : Int
  vout : List COutputRecord
  IsAbandoned : Bool
  GetTxTime : Int

/-- The transactions of the wallet in the order of `wtxOrdered` and `rtxOrdered`. -/
structure WalletHistory where
  wtxOrdered : List TxItem
  rtxOrdered : List RtxItem

/-- What `filtertransactions` uses from outside the file: the flag bits of `ismine.h`
and of the output records, the address encoding (`Set` tells whether a destination can
be set as an address, `ToString` prints the address, `none` being an address that was
never set), the address book, the stealth addresses of the wallet, the chain (`depth`,
`GetBlockTime`, `IsTrusted`, `GetConflicts`), helper functions of other translation
units, and the number conversions: `strtod` and `ParseInt64` read the text of a number,
`to_string` is `std::to_string` of a `double`. -/
structure HistoryExternals where
  ISMINE_SPENDABLE : Nat
  ISMINE_WATCH_ONLY : Nat
  ORF_CHANGE : Nat
  ORF_OWN_ANY : Nat
  ORF_FROM : Nat
  ORF_OWN_WATCH : Nat
  ORF_LOCKED : Nat
  ORA_STEALTH : Nat
  Set : CTxDestination → Bool
  ToString : Option CTxDestination → String
  mapAddressBook : CTxDestination → Option String
  GetStealthLinked : Nat → Bool → Option String
  GetStealthByIndex : Nat → Option String
  ExtractDestination : List Byte → Option CTxDestination
  IsUnspendable : List Byte → Bool
  depth : String → Int
  GetBlockTime : String → Int
  IsTrusted : String → String → Bool
  GetConflicts : String → List String
  WalletTxToJSON : TxItem → List (String × UniValue) → List (String × UniValue)
  PushTime : List (String × UniValue) → String → Int → List (String × UniValue)
  AmountToString : Int → String
  strToEpoch : String → Bool → Int
  strtod : String → Option ℚ
  ParseInt64 : String → Option Int
  to_string : ℚ → String
  help : String

/-- The function `push`: the pair is appended unless the entry has a value under the
key already. -/
def push (entry : List (String × UniValue)) (key : String) (value : UniValue) :
    List (String × UniValue) :=
  if ((UniValue.findKey entry key).getD .VNULL).isNull then entry ++ [(key, value)] else entry

/-- The end of `ParseOutputs` and of `ParseRecords`: with a search string the entry is
appended when the string occurs in one of the addresses or, failing that, in one of the
amount strings; without a search string it is always appended. -/
def searchPush (entries : List UniValue) (entry : UniValue) (addresses amounts : List String)
    (search : String) : List UniValue :=
  if search ≠ "" then
    -- search in addresses
    if addresses.any fun addr => stringFind addr search then entries ++ [entry]
    -- search in amounts
    else if amounts.any fun amount => stringFind amount search then entries ++ [entry]
    else entries
  else entries ++ [entry]

/-- The function `ParseOutput`: `none` when it returns `false` (a watch-only output
while watch-only outputs are not asked for), else the output object, the addresses and
the amount strings after the call.  The amount string is the amount in base units. -/
def ParseOutput (env : HistoryExternals) (output : List (String × UniValue))
    (o : COutputEntry) (wtx : TxItem) (watchonly : Nat) (addresses amounts : List String) :
    Option (List (String × UniValue) × List String × List String) :=
  let sKey := "n" ++ toString o.vout
  let output :=
    match wtx.mapValue.lookup sKey with
    | some narration => output ++ [("narration", .VSTR narration)]
    | none => output
  let isSet := env.Set o.destination
  let output :=
    if isSet then output ++ [("address", .VSTR (env.ToString (some o.destination)))]
    else output
  let addresses :=
    if isSet then addresses ++ [env.ToString (some o.destination)] else addresses
  if o.ismine &&& env.ISMINE_WATCH_ONLY ≠ 0 ∧ ¬ (watchonly &&& env.ISMINE_WATCH_ONLY ≠ 0) then
    none
  else
    let output :=
      if o.ismine &&& env.ISMINE_WATCH_ONLY ≠ 0 then
        output ++ [("involvesWatchonly", .VBOOL true)]
      else output
    let output :=
      match env.mapAddressBook o.destination with
      | some name => output ++ [("label", .VSTR name)]
      | none => output
    let output := output ++ [("vout", .VNUM (toString o.vout))]
    some (output, addresses, amounts ++ [toString o.amount])

/-- The locals of `ParseOutputs` that its two loops change. -/
structure ParseOutputs.Locals where
  outputs : List UniValue
  addresses : List String
  amounts : List String
  amount : Int

/-- The loop of `ParseOutputs` over `listSent`; `none` when `ParseOutput` returns
`false`, on which `ParseOutputs` returns without an entry. -/
def ParseOutputs.sent (ext : Externals) (env : HistoryExternals) (wtx : TxItem)
    (watchonly : Nat) : List COutputEntry → ParseOutputs.Locals → Option ParseOutputs.Locals
  | [], l => some l
  | s :: rest, l =>
    match ParseOutput env [] s wtx watchonly l.addresses l.amounts with
    | none => none
    | some r =>
      let output := r.1 ++ [("amount", ext.ValueFromAmount (-s.amount))]
      ParseOutputs.sent ext env wtx watchonly rest
        { outputs := l.outputs ++ [.VOBJ output], addresses := r.2.1, amounts := r.2.2,
          amount := l.amount - s.amount }

/-- The inner loop of `ParseOutputs` over the outputs collected so far: every output
whose `vout` is that of the received output `r` gets the amount of `r` as a string;
the flag tells whether there was one. -/
def ParseOutputs.markExisting (ext : Externals) (env : HistoryExternals) (r : COutputEntry) :
    List UniValue → Except Exception (List UniValue × Bool)
  | [] => pure ([], false)
  | o :: rest => do
    let vout ← (o.atKey "vout").get_int ext.ParseInt32
    let tail ← ParseOutputs.markExisting ext env r rest
    if vout = r.vout then
      match o with
      | .VOBJ members =>
        pure (.VOBJ (UniValue.setStrAt members "amount" (env.AmountToString r.amount)) :: tail.1,
              true)
      | _ => pure (o :: tail.1, true)
    else pure (o :: tail.1, tail.2)

/-- The loop of `ParseOutputs` over `listReceived`; `none` when `ParseOutput` returns
`false`. -/
def ParseOutputs.received (ext : Externals) (env : HistoryExternals) (wtx : TxItem)
    (watchonly : Nat) (fBech32 : Bool) :
    List COutputEntry → ParseOutputs.Locals → Except Exception (Option ParseOutputs.Locals)
  | [], l => pure (some l)
  | r :: rest, l =>
    match ParseOutput env [] r wtx watchonly l.addresses l.amounts with
    | none => pure none
    | some p => do
      let output :=
        match r.destination with
        | .CKeyID idK =>
          match env.GetStealthLinked idK fBech32 with
          | some sx => p.1 ++ [("stealth_address", .VSTR sx)]
          | none => p.1
        | _ => p.1
      let output := output ++ [("amount", ext.ValueFromAmount r.amount)]
      let marked ← ParseOutputs.markExisting ext env r l.outputs
      let outputs := if !marked.2 then marked.1 ++ [.VOBJ output] else marked.1
      ParseOutputs.received ext env wtx watchonly fBech32 rest
        { outputs := outputs, addresses := p.2.1, amounts := p.2.2,
          amount := l.amount + r.amount }

/-- The category that `ParseOutputs` gives an entry, with the `fee` entry that an
internal transfer without sent outputs gets in front of it. -/
def ParseOutputs.category (ext : Externals) (wtx : TxItem) (amount : Int) :
    List (String × UniValue) :=
  if wtx.IsCoinBase then
    if wtx.GetDepthInMainChain < 1 then [("category", .VSTR "orphan")]
    else if wtx.GetBlocksToMaturity > 0 then [("category", .VSTR "immature")]
    else [("category", .VSTR "coinbase")]
  else if wtx.nFee = 0 then [("category", .VSTR "receive")]
  else if amount = 0 then
    (if wtx.listSent.isEmpty then [("fee", ext.ValueFromAmount (-wtx.nFee))] else []) ++
      [("category", .VSTR "internal_transfer")]
  else [("category", .VSTR "send")]

/-- The function `ParseOutputs`: the entries after the call.  `pushKV` appends. -/
def ParseOutputs (ext : Externals) (env : HistoryExternals) (entries : List UniValue)
    (wtx : TxItem) (watchonly : Nat) (search : String) (_fWithReward fBech32 : Bool) :
    Except Exception (List UniValue) :=
  if wtx.IsFromMeWatchOnly && !(watchonly &&& env.ISMINE_WATCH_ONLY ≠ 0) then pure entries
  else
    -- common to every type of transaction
    let entry : List (String × UniValue) :=
      if wtx.strSentAccount ≠ "" then [("account", .VSTR wtx.strSentAccount)] else []
    let entry := env.WalletTxToJSON wtx entry
    let entry :=
      if !wtx.listSent.isEmpty then
        entry ++ [("abandoned", .VBOOL wtx.isAbandoned),
                  ("fee", ext.ValueFromAmount (-wtx.nFee))]
      else entry
    -- sent
    match ParseOutputs.sent ext env wtx watchonly wtx.listSent
        { outputs := [], addresses := [], amounts := [], amount := 0 } with
    | none => pure entries
    | some l =>
    -- received
    match ParseOutputs.received ext env wtx watchonly fBech32 wtx.listReceived l with
    | .error e => throw e
    | .ok none => pure entries
    | .ok (some l) =>
      let entry := entry ++ ParseOutputs.category ext wtx l.amount
      let entry := entry ++ [("outputs", .VARR l.outputs),
                             ("amount", ext.ValueFromAmount l.amount)]
      pure (searchPush entries (.VOBJ entry) l.addresses l.amounts search)

/-- The locals of `ParseRecords` that its loop over the outputs changes. -/
structure ParseRecords.Locals where
  outputs : List UniValue
  addresses : List String
  amounts : List String
  nOwned : Nat
  nFrom : Nat
  nWatchOnly : Nat
  nLockedOutputs : Nat
  totalAmount : Int

/-- The string that `ParseRecords` keeps of an amount for the search:
`std::to_string(ValueFromAmount(amount).get_real())`, the amount in coins as a
`double` in fixed notation. -/
def ParseRecords.amountString (ext : Externals) (env : HistoryExternals) (amount : Int) :
    Except Exception String := do
  let real ← (ext.ValueFromAmount amount).get_real env.strtod
  pure (env.to_string real)

/-- The stealth address that `ParseRecords` finds for an output: by the index in
`vPath` when there is a path (none when the path is not a stealth path or is shorter
than five bytes), else the one linked to the key id of the destination.  `Encoded()`
without an argument is `Encoded(false)`. -/
def ParseRecords.stealth (env : HistoryExternals) (record : COutputRecord)
    (dest : Option CTxDestination) : Option String :=
  if record.vPath.length > 0 then
    if (record.vPath.map fun b => b.val).head? = some env.ORA_STEALTH then
      if record.vPath.length < 5 then none
      else env.GetStealthByIndex (ReadLE ((record.vPath.drop 1).take 4))
    else none
  else
    match dest with
    | some (.CKeyID idK) => env.GetStealthLinked idK false
    | _ => none

/-- The address object of `ParseRecords` for an output: set from the destination of the
script when there is one, the script is spendable and the destination can be set. -/
def ParseRecords.addr (env : HistoryExternals) (record : COutputRecord) :
    Option CTxDestination :=
  let dest := env.ExtractDestination record.scriptPubKey
  if dest.isSome && !env.IsUnspendable record.scriptPubKey then dest.filter env.Set else none

/-- The addresses that `ParseRecords` keeps of an output for the search: the stealth
address, when there is one, and the address of the destination, when there is one. -/
def ParseRecords.addresses (env : HistoryExternals) (record : COutputRecord) : List String :=
  let dest := env.ExtractDestination record.scriptPubKey
  (ParseRecords.stealth env record dest).toList ++
    (if dest ≠ some .CNoDestination ∧ dest.isSome then
      [env.ToString (ParseRecords.addr env record)]
     else [])

/-- The body of the loop of `ParseRecords` for one output that is not change. -/
def ParseRecords.output (ext : Externals) (env : HistoryExternals) (record : COutputRecord)
    (l : ParseRecords.Locals) : Except Exception ParseRecords.Locals := do
  let output : List (String × UniValue) := []
  let nOwned := if record.nFlags &&& env.ORF_OWN_ANY ≠ 0 then l.nOwned + 1 else l.nOwned
  let nFrom := if record.nFlags &&& env.ORF_FROM ≠ 0 then l.nFrom + 1 else l.nFrom
  let nWatchOnly :=
    if record.nFlags &&& env.ORF_OWN_WATCH ≠ 0 then l.nWatchOnly + 1 else l.nWatchOnly
  let nLockedOutputs :=
    if record.nFlags &&& env.ORF_LOCKED ≠ 0 then l.nLockedOutputs + 1 else l.nLockedOutputs
  let dest := env.ExtractDestination record.scriptPubKey
  let extracted := dest.isSome
  let addr := ParseRecords.addr env record
  -- get account name
  let output :=
    match (if extracted && !env.IsUnspendable record.scriptPubKey then
             dest.bind env.mapAddressBook else none) with
    | some name => if !name.isEmpty then push output "account" (.VSTR name) else output
    | none => output
  -- stealth addresses
  let output :=
    match ParseRecords.stealth env record dest with
    | some encoded => push output "stealth_address" (.VSTR encoded)
    | none => output
  let output :=
    if dest = some .CNoDestination then push output "address" (.VSTR "none")
    else if extracted then push output "address" (.VSTR (env.ToString addr))
    else output
  let addresses := l.addresses ++ ParseRecords.addresses env record
  let output := push output "type"
    (.VSTR (if record.nType = .OUTPUT_STANDARD then "standard" else "unknown"))
  let output :=
    if !record.sNarration.isEmpty then push output "narration" (.VSTR record.sNarration)
    else output
  let amount := if ¬ (record.nFlags &&& env.ORF_OWN_ANY ≠ 0) then -record.nValue
    else record.nValue
  let totalAmount := l.totalAmount + amount
  let text ← ParseRecords.amountString ext env amount
  let output := push output "amount" (ext.ValueFromAmount amount)
  let output := push output "vout" (.VNUM (toString record.n))
  pure { outputs := l.outputs ++ [.VOBJ output], addresses := addresses,
         amounts := l.amounts ++ [text], nOwned := nOwned, nFrom := nFrom,
         nWatchOnly := nWatchOnly, nLockedOutputs := nLockedOutputs,
         totalAmount := totalAmount }

/-- The loop of `ParseRecords` over the outputs of the record; change is passed over. -/
def ParseRecords.outputs (ext : Externals) (env : HistoryExternals) :
    List COutputRecord → ParseRecords.Locals → Except Exception ParseRecords.Locals
  | [], l => pure l
  | record :: rest, l =>
    if record.nFlags &&& env.ORF_CHANGE ≠ 0 then ParseRecords.outputs ext env rest l
    else do
      let l ← ParseRecords.output ext env record l
      ParseRecords.outputs ext env rest l

/-- The part of `ParseRecords` before the loop: confirmations, block or trust, id,
conflicts and time of the entry. -/
def ParseRecords.head (env : HistoryExternals) (rtx : RtxItem) : List (String × UniValue) :=
  let entry : List (String × UniValue) := []
  let confirmations := env.depth rtx.blockHash
  let entry := push entry "confirmations" (.VNUM (toString confirmations))
  let entry :=
    if confirmations > 0 then
      let entry := push entry "blockhash" (.VSTR rtx.blockHash)
      let entry := push entry "blockindex" (.VNUM (toString rtx.nIndex))
      push entry "blocktime" (.VNUM (toString (env.GetBlockTime rtx.blockHash)))
    else push entry "trusted" (.VBOOL (env.IsTrusted rtx.hash rtx.blockHash))
  let entry := push entry "txid" (.VSTR rtx.hash)
  let conflicts := (env.GetConflicts rtx.hash).filter fun conflict => conflict ≠ rtx.hash
  let entry :=
    if conflicts.length > 0 then
      push entry "walletconflicts" (.VARR (conflicts.map fun conflict => .VSTR conflict))
    else entry
  env.PushTime entry "time" rtx.nTimeReceived

/-- The part of `ParseRecords` after the loop, up to the search: fee, category, flags,
outputs and amount of the entry. -/
def ParseRecords.tail (ext : Externals) (rtx : RtxItem) (entry : List (String × UniValue))
    (l : ParseRecords.Locals) : List (String × UniValue) :=
  let entry :=
    if l.nFrom > 0 then
      let entry := push entry "abandoned" (.VBOOL rtx.IsAbandoned)
      push entry "fee" (ext.ValueFromAmount (-rtx.nFee))
    else entry
  let entry :=
    if l.nOwned ≠ 0 ∧ l.nFrom ≠ 0 then push entry "category" (.VSTR "internal_transfer")
    else if l.nOwned ≠ 0 then push entry "category" (.VSTR "receive")
    else if l.nFrom ≠ 0 then push entry "category" (.VSTR "send")
    else push entry "category" (.VSTR "unknown")
  let entry :=
    if l.nLockedOutputs ≠ 0 then push entry "requires_unlock" (.VSTR "true") else entry
  let entry :=
    if l.nWatchOnly ≠ 0 then push entry "involvesWatchonly" (.VSTR "true") else entry
  let entry := push entry "outputs" (.VARR l.outputs)
  push entry "amount" (ext.ValueFromAmount l.totalAmount)

/-- The function `ParseRecords`: the entries after the call.  The amount strings for the
search are those of the outputs and of the total, each the amount in coins in fixed
notation. -/
def ParseRecords (ext : Externals) (env : HistoryExternals) (entries : List UniValue)
    (rtx : RtxItem) (_watchonly_filter : Nat) (search : String) :
    Except Exception (List UniValue) := do
  let entry := ParseRecords.head env rtx
  let l ← ParseRecords.outputs ext env rtx.vout
    { outputs := [], addresses := [], amounts := [], nOwned := 0, nFrom := 0,
      nWatchOnly := 0, nLockedOutputs := 0, totalAmount := 0 }
  let entry := ParseRecords.tail ext rtx entry l
  let text ← ParseRecords.amountString ext env l.totalAmount
  pure (searchPush entries (.VOBJ entry) l.addresses (l.amounts ++ [text]) search)

/-- Modelled from the spec: `rpc/server.cpp` is not among the embedded files.  The
function `RPCTypeCheckObj(o, typesExpected, fAllowNull, false)`: each expected key, in
the order of the map, must hold a value of the expected type, or null when null is
allowed. -/
def RPCTypeCheckObj (o : UniValue) (typesExpected : List (String × String))
    (fAllowNull : Bool) : Except Exception Unit :=
  match typesExpected with
  | [] => pure ()
  | (key, expected) :: rest =>
    let v := o.atKey key
    if !fAllowNull && v.isNull then
      throw (.JSONRPCError .RPC_TYPE_ERROR ("Missing " ++ key))
    else if !(v.typeName = expected || (fAllowNull && v.isNull)) then
      throw (.JSONRPCError .RPC_TYPE_ERROR
        ("Expected type " ++ expected ++ " for " ++ key ++ ", got " ++ v.typeName))
    else RPCTypeCheckObj o rest fAllowNull

/-- The settings of `filtertransactions`. -/
structure FilterOptions where
  count : Nat
  skip : Int
  watchonly : Nat
  search : String
  category : String
  type : String
  sort : String
  timeFrom : Int
  timeTo : Int
  fCollate : Bool
  fWithReward : Bool
  fBech32 : Bool

/-- The default settings of `filtertransactions`. -/
def FilterOptions.defaults (env : HistoryExternals) : FilterOptions where
  count := 10
  skip := 0
  watchonly := env.ISMINE_SPENDABLE
  search := ""
  category := "all"
  type := "all"
  sort := "time"
  timeFrom := 0
  timeTo := 0x3AFE130E00
  fCollate := false
  fWithReward := false
  fBech32 := false

/-- The types that `filtertransactions` expects of its options, in the order of the
keys. -/
def filtertransactions.typesExpected : List (String × String) :=
  [("category", "string"), ("collate", "bool"), ("count", "number"),
   ("include_watchonly", "bool"), ("search", "string"), ("skip", "number"),
   ("sort", "string"), ("type", "string"), ("use_bech32", "bool"),
   ("with_reward", "bool")]

/-- The first options that `filtertransactions` reads: `count`, `skip`,
`include_watchonly`, `search` and `category`. -/
def filtertransactions.optionsHead (ext : Externals) (env : HistoryExternals)
    (options : UniValue) : Except Exception FilterOptions := do
  let o := FilterOptions.defaults env
  let count ←
    if options.existsKey "count" then do
      let _count ← (options.atKey "count").get_int ext.ParseInt32
      if _count < 0 then
        throw (.JSONRPCError .RPC_INVALID_PARAMETER
          ("Invalid count: " ++ toString _count ++ "."))
      pure _count.toNat
    else pure o.count
  let skip ←
    if options.existsKey "skip" then do
      let skip ← (options.atKey "skip").get_int ext.ParseInt32
      if skip < 0 then
        throw (.JSONRPCError .RPC_INVALID_PARAMETER
          ("Invalid skip number: " ++ toString skip ++ "."))
      pure skip
    else pure o.skip
  let watchonly ←
    if options.existsKey "include_watchonly" then do
      let b ← (options.atKey "include_watchonly").get_bool
      pure (if b then o.watchonly ||| env.ISMINE_WATCH_ONLY else o.watchonly)
    else pure o.watchonly
  let search ←
    if options.existsKey "search" then (options.atKey "search").get_str else pure o.search
  let category ←
    if options.existsKey "category" then do
      let category ← (options.atKey "category").get_str
      let categories :=
        ["all", "send", "orphan", "immature", "coinbase", "receive", "internal_transfer"]
      if !categories.contains category then
        throw (.JSONRPCError .RPC_INVALID_PARAMETER
          ("Invalid category: " ++ category ++ "."))
      pure category
    else pure o.category
  pure { o with count := count, skip := skip, watchonly := watchonly, search := search,
                category := category }

/-- The option `type` of `filtertransactions`: a value outside the list of types is
refused. -/
def filtertransactions.optionsType (options : UniValue) (type : String) :
    Except Exception String :=
  if options.existsKey "type" then do
    let type ← (options.atKey "type").get_str
    let types := ["all", "standard", "zerocoin"]
    if !types.contains type then
      throw (.JSONRPCError .RPC_INVALID_PARAMETER ("Invalid type: " ++ type ++ "."))
    pure type
  else pure type

/-- The option `sort` of `filtertransactions`. -/
def filtertransactions.optionsSort (options : UniValue) (sort : String) :
    Except Exception String :=
  if options.existsKey "sort" then do
    let sort ← (options.atKey "sort").get_str
    let sorts := ["time", "address", "category", "amount", "confirmations", "txid"]
    if !sorts.contains sort then
      throw (.JSONRPCError .RPC_INVALID_PARAMETER ("Invalid sort: " ++ sort ++ "."))
    pure sort
  else pure sort

/-- The options `from` and `to` of `filtertransactions`: a string is a date, a number
a unix time; `last` is the flag that `strToEpoch` gets for `to`. -/
def filtertransactions.optionsTime (env : HistoryExternals) (v : UniValue) (last : Bool)
    (time : Int) : Except Exception Int :=
  if v.isStr then do
    let s ← v.get_str
    pure (env.strToEpoch s last)
  else if v.isNum then v.get_int64 env.ParseInt64
  else pure time

/-- A flag among the options of `filtertransactions`: read when it is a boolean. -/
def filtertransactions.optionsFlag (v : UniValue) (flag : Bool) : Except Exception Bool :=
  if v.isBool then v.get_bool else pure flag

/-- The block of `filtertransactions` that reads the options object. -/
def filtertransactions.options (ext : Externals) (env : HistoryExternals)
    (param : UniValue) : Except Exception FilterOptions := do
  let options ← param.get_obj
  RPCTypeCheckObj options filtertransactions.typesExpected true
  let o ← filtertransactions.optionsHead ext env options
  let type ← filtertransactions.optionsType options o.type
  let sort ← filtertransactions.optionsSort options o.sort
  let timeFrom ← filtertransactions.optionsTime env (options.atKey "from") false o.timeFrom
  let timeTo ← filtertransactions.optionsTime env (options.atKey "to") true o.timeTo
  let fCollate ← filtertransactions.optionsFlag (options.atKey "collate") o.fCollate
  let fWithReward ← filtertransactions.optionsFlag (options.atKey "with_reward") o.fWithReward
  let fBech32 ← filtertransactions.optionsFlag (options.atKey "use_bech32") o.fBech32
  pure { o with type := type, sort := sort, timeFrom := timeFrom, timeTo := timeTo,
                fCollate := fCollate, fWithReward := fWithReward, fBech32 := fBech32 }

/-- The function `getAddress`: the stealth address or the address of the entry, else of
its first output, else the empty string. -/
def getAddress (transaction : UniValue) : Except Exception String :=
  if !(transaction.atKey "stealth_address").isNull then
    (transaction.atKey "stealth_address").get_str
  else if !(transaction.atKey "address").isNull then
    (transaction.atKey "address").get_str
  else if !(((transaction.atKey "outputs").atIndex 0).atKey "stealth_address").isNull then
    (((transaction.atKey "outputs").atIndex 0).atKey "stealth_address").get_str
  else if !(((transaction.atKey "outputs").atIndex 0).atKey "address").isNull then
    (((transaction.atKey "outputs").atIndex 0).atKey "address").get_str
  else pure ""

/-- The amount by which the comparator of `filtertransactions` orders an entry: the
`amount` field, negated for an entry of the category `send`. -/
def filtertransactions.sortAmount (env : HistoryExternals) (a : UniValue) :
    Except Exception ℚ := do
  let category ← (a.atKey "category").get_str
  if category = "send" then do
    let x ← (a.atKey "amount").get_real env.strtod
    pure (-x)
  else (a.atKey "amount").get_real env.strtod

/-- The comparator that `filtertransactions` passes to `std::sort`: whether `a` goes
before `b` under the criterion `sort`.  The addresses and amounts are computed for
every criterion. -/
def filtertransactions.less (env : HistoryExternals) (sort : String) (a b : UniValue) :
    Except Exception Bool := do
  let a_address ← getAddress a
  let b_address ← getAddress b
  let a_amount ← filtertransactions.sortAmount env a
  let b_amount ← filtertransactions.sortAmount env b
  if sort = "address" then pure (decide (a_address < b_address))
  else if sort = "category" || sort = "txid" then do
    let x ← (a.atKey sort).get_str
    let y ← (b.atKey sort).get_str
    pure (decide (x < y))
  else if sort = "time" || sort = "confirmations" then do
    let x ← (a.atKey sort).get_real env.strtod
    let y ← (b.atKey sort).get_real env.strtod
    pure (decide (x > y))
  else if sort = "amount" then pure (decide (a_amount > b_amount))
  else pure false

/-- Modelled from the spec: the C++ standard library is not among the embedded files.
One step of `std::sort` as an insertion sort: `x` is placed in front of the first
element that the comparator does not put before `x`. -/
def sortInsert {α ε : Type} (comp : α → α → Except ε Bool) (x : α) :
    List α → Except ε (List α)
  | [] => pure [x]
  | y :: ys => do
    let before ← comp y x
    if before then do
      let tail ← sortInsert comp x ys
      pure (y :: tail)
    else pure (x :: y :: ys)

/-- Modelled from the spec: the C++ standard library is not among the embedded files.
The function `std::sort` with a comparator that may throw, as an insertion sort; the
standard leaves the order of elements that the comparator does not tell apart open. -/
def stdSort {α ε : Type} (comp : α → α → Except ε Bool) : List α → Except ε (List α)
  | [] => pure []
  | x :: xs => do
    let sorted ← stdSort comp xs
    sortInsert comp x sorted

/-- The value of `(int)x` for a 32-bit or wider integer `x`, by wrapping. -/
def wrapInt32 (x : Int) : Int :=
  (x + 2 ^ 31) % 2 ^ 32 - 2 ^ 31

/-- The test of the loop of `filtertransactions` on the type of an entry: whether the
entry is passed over.  An entry without a type counts as standard. -/
def filtertransactions.typeIrrelevant (type : String) (value : UniValue) :
    Except Exception Bool :=
  if (value.atKey "type").isNull then
    -- value's type is undefined
    pure (!(type = "all" || type = "standard"))
  else do
    let t ← (value.atKey "type").get_str
    pure (!(t = type || type = "all"))

/-- The sums that `filtertransactions` keeps under `collate`, after the entry `value`
is added: the amounts and the rewards that are not null. -/
def filtertransactions.collate (ext : Externals) (fCollate : Bool) (value : UniValue)
    (totals : Int × Int) : Except Exception (Int × Int) :=
  if fCollate then do
    let nTotalAmount ←
      if !(value.atKey "amount").isNull then do
        let x ← ext.AmountFromValue (value.atKey "amount")
        pure (totals.1 + x)
      else pure totals.1
    let nTotalReward ←
      if !(value.atKey "reward").isNull then do
        let x ← ext.AmountFromValue (value.atKey "reward")
        pure (totals.2 + x)
      else pure totals.2
    pure (nTotalAmount, nTotalReward)
  else pure totals

/-- The locals of the loop of `filtertransactions` that filters, skips and counts. -/
structure FilterLocals where
  result : List UniValue
  nTotalAmount : Int
  nTotalReward : Int

/-- The loop of `filtertransactions` over the sorted values, from the value at hand on:
it runs while `count` is not 0; an entry of the category and type asked for is passed
over while `skip` is positive and appended after that; `skip` is a 32-bit integer that
is decremented at each such entry, `count` at each appended entry. -/
def filtertransactions.loop (ext : Externals) (category type : String) (fCollate : Bool) :
    List UniValue → Nat → Int → FilterLocals → Except Exception FilterLocals
  | [], _, _, l => pure l
  | value :: rest, count, skip, l =>
    if count = 0 then pure l
    else do
      let c ← (value.atKey "category").get_str
      -- if value's category is relevant
      if c = category || category = "all" then do
        let irrelevant ← filtertransactions.typeIrrelevant type value
        if irrelevant then filtertransactions.loop ext category type fCollate rest count skip l
        -- if we've skipped enough valid values
        else if skip ≤ 0 then do
          let totals ← filtertransactions.collate ext fCollate value
            (l.nTotalAmount, l.nTotalReward)
          filtertransactions.loop ext category type fCollate rest (count - 1)
            (wrapInt32 (skip - 1))
            { result := l.result ++ [value], nTotalAmount := totals.1,
              nTotalReward := totals.2 }
        else
          filtertransactions.loop ext category type fCollate rest count
            (wrapInt32 (skip - 1)) l
      else filtertransactions.loop ext category type fCollate rest count skip l

/-- The part of `filtertransactions` that filters, skips, counts and sums: a `count` of
0 becomes the number of values, as an `unsigned int`. -/
def filtertransactions.select (ext : Externals) (category type : String) (fCollate : Bool)
    (values : List UniValue) (count : Nat) (skip : Int) : Except Exception FilterLocals :=
  let count := if count = 0 then values.length % 2 ^ 32 else count
  filtertransactions.loop ext category type fCollate values count skip
    { result := [], nTotalAmount := 0, nTotalReward := 0 }

/-- The loop of `filtertransactions` over the wallet transactions, most recent first:
it ends at the first transaction before `timeFrom`, and a transaction not after
`timeTo` goes through `ParseOutputs`. -/
def filtertransactions.transactions (ext : Externals) (env : HistoryExternals)
    (o : FilterOptions) : List TxItem → List UniValue → Except Exception (List UniValue)
  | [], transactions => pure transactions
  | wtx :: rest, transactions =>
    if wtx.GetTxTime < o.timeFrom then pure transactions
    else do
      let transactions ←
        if wtx.GetTxTime ≤ o.timeTo then
          ParseOutputs ext env transactions wtx o.watchonly o.search o.fWithReward o.fBech32
        else pure transactions
      filtertransactions.transactions ext env o rest transactions

/-- The loop of `filtertransactions` over the transaction records, most recent first. -/
def filtertransactions.records (ext : Externals) (env : HistoryExternals)
    (o : FilterOptions) : List RtxItem → List UniValue → Except Exception (List UniValue)
  | [], transactions => pure transactions
  | rtx :: rest, transactions =>
    if rtx.GetTxTime < o.timeFrom then pure transactions
    else do
      let transactions ←
        if rtx.GetTxTime ≤ o.timeTo then
          ParseRecords ext env transactions rtx o.watchonly o.search
        else pure transactions
      filtertransactions.records ext env o rest transactions

/-- The value that `filtertransactions` returns: the list, or under `collate` an object
with the list and its statistics. -/
def filtertransactions.output (ext : Externals) (o : FilterOptions) (l : FilterLocals) :
    UniValue :=
  if o.fCollate then
    let stats : List (String × UniValue) :=
      [("records", .VNUM (toString (toInt32 l.result.length))),
       ("total_amount", ext.ValueFromAmount l.nTotalAmount)]
    let stats :=
      if o.fWithReward then stats ++ [("total_reward", ext.ValueFromAmount l.nTotalReward)]
      else stats
    .VOBJ [("tx", .VARR l.result), ("collated", .VOBJ stats)]
  else .VARR l.result

/-- The body of `filtertransactions` after the options are read: the entries are
collected, sorted, and filtered. -/
def filtertransactions.run (ext : Externals) (env : HistoryExternals)
    (wallet : WalletHistory) (o : FilterOptions) : Except Exception UniValue := do
  -- transaction processing
  let transactions ← filtertransactions.transactions ext env o wallet.wtxOrdered.reverse []
  -- records processing
  let transactions ← filtertransactions.records ext env o wallet.rtxOrdered.reverse
    transactions
  -- sort
  let values ← stdSort (filtertransactions.less env o.sort) transactions
  -- filter, skip, count and sum
  let l ← filtertransactions.select ext o.category o.type o.fCollate values o.count o.skip
  pure (filtertransactions.output ext o l)

/-- The RPC `filtertransactions`; `wallet` holds the transactions of the wallet that the
request names.  The wait of `BlockUntilSyncedToCurrentChain` has no effect on the values
computed here. -/
def filtertransactions (ext : Externals) (env : HistoryExternals) (wallet : WalletHistory)
    (request : JSONRPCRequest) : Except Exception UniValue := do
  let pwallet ← GetHDWalletForJSONRPCRequest ext request
  let available ← EnsureWalletIsAvailable ext pwallet request.fHelp
  if !available then pure UniValue.NullUniValue
  else if request.fHelp || request.params.size > 1 then throw (.runtime_error env.help)
  else do
    ext.ObserveSafeMode
    let o ←
      if !(request.params.atIndex 0).isNull then
        filtertransactions.options ext env (request.params.atIndex 0)
      else pure (FilterOptions.defaults env)
    filtertransactions.run ext env wallet o

/-- The amount by which the comparator orders an entry, as a number: 0 when the entry
has no category string or no amount that is a number. -/
def filtertransactions.sortKey (env : HistoryExternals) (a : UniValue) : ℚ :=
  match filtertransactions.sortAmount env a with
  | .ok x => x
  | .error _ => 0

/-- The decimal digits of `n`, padded with zeros in front to `width` places. -/
def zeroPad (width n : Nat) : String :=
  String.mk (List.replicate (width - (toString n).length) '0') ++ toString n

/-- The number that a list of decimal digits denotes; `none` when a character is no
digit. -/
def digitsValue (cs : List Char) : Option Nat :=
  cs.foldl
    (fun acc c => acc.bind fun n => if c.isDigit then some (10 * n + (c.toNat - 48)) else none)
    (some 0)

/-- A sample `ValueFromAmount`: the amount in coins with eight decimal places, as
`%s%d.%08d` prints sign, quotient and remainder by `COIN`. -/
def sampleValueFromAmount (amount : Int) : UniValue :=
  let n_abs := amount.natAbs
  .VNUM ((if amount < 0 then "-" else "") ++ toString (n_abs / 100000000) ++ "." ++
    zeroPad 8 (n_abs % 100000000))

/-- The fraction `n / d` in lowest terms. -/
def fraction (n d : Nat) : Option ℚ :=
  let g := Nat.gcd n d
  if h : d / g ≠ 0 ∧ Nat.Coprime (n / g) (d / g) then
    some (Rat.mk' (Int.ofNat (n / g)) (d / g) h.1 h.2)
  else none

/-- A sample `strtod` for decimal texts `[-]digits[.digits]`: the exact value, each
`double` being taken as the decimal it was read from. -/
def sampleStrtod (s : String) : Option ℚ :=
  let negative := s.data.head? = some '-'
  let body := if negative then s.data.drop 1 else s.data
  let whole := body.takeWhile fun c => c ≠ '.'
  let decimals := (body.dropWhile fun c => c ≠ '.').drop 1
  if whole.isEmpty then none
  else
    match digitsValue whole, digitsValue decimals with
    | some i, some f =>
      (fraction (i * 10 ^ decimals.length + f) (10 ^ decimals.length)).map fun x =>
        if negative then -x else x
    | _, _ => none

/-- A sample `std::to_string` of a `double`: fixed notation with six decimal places,
rounded to the nearest. -/
def sampleToString (x : ℚ) : String :=
  let scaled : Nat := (x.num.natAbs * 1000000 * 2 + x.den) / (2 * x.den)
  (if x.num < 0 then "-" else "") ++ toString (scaled / 1000000) ++ "." ++
    zeroPad 6 (scaled % 1000000)

/-- A sample `AmountFromValue` for decimal texts: the amount in base units, when the
text has at most eight decimal places. -/
def sampleAmountFromValue (v : UniValue) : Except Exception Int :=
  match v with
  | .VNUM val | .VSTR val =>
    match sampleStrtod val with
    | some x =>
      if 100000000 % x.den = 0 then pure (x.num * (100000000 / x.den))
      else throw (.JSONRPCError .RPC_TYPE_ERROR "Invalid amount")
    | none => throw (.JSONRPCError .RPC_TYPE_ERROR "Invalid amount")
  | _ => throw (.JSONRPCError .RPC_TYPE_ERROR "Amount is not a number or string")

/-- A sample integer parser for texts `[-]digits`. -/
def sampleParseInt (s : String) : Option Int :=
  if s.data.head? = some '-' then
    if s.data.length < 2 then none
    else (digitsValue (s.data.drop 1)).map fun n => -Int.ofNat n
  else if s.data.isEmpty then none
  else (digitsValue s.data).map Int.ofNat

/-- The sample environment with amounts in coins: `ValueFromAmount` prints eight
decimal places and `AmountFromValue` reads them back. -/
def historyExternals : Externals :=
  { sampleExternals with
    AmountFromValue := sampleAmountFromValue
    ValueFromAmount := sampleValueFromAmount
    ParseInt32 := fun s => (sampleParseInt s).filter fun n => -2 ^ 31 ≤ n ∧ n < 2 ^ 31 }

/-- A sample environment for the transaction list: a one-byte script pays to the key
of that number, an address is printed as `NKey` or `NScript` with its number, the
wallet has no address book and no stealth addresses, and every block is six deep. -/
def sampleHistoryExternals : HistoryExternals where
  ISMINE_SPENDABLE := 4
  ISMINE_WATCH_ONLY := 3
  ORF_CHANGE := 4
  ORF_OWN_ANY := 97
  ORF_FROM := 2
  ORF_OWN_WATCH := 96
  ORF_LOCKED := 16
  ORA_STEALTH := 2
  Set := fun dest => decide (dest ≠ .CNoDestination)
  ToString := fun addr =>
    match addr with
    | some (.CKeyID id) => "NKey" ++ toString id
    | some (.CScriptID id) => "NScript" ++ toString id
    | _ => ""
  mapAddressBook := fun _ => none
  GetStealthLinked := fun _ _ => none
  GetStealthByIndex := fun _ => none
  ExtractDestination := fun script =>
    match script with
    | [b] => some (.CKeyID b.val)
    | _ => none
  IsUnspendable := fun _ => false
  depth := fun _ => 6
  GetBlockTime := fun _ => 1500000000
  IsTrusted := fun _ _ => true
  GetConflicts := fun _ => []
  WalletTxToJSON := fun wtx entry =>
    entry ++ [("confirmations", .VNUM (toString wtx.GetDepthInMainChain)),
              ("time", .VNUM (toString wtx.GetTxTime))]
  PushTime := fun entry key time => push entry key (.VNUM (toString time))
  AmountToString := fun amount =>
    match sampleValueFromAmount amount with
    | .VNUM text => text
    | _ => ""
  strToEpoch := fun _ _ => 0
  strtod := sampleStrtod
  ParseInt64 := sampleParseInt
  to_string := sampleToString
  help := "filtertransactions ( options )"

/-- A wallet transaction that receives `amount` base units on the key 7 at `time`. -/
def receivingTx (time amount : Int) : TxItem where
  GetTxTime := time
  mapValue := []
  listReceived := [{ destination := .CKeyID 7, amount := amount, vout := 0, ismine := 4 }]
  listSent := []
  nFee := 0
  strSentAccount := ""
  IsFromMeWatchOnly := false
  isAbandoned := false
  IsCoinBase := false
  GetDepthInMainChain := 6
  GetBlocksToMaturity := 0

/-- A transaction record with one output of `nValue` base units to the key 8 and the
flags `nFlags`: 1 for an output the wallet owns, 2 for an output sent from the wallet. -/
def recordOf (hash : String) (time : Int) (nFlags : Nat) (nValue : Int) : RtxItem where
  hash := hash
  blockHash := "00ab"
  nIndex := 1
  nTimeReceived := time
  nFee := 1000
  vout := [{ nType := .OUTPUT_STANDARD, nFlags := nFlags, n := 0, nValue := nValue,
             scriptPubKey := [8], sNarration := "", vPath := [] }]
  IsAbandoned := false
  GetTxTime := time

/-- A wallet that has received 1.23 coins and 12.3 coins in wallet transactions, and has
records of 1.23 coins and 12.3 coins received, of 5 coins sent and of 3 coins received. -/
def sampleHistory : WalletHistory where
  wtxOrdered := [receivingTx 100 123000000, receivingTx 110 1230000000]
  rtxOrdered := [recordOf "b1" 200 1 123000000, recordOf "b2" 210 1 1230000000,
                 recordOf "c1" 300 2 500000000, recordOf "d1" 400 1 300000000]

/-- The request `filtertransactions` with the options object `options`. -/
def filterRequest (options : List (String × UniValue)) : JSONRPCRequest where
  params := .VARR [.VOBJ options]
  fHelp := false
  URI := ""
  fSkipBlock := false

/-- The values under `key` of the entries that `filtertransactions` returned as a
list. -/
def fieldsOf (key : String) (r : Except Exception UniValue) : Except Exception (List UniValue) :=
  r.map fun v =>
    match v with
    | .VARR entries => entries.map fun entry => entry.atKey key
    | _ => []

/-- The number 1.23, the `double` that the sample `strtod` reads from `1.23000000`. -/
def sampleReal : ℚ := (fraction 123 100).getD 0

/-- The category of an entry, when it is a string. -/
def entryCategory (value : UniValue) : Option String :=
  match value.atKey "category" with
  | .VSTR c => some c
  | _ => none

/-- The type of an entry, when it is a string. -/
def entryType (value : UniValue) : Option String :=
  match value.atKey "type" with
  | .VSTR t => some t
  | _ => none

/-- The filter of `filtertransactions` in the words of its description: an entry passes
when the category asked for is `all` or is the category of the entry, and the type asked
for is `all` or is the type of the entry, an entry without a type being standard. -/
def specFilter (category type : String) (value : UniValue) : Bool :=
  decide ((category = "all" ∨ entryCategory value = some category) ∧
    (type = "all" ∨ entryType value = some type ∨
      (entryType value = none ∧ type = "standard")))

/-- The list that `filtertransactions` is to return, in the words of its description:
the entries that pass the filter, the first `s` of them dropped, and the rest limited to
the first `c` unless `c` is 0. -/
def specSelect (category type : String) (s c : Nat) (values : List UniValue) :
    List UniValue :=
  let passing := values.filter (specFilter category type)
  let rest := passing.drop s
  if c = 0 then rest else rest.take c

/-- Three entries as the transaction list collects them: two of the category
`receive`, one of the category `send`, none with a type. -/
def sampleEntries : List UniValue :=
  [.VOBJ [("category", .VSTR "receive"), ("amount", .VNUM "3.00000000")],
   .VOBJ [("category", .VSTR "send"), ("amount", .VNUM "-5.00000000")],
   .VOBJ [("category", .VSTR "receive"), ("amount", .VNUM "1.23000000")]]

/-- The amount field of an entry as a number, when it is a number. -/
def entryAmount (env : HistoryExternals) (value : UniValue) : Option ℚ :=
  match value.atKey "amount" with
  | .VNUM text => env.strtod text
  | _ => none

/-- The key of the order under `sort = amount`, stated from the fields of the entry and
without reference to the comparator: the amount field of the entry, with its sign
reversed when the category of the entry is `send`; an entry without a category string or
without an amount that is a number has no key. -/
def specAmountKey (env : HistoryExternals) (value : UniValue) : Option ℚ :=
  match entryCategory value, entryAmount env value with
  | some category, some amount => some (if category = "send" then -amount else amount)
  | _, _ => none

/-! # Properties -/

/-! ## The codecs of the instance round-trip -/

theorem WriteLE_length (k n : Nat) : (WriteLE k n).length = k := by
  induction k generalizing n with
  | zero => rfl
  | succ k ih => simp [WriteLE, ih]

theorem ReadLE_WriteLE (k n : Nat) : ReadLE (WriteLE k n) = n % 256 ^ k := by
  induction k generalizing n with
  | zero => simp [WriteLE, ReadLE, Nat.mod_one]
  | succ k ih => simp [WriteLE, ReadLE, ih, pow_succ', Nat.mod_mul]

theorem fixedUInt_unserialize_append (k n : Nat) (rest : CDataStream) :
    (fixedUInt k).Unserialize (WriteLE k n ++ rest) = some (n % 256 ^ k, rest) := by
  simp [fixedUInt, WriteLE_length, List.take_left', List.drop_left', ReadLE_WriteLE]

theorem fixedUInt_roundTripsAt (k n : Nat) (h : n < 256 ^ k) :
    (fixedUInt k).RoundTripsAt n := by
  intro rest
  have hread := fixedUInt_unserialize_append k n rest
  rw [Nat.mod_eq_of_lt h] at hread
  exact hread

theorem fixedInt_roundTripsAt_int64 (z : Int) (h1 : -2 ^ 63 ≤ z) (h2 : z < 2 ^ 63) :
    (fixedInt 8).RoundTripsAt z := by
  intro rest
  simp only [fixedInt, WriteLE_length, List.length_append, Nat.le_add_right, if_true,
    List.take_left', List.drop_left', ReadLE_WriteLE]
  norm_num
  split_ifs with h <;> omega

theorem fixedInt_roundTripsAt_int (z : Int) (h1 : -2 ^ 31 ≤ z) (h2 : z < 2 ^ 31) :
    (fixedInt 4).RoundTripsAt z := by
  intro rest
  simp only [fixedInt, WriteLE_length, List.length_append, Nat.le_add_right, if_true,
    List.take_left', List.drop_left', ReadLE_WriteLE]
  norm_num
  split_ifs with h <;> omega

theorem WriteLE_ReadLE (l : List Byte) : WriteLE l.length (ReadLE l) = l := by
  induction l with
  | nil => rfl
  | cons b bs ih =>
    have hb := b.isLt
    have h1 : (b.val + 256 * ReadLE bs) % 256 = b.val := by omega
    have h2 : (b.val + 256 * ReadLE bs) / 256 = ReadLE bs := by omega
    simp only [List.length_cons, WriteLE, ReadLE, h1, h2, ih]

theorem ReadLE_lt (l : List Byte) : ReadLE l < 256 ^ l.length := by
  induction l with
  | nil => simp [ReadLE]
  | cons b bs ih =>
    have hb := b.isLt
    simp only [ReadLE, List.length_cons, pow_succ]
    omega

/-- What a successful read of a `k`-byte unsigned integer has consumed. -/
theorem fixedUInt_unserialize_eq (k : Nat) (s : CDataStream) (x : Nat) (rest : CDataStream)
    (h : (fixedUInt k).Unserialize s = some (x, rest)) :
    s = WriteLE k x ++ rest ∧ x < 256 ^ k := by
  simp only [fixedUInt] at h
  split_ifs at h with hk
  simp only [Option.some.injEq, Prod.mk.injEq] at h
  obtain ⟨hx, hr⟩ := h
  have hlen : (s.take k).length = k := by simp [hk]
  constructor
  · have hw := WriteLE_ReadLE (s.take k)
    rw [hlen, hx] at hw
    rw [hw, ← hr, List.take_append_drop]
  · have hlt := ReadLE_lt (s.take k)
    rw [hlen, hx] at hlt
    exact hlt

theorem fixedUInt_canonical (k : Nat) : (fixedUInt k).Canonical := by
  intro s x rest h
  obtain ⟨hs, hx⟩ := fixedUInt_unserialize_eq k s x rest h
  exact ⟨hs, fixedUInt_roundTripsAt k x hx⟩

/-- What a successful read of a `k`-byte signed integer has consumed. -/
theorem fixedInt_unserialize_eq (k : Nat) (s : CDataStream) (z : Int) (rest : CDataStream)
    (h : (fixedInt k).Unserialize s = some (z, rest)) :
    ∃ u : Nat, s = WriteLE k u ++ rest ∧ u < 256 ^ k ∧
      z = if 2 * u < 256 ^ k then (u : Int) else (u : Int) - 256 ^ k := by
  simp only [fixedInt] at h
  split_ifs at h with hk h2
  all_goals
    simp only [Option.some.injEq, Prod.mk.injEq] at h
    obtain ⟨hz, hr⟩ := h
    have hlen : (s.take k).length = k := by simp [hk]
    have hw := WriteLE_ReadLE (s.take k)
    have hlt := ReadLE_lt (s.take k)
    rw [hlen] at hw hlt
    refine ⟨ReadLE (s.take k), ?_, hlt, ?_⟩
    · rw [hw, ← hr, List.take_append_drop]
    · simp [h2, hz]

theorem fixedInt_canonical_int64 : (fixedInt 8).Canonical := by
  intro s z rest h
  obtain ⟨u, hs, hu, hz⟩ := fixedInt_unserialize_eq 8 s z rest h
  norm_num at hu hz
  have hser : (fixedInt 8).Serialize z = WriteLE 8 u := by
    simp only [fixedInt]
    congr 1
    norm_num
    split_ifs at hz <;> omega
  refine ⟨by rw [hser]; exact hs, fixedInt_roundTripsAt_int64 z ?_ ?_⟩
  · split_ifs at hz <;> omega
  · split_ifs at hz <;> omega

theorem fixedInt_canonical_int : (fixedInt 4).Canonical := by
  intro s z rest h
  obtain ⟨u, hs, hu, hz⟩ := fixedInt_unserialize_eq 4 s z rest h
  norm_num at hu hz
  have hser : (fixedInt 4).Serialize z = WriteLE 4 u := by
    simp only [fixedInt]
    congr 1
    norm_num
    split_ifs at hz <;> omega
  refine ⟨by rw [hser]; exact hs, fixedInt_roundTripsAt_int z ?_ ?_⟩
  · split_ifs at hz <;> omega
  · split_ifs at hz <;> omega

/-- A size up to `MAX_SIZE` is read back from its compact form. -/
theorem ReadCompactSize_WriteCompactSize (n : Nat) (hn : n ≤ MAX_SIZE) (rest : CDataStream) :
    ReadCompactSize (WriteCompactSize n ++ rest) = some (n, rest) := by
  have hmax : ¬ MAX_SIZE < n := by omega
  have v253 : ((253 : Byte) : Nat) = 253 := rfl
  have v254 : ((254 : Byte) : Nat) = 254 := rfl
  simp only [MAX_SIZE] at hn
  by_cases h1 : n < 253
  · have h256 : n % 256 = n := Nat.mod_eq_of_lt (by omega)
    simp [WriteCompactSize, h1, WriteLE, ReadCompactSize, h256, hmax]
  · by_cases h2 : n ≤ 0xFFFF
    · have hmod : n % 65536 = n := Nat.mod_eq_of_lt (by omega)
      simp [WriteCompactSize, h1, h2, ReadCompactSize, fixedUInt_unserialize_append, hmod, hmax,
        v253]
    · have h3 : n ≤ 0xFFFFFFFF := by omega
      have hmod : n % 4294967296 = n := Nat.mod_eq_of_lt (by omega)
      have h4 : ¬ n < 65536 := by omega
      simp [WriteCompactSize, h1, h2, h3, ReadCompactSize, fixedUInt_unserialize_append, hmod,
        hmax, h4, v254]

theorem byteVector_roundTripsAt (v : List Byte) (h : v.length ≤ MAX_SIZE) :
    byteVector.RoundTripsAt v := by
  intro rest
  simp [byteVector, ReadCompactSize_WriteCompactSize v.length h]

/-- What a successful read of a compact size has consumed. -/
theorem ReadCompactSize_eq (s : CDataStream) (n : Nat) (rest : CDataStream)
    (h : ReadCompactSize s = some (n, rest)) :
    s = WriteCompactSize n ++ rest ∧ n ≤ MAX_SIZE := by
  cases s with
  | nil => simp [ReadCompactSize] at h
  | cons chSize s =>
    simp only [ReadCompactSize] at h
    have hb := chSize.isLt
    split_ifs at h with h1 h2 h3
    · simp only [Option.some_bind, Option.bind_eq_bind] at h
      split_ifs at h with hm
      simp only [Option.some.injEq, Prod.mk.injEq] at h
      obtain ⟨hn, hr⟩ := h
      subst hn hr
      have h256 : chSize.val % 256 = chSize.val := Nat.mod_eq_of_lt hb
      refine ⟨?_, by omega⟩
      simp [WriteCompactSize, h1, WriteLE, h256]
    · cases hu : (fixedUInt 2).Unserialize s with
      | none => simp [hu] at h
      | some r =>
        obtain ⟨m, r'⟩ := r
        obtain ⟨hs, hm⟩ := fixedUInt_unserialize_eq 2 s m r' hu
        by_cases ha : m < 253
        · simp [hu, ha] at h
        · by_cases hmax : MAX_SIZE < m
          · simp [hu, ha, hmax] at h
          · simp only [hu, ha, hmax, Option.some_bind, if_false, Option.some.injEq,
              Prod.mk.injEq] at h
            obtain ⟨hn, hr⟩ := h
            subst hn hr
            have hc : chSize = 253 := Fin.ext h2
            norm_num at hm
            refine ⟨?_, by omega⟩
            have hle : m ≤ 65535 := by omega
            simp [WriteCompactSize, ha, hle, hs, hc]
    · cases hu : (fixedUInt 4).Unserialize s with
      | none => simp [hu] at h
      | some r =>
        obtain ⟨m, r'⟩ := r
        obtain ⟨hs, hm⟩ := fixedUInt_unserialize_eq 4 s m r' hu
        by_cases ha : m < 65536
        · simp [hu, ha] at h
        · by_cases hmax : MAX_SIZE < m
          · simp [hu, ha, hmax] at h
          · simp only [hu, ha, hmax, Option.some_bind, if_false, Option.some.injEq,
              Prod.mk.injEq] at h
            obtain ⟨hn, hr⟩ := h
            subst hn hr
            have hc : chSize = 254 := Fin.ext h3
            norm_num at hm
            refine ⟨?_, by omega⟩
            have h253 : ¬ m < 253 := by omega
            have h65 : ¬ m ≤ 65535 := by omega
            have hle : m ≤ 4294967295 := by omega
            simp [WriteCompactSize, h253, h65, hle, hs, hc]
    · cases hu : (fixedUInt 8).Unserialize s with
      | none => simp [hu] at h
      | some r =>
        obtain ⟨m, r'⟩ := r
        by_cases ha : m < 4294967296
        · simp [hu, ha] at h
        · have hmax : MAX_SIZE < m := by simp only [MAX_SIZE]; omega
          simp [hu, ha, hmax] at h

theorem byteVector_canonical : byteVector.Canonical := by
  intro s v rest h
  simp only [byteVector] at h
  cases hr : ReadCompactSize s with
  | none => simp [hr] at h
  | some r =>
    obtain ⟨n, r'⟩ := r
    obtain ⟨hs, hn⟩ := ReadCompactSize_eq s n r' hr
    simp only [hr, Option.some_bind, Option.bind_eq_bind] at h
    split_ifs at h with hlen
    simp only [Option.some.injEq, Prod.mk.injEq] at h
    obtain ⟨hv, hrest⟩ := h
    have hvlen : v.length = n := by rw [← hv]; simp [hlen]
    refine ⟨?_, byteVector_roundTripsAt v (by omega)⟩
    show s = WriteCompactSize v.length ++ v ++ rest
    rw [hvlen, hs, ← hv, ← hrest, List.append_assoc, List.take_append_drop]

theorem sigma_sampleParams_canonical : sigma.sampleParams.Canonical :=
  ⟨byteVector_canonical, fixedUInt_canonical 32, fixedUInt_canonical 4,
    fixedInt_canonical_int64, fixedUInt_canonical 32, byteVector_canonical⟩

theorem libzerocoin_sampleParams_canonical : libzerocoin.sampleParams.Canonical :=
  ⟨fixedInt_canonical_int, fixedUInt_canonical 4, byteVector_canonical, byteVector_canonical,
    byteVector_canonical, byteVector_canonical, fixedUInt_canonical 32, byteVector_canonical⟩

theorem sigma_sampleSpend_fieldsRoundTrip :
    sigma.CoinSpend.FieldsRoundTrip sigma.sampleParams sigma.sampleSpend := by
  refine ⟨byteVector_roundTripsAt _ (by decide), fixedUInt_roundTripsAt _ _ (by decide),
    fixedUInt_roundTripsAt _ _ (by decide),
    fixedInt_roundTripsAt_int64 _ (by decide) (by decide), ?_,
    fixedUInt_roundTripsAt _ _ (by decide), byteVector_roundTripsAt _ (by decide),
    byteVector_roundTripsAt _ (by decide)⟩
  intro denom_out
  rfl

theorem libzerocoin_sampleSpend_fieldsRoundTrip :
    libzerocoin.CoinSpend.FieldsRoundTrip libzerocoin.sampleParams libzerocoin.sampleSpend :=
  ⟨fixedInt_roundTripsAt_int _ (by decide) (by decide),
    byteVector_roundTripsAt _ (by decide), byteVector_roundTripsAt _ (by decide),
    byteVector_roundTripsAt _ (by decide), byteVector_roundTripsAt _ (by decide),
    byteVector_roundTripsAt _ (by decide), byteVector_roundTripsAt _ (by decide),
    fixedUInt_roundTripsAt _ _ (by decide), byteVector_roundTripsAt _ (by decide),
    byteVector_roundTripsAt _ (by decide), fixedUInt_roundTripsAt _ _ (by decide)⟩

/-! ## What `SerializationOp` writes -/

section layout

variable {Scalar SigmaPlusProof CoinDenomination : Type}
variable {Bignum AccumulatorProofOfKnowledge SerialNumberSignatureOfKnowledge
  CommitmentProofOfKnowledge : Type}

/-- Under the write action the sigma `SerializationOp` never throws: it appends the
seven members in the order of the header and leaves the object as it was. -/
theorem sigma_SerializationOp_write (p : sigma.Params Scalar SigmaPlusProof CoinDenomination)
    (s : CDataStream) (o : sigma.CoinSpend Scalar SigmaPlusProof CoinDenomination) :
    sigma.CoinSpend.SerializationOp p .CSerActionSerialize s o =
      some (s ++ p.proofCodec.Serialize o.sigmaProof
              ++ p.scalarCodec.Serialize o.coinSerialNumber
              ++ p.uintCodec.Serialize o.version
              ++ p.int64Codec.Serialize (p.DenominationToInteger o.denomination (-1)).2
              ++ p.uint256Codec.Serialize o.accumulatorBlockHash
              ++ p.vectorCodec.Serialize o.ecdsaPubkey
              ++ p.vectorCodec.Serialize o.ecdsaSignature, o) := by
  simp [sigma.CoinSpend.SerializationOp, READWRITE, SerAction.ForRead]

/-- Under the write action the legacy `SerializationOp` never throws: it appends the
eleven members in the order of the header and leaves the object as it was. -/
theorem libzerocoin_SerializationOp_write
    (p : libzerocoin.Params Bignum AccumulatorProofOfKnowledge
      SerialNumberSignatureOfKnowledge CommitmentProofOfKnowledge)
    (s : CDataStream)
    (o : libzerocoin.CoinSpend Bignum AccumulatorProofOfKnowledge
      SerialNumberSignatureOfKnowledge CommitmentProofOfKnowledge) :
    libzerocoin.CoinSpend.SerializationOp p .CSerActionSerialize s o =
      some (s ++ p.intCodec.Serialize o.denomination
              ++ p.bignumCodec.Serialize o.accCommitmentToCoinValue
              ++ p.bignumCodec.Serialize o.serialCommitmentToCoinValue
              ++ p.bignumCodec.Serialize o.coinSerialNumber
              ++ p.accumulatorPoKCodec.Serialize o.accumulatorPoK
              ++ p.serialNumberSoKCodec.Serialize o.serialNumberSoK
              ++ p.commitmentPoKCodec.Serialize o.commitmentPoK
              ++ p.uintCodec.Serialize o.version
              ++ p.vectorCodec.Serialize o.ecdsaPubkey
              ++ p.vectorCodec.Serialize o.ecdsaSignature
              ++ p.uint256Codec.Serialize o.accumulatorBlockHash, o) := by
  simp [libzerocoin.CoinSpend.SerializationOp, READWRITE]

/-- Reading back what a round-tripping codec wrote: `READWRITE` under the read action
gives the value written and the bytes after it, whatever the member held before. -/
theorem READWRITE_read {α β : Type} (c : FieldCodec α) (x y : α) (rest : CDataStream)
    (f : CDataStream × α → Option β) (h : c.RoundTripsAt x) :
    (READWRITE c .CSerActionUnserialize (c.Serialize x ++ rest) y >>= f) = f (rest, x) := by
  simp [READWRITE, h rest]

/-- The sigma `SerializationOp` under the read action gives back the spend whose bytes
it is run on, when the members' codecs round-trip at the spend's values. -/
theorem sigma_SerializationOp_read_Serialize
    (p : sigma.Params Scalar SigmaPlusProof CoinDenomination)
    (spend target : sigma.CoinSpend Scalar SigmaPlusProof CoinDenomination)
    (rest : CDataStream) (h : sigma.CoinSpend.FieldsRoundTrip p spend) :
    sigma.CoinSpend.SerializationOp p .CSerActionUnserialize
        (sigma.CoinSpend.Serialize p spend ++ rest) target = some (rest, spend) := by
  obtain ⟨h1, h2, h3, h4, h4b, h5, h6, h7⟩ := h
  simp only [sigma.CoinSpend.Serialize, sigma_SerializationOp_write, List.nil_append,
    List.append_assoc]
  unfold sigma.CoinSpend.SerializationOp
  rw [READWRITE_read _ _ _ _ _ h1, READWRITE_read _ _ _ _ _ h2, READWRITE_read _ _ _ _ _ h3]
  simp only [SerAction.ForRead, if_true]
  rw [READWRITE_read _ _ _ _ _ h4, pure_bind, READWRITE_read _ _ _ _ _ h5,
    READWRITE_read _ _ _ _ _ h6, READWRITE_read _ _ _ _ _ h7]
  simp only [h4b]
  rfl

/-- The legacy `SerializationOp` under the read action gives back the spend whose
bytes it is run on, when the members' codecs round-trip at the spend's values. -/
theorem libzerocoin_SerializationOp_read_Serialize
    (p : libzerocoin.Params Bignum AccumulatorProofOfKnowledge
      SerialNumberSignatureOfKnowledge CommitmentProofOfKnowledge)
    (spend target : libzerocoin.CoinSpend Bignum AccumulatorProofOfKnowledge
      SerialNumberSignatureOfKnowledge CommitmentProofOfKnowledge)
    (rest : CDataStream) (h : libzerocoin.CoinSpend.FieldsRoundTrip p spend) :
    libzerocoin.CoinSpend.SerializationOp p .CSerActionUnserialize
        (libzerocoin.CoinSpend.Serialize p spend ++ rest) target = some (rest, spend) := by
  obtain ⟨g1, g2, g3, g4, g5, g6, g7, g8, g9, g10, g11⟩ := h
  simp only [libzerocoin.CoinSpend.Serialize, libzerocoin_SerializationOp_write,
    List.nil_append, List.append_assoc]
  unfold libzerocoin.CoinSpend.SerializationOp
  rw [READWRITE_read _ _ _ _ _ g1, READWRITE_read _ _ _ _ _ g2, READWRITE_read _ _ _ _ _ g3,
    READWRITE_read _ _ _ _ _ g4, READWRITE_read _ _ _ _ _ g5, READWRITE_read _ _ _ _ _ g6,
    READWRITE_read _ _ _ _ _ g7, READWRITE_read _ _ _ _ _ g8, READWRITE_read _ _ _ _ _ g9,
    READWRITE_read _ _ _ _ _ g10, READWRITE_read _ _ _ _ _ g11]
  rfl

/-- Claim C1.  Round trip, both generations: when each member's codec round-trips at
the value the spend holds, `SerializationOp` under the read action, run on any object
`target` over the bytes that the write action produced for `spend` (followed by any
`rest`), does not throw, consumes exactly those bytes, and leaves an object equal to
`spend` in every member. -/
theorem CoinSpend_roundtrip
    (ps : sigma.Params Scalar SigmaPlusProof CoinDenomination)
    (spend target : sigma.CoinSpend Scalar SigmaPlusProof CoinDenomination)
    (pl : libzerocoin.Params Bignum AccumulatorProofOfKnowledge
      SerialNumberSignatureOfKnowledge CommitmentProofOfKnowledge)
    (lspend ltarget : libzerocoin.CoinSpend Bignum AccumulatorProofOfKnowledge
      SerialNumberSignatureOfKnowledge CommitmentProofOfKnowledge)
    (rest : CDataStream)
    (hs : sigma.CoinSpend.FieldsRoundTrip ps spend)
    (hl : libzerocoin.CoinSpend.FieldsRoundTrip pl lspend) :
    sigma.CoinSpend.SerializationOp ps .CSerActionUnserialize
        (sigma.CoinSpend.Serialize ps spend ++ rest) target = some (rest, spend) ∧
    libzerocoin.CoinSpend.SerializationOp pl .CSerActionUnserialize
        (libzerocoin.CoinSpend.Serialize pl lspend ++ rest) ltarget = some (rest, lspend) :=
  ⟨sigma_SerializationOp_read_Serialize ps spend target rest hs,
    libzerocoin_SerializationOp_read_Serialize pl lspend ltarget rest hl⟩

/-- Claim C1 at the two sample spends, read into the stream constructors' initial
objects with nothing after the bytes. -/
theorem CoinSpend_roundtrip_witness :
    sigma.CoinSpend.FieldsRoundTrip sigma.sampleParams sigma.sampleSpend ∧
    libzerocoin.CoinSpend.FieldsRoundTrip libzerocoin.sampleParams libzerocoin.sampleSpend ∧
    sigma.CoinSpend.SerializationOp sigma.sampleParams .CSerActionUnserialize
        (sigma.CoinSpend.Serialize sigma.sampleParams sigma.sampleSpend ++ [])
        (sigma.CoinSpend.init sigma.sampleParams) = some ([], sigma.sampleSpend) ∧
    libzerocoin.CoinSpend.SerializationOp libzerocoin.sampleParams .CSerActionUnserialize
        (libzerocoin.CoinSpend.Serialize libzerocoin.sampleParams libzerocoin.sampleSpend ++ [])
        (libzerocoin.CoinSpend.init libzerocoin.sampleParams)
      = some ([], libzerocoin.sampleSpend) :=
  ⟨sigma_sampleSpend_fieldsRoundTrip, libzerocoin_sampleSpend_fieldsRoundTrip,
    CoinSpend_roundtrip sigma.sampleParams sigma.sampleSpend
      (sigma.CoinSpend.init sigma.sampleParams) libzerocoin.sampleParams
      libzerocoin.sampleSpend (libzerocoin.CoinSpend.init libzerocoin.sampleParams) []
      sigma_sampleSpend_fieldsRoundTrip libzerocoin_sampleSpend_fieldsRoundTrip⟩

/-- Claim C2.  Sigma re-serialization at a denomination integer that names no
denomination: let the bytes hold the members of `spend` with the integer `value` in
the place of the denomination (the codecs round-tripping at these values), let
`IntegerToDenomination` leave the initial `SIGMA_1` in place for `value`, and let the
integer of `SIGMA_1` be written differently from `value`.  Then the stream
constructor succeeds, and the object it builds does not serialize to the bytes that
were consumed. -/
theorem sigma_reserialize_unknown_denomination
    (p : sigma.Params Scalar SigmaPlusProof CoinDenomination)
    (spend : sigma.CoinSpend Scalar SigmaPlusProof CoinDenomination) (value : Int)
    (rest : CDataStream)
    (h1 : p.proofCodec.RoundTripsAt spend.sigmaProof)
    (h2 : p.scalarCodec.RoundTripsAt spend.coinSerialNumber)
    (h3 : p.uintCodec.RoundTripsAt spend.version)
    (h4 : p.int64Codec.RoundTripsAt value)
    (h5 : p.uint256Codec.RoundTripsAt spend.accumulatorBlockHash)
    (h6 : p.vectorCodec.RoundTripsAt spend.ecdsaPubkey)
    (h7 : p.vectorCodec.RoundTripsAt spend.ecdsaSignature)
    (hkeep : (p.IntegerToDenomination value p.SIGMA_1).2 = p.SIGMA_1)
    (hne : p.int64Codec.Serialize (p.DenominationToInteger p.SIGMA_1 (-1)).2
      ≠ p.int64Codec.Serialize value) :
    ∃ built,
      sigma.CoinSpend.fromStream p
          (p.proofCodec.Serialize spend.sigmaProof
            ++ (p.scalarCodec.Serialize spend.coinSerialNumber
            ++ (p.uintCodec.Serialize spend.version
            ++ (p.int64Codec.Serialize value
            ++ (p.uint256Codec.Serialize spend.accumulatorBlockHash
            ++ (p.vectorCodec.Serialize spend.ecdsaPubkey
            ++ (p.vectorCodec.Serialize spend.ecdsaSignature ++ rest)))))))
        = some (built, rest) ∧
      sigma.CoinSpend.Serialize p built ++ rest
        ≠ p.proofCodec.Serialize spend.sigmaProof
            ++ (p.scalarCodec.Serialize spend.coinSerialNumber
            ++ (p.uintCodec.Serialize spend.version
            ++ (p.int64Codec.Serialize value
            ++ (p.uint256Codec.Serialize spend.accumulatorBlockHash
            ++ (p.vectorCodec.Serialize spend.ecdsaPubkey
            ++ (p.vectorCodec.Serialize spend.ecdsaSignature ++ rest)))))) := by
  refine ⟨{ spend with denomination := p.SIGMA_1 }, ?_, ?_⟩
  · unfold sigma.CoinSpend.fromStream sigma.CoinSpend.SerializationOp
    rw [READWRITE_read _ _ _ _ _ h1, READWRITE_read _ _ _ _ _ h2, READWRITE_read _ _ _ _ _ h3]
    simp only [SerAction.ForRead, if_true]
    rw [READWRITE_read _ _ _ _ _ h4, pure_bind, READWRITE_read _ _ _ _ _ h5,
      READWRITE_read _ _ _ _ _ h6, READWRITE_read _ _ _ _ _ h7]
    have hinit : (sigma.CoinSpend.init p).denomination = p.SIGMA_1 := rfl
    rw [hinit, hkeep]
    rfl
  · simp only [sigma.CoinSpend.Serialize, sigma_SerializationOp_write, List.nil_append,
      List.append_assoc, ne_eq, List.append_right_inj, List.append_left_inj]
    exact hne

/-- Claim C2 at the bytes whose denomination integer is 7, for which
`IntegerToDenomination` returns `false` and leaves `SIGMA_1` in place: the spend built
from them serializes with the integer of `SIGMA_1`, not with 7. -/
theorem sigma_reserialize_unknown_denomination_witness :
    IntegerToDenomination 7 .SIGMA_1 = (false, .SIGMA_1) ∧
    ∃ built,
      sigma.CoinSpend.fromStream sigma.sampleParams
          (byteVector.Serialize [1, 2, 3, 4]
            ++ ((fixedUInt 32).Serialize 0x1234
            ++ ((fixedUInt 4).Serialize 30
            ++ ((fixedInt 8).Serialize 7
            ++ ((fixedUInt 32).Serialize 0xabcdef
            ++ (byteVector.Serialize [2, 5]
            ++ (byteVector.Serialize [7, 8, 9] ++ [])))))))
        = some (built, []) ∧
      sigma.CoinSpend.Serialize sigma.sampleParams built ++ []
        ≠ byteVector.Serialize [1, 2, 3, 4]
            ++ ((fixedUInt 32).Serialize 0x1234
            ++ ((fixedUInt 4).Serialize 30
            ++ ((fixedInt 8).Serialize 7
            ++ ((fixedUInt 32).Serialize 0xabcdef
            ++ (byteVector.Serialize [2, 5]
            ++ (byteVector.Serialize [7, 8, 9] ++ [])))))) :=
  ⟨rfl, sigma_reserialize_unknown_denomination sigma.sampleParams sigma.sampleSpend 7 []
    (byteVector_roundTripsAt _ (by decide)) (fixedUInt_roundTripsAt _ _ (by decide))
    (fixedUInt_roundTripsAt _ _ (by decide))
    (fixedInt_roundTripsAt_int64 _ (by decide) (by decide))
    (fixedUInt_roundTripsAt _ _ (by decide)) (byteVector_roundTripsAt _ (by decide))
    (byteVector_roundTripsAt _ (by decide)) rfl (by decide)⟩

/-- Claim C3 as stated fails at the sample sigma spend: its serialization is not in
the order the specification words give; the bytes start with the proof, not with the
denomination integer. -/
theorem sigma_layout_counterexample :
    sigma.CoinSpend.Serialize sigma.sampleParams sigma.sampleSpend
      ≠ sigma.CoinSpend.specLayout sigma.sampleParams sigma.sampleSpend := by
  decide

/-- Claim C3, amended.  The serialized form is the concatenation of the members in the
order of each `SerializationOp`.  Sigma: proof, serial number, version, denomination
as a 64-bit integer, accumulator block hash, ECDSA public key, ECDSA signature.
Legacy: denomination as an integer, the two commitments, serial number, the three
proofs, version, ECDSA public key, ECDSA signature, accumulator block hash. -/
theorem CoinSpend_layout
    (ps : sigma.Params Scalar SigmaPlusProof CoinDenomination)
    (spend : sigma.CoinSpend Scalar SigmaPlusProof CoinDenomination)
    (pl : libzerocoin.Params Bignum AccumulatorProofOfKnowledge
      SerialNumberSignatureOfKnowledge CommitmentProofOfKnowledge)
    (lspend : libzerocoin.CoinSpend Bignum AccumulatorProofOfKnowledge
      SerialNumberSignatureOfKnowledge CommitmentProofOfKnowledge) :
    sigma.CoinSpend.Serialize ps spend =
        ps.proofCodec.Serialize spend.sigmaProof
          ++ ps.scalarCodec.Serialize spend.coinSerialNumber
          ++ ps.uintCodec.Serialize spend.version
          ++ ps.int64Codec.Serialize (ps.DenominationToInteger spend.denomination (-1)).2
          ++ ps.uint256Codec.Serialize spend.accumulatorBlockHash
          ++ ps.vectorCodec.Serialize spend.ecdsaPubkey
          ++ ps.vectorCodec.Serialize spend.ecdsaSignature ∧
    libzerocoin.CoinSpend.Serialize pl lspend =
        pl.intCodec.Serialize lspend.denomination
          ++ pl.bignumCodec.Serialize lspend.accCommitmentToCoinValue
          ++ pl.bignumCodec.Serialize lspend.serialCommitmentToCoinValue
          ++ pl.bignumCodec.Serialize lspend.coinSerialNumber
          ++ pl.accumulatorPoKCodec.Serialize lspend.accumulatorPoK
          ++ pl.serialNumberSoKCodec.Serialize lspend.serialNumberSoK
          ++ pl.commitmentPoKCodec.Serialize lspend.commitmentPoK
          ++ pl.uintCodec.Serialize lspend.version
          ++ pl.vectorCodec.Serialize lspend.ecdsaPubkey
          ++ pl.vectorCodec.Serialize lspend.ecdsaSignature
          ++ pl.uint256Codec.Serialize lspend.accumulatorBlockHash := by
  constructor
  · simp only [sigma.CoinSpend.Serialize, sigma_SerializationOp_write, List.nil_append]
  · simp only [libzerocoin.CoinSpend.Serialize, libzerocoin_SerializationOp_write,
      List.nil_append]

/-- Claim C4.  The sigma stream constructor does not reject a denomination integer
that names no denomination: on the bytes of the members of `spend` with any integer
`value` in the place of the denomination (the codecs round-tripping at these values),
the constructor does not throw, whatever `bool` the conversion `IntegerToDenomination`
returns for `value`; it builds the spend whose denomination is what the conversion
left in place of the initial `SIGMA_1`. -/
theorem sigma_fromStream_accepts_any_denomination
    (p : sigma.Params Scalar SigmaPlusProof CoinDenomination)
    (spend : sigma.CoinSpend Scalar SigmaPlusProof CoinDenomination) (value : Int)
    (rest : CDataStream)
    (h1 : p.proofCodec.RoundTripsAt spend.sigmaProof)
    (h2 : p.scalarCodec.RoundTripsAt spend.coinSerialNumber)
    (h3 : p.uintCodec.RoundTripsAt spend.version)
    (h4 : p.int64Codec.RoundTripsAt value)
    (h5 : p.uint256Codec.RoundTripsAt spend.accumulatorBlockHash)
    (h6 : p.vectorCodec.RoundTripsAt spend.ecdsaPubkey)
    (h7 : p.vectorCodec.RoundTripsAt spend.ecdsaSignature) :
    sigma.CoinSpend.fromStream p
        (p.proofCodec.Serialize spend.sigmaProof
          ++ (p.scalarCodec.Serialize spend.coinSerialNumber
          ++ (p.uintCodec.Serialize spend.version
          ++ (p.int64Codec.Serialize value
          ++ (p.uint256Codec.Serialize spend.accumulatorBlockHash
          ++ (p.vectorCodec.Serialize spend.ecdsaPubkey
          ++ (p.vectorCodec.Serialize spend.ecdsaSignature ++ rest)))))))
      = some ({ spend with denomination := (p.IntegerToDenomination value p.SIGMA_1).2 },
          rest) := by
  unfold sigma.CoinSpend.fromStream sigma.CoinSpend.SerializationOp
  rw [READWRITE_read _ _ _ _ _ h1, READWRITE_read _ _ _ _ _ h2, READWRITE_read _ _ _ _ _ h3]
  simp only [SerAction.ForRead, if_true]
  rw [READWRITE_read _ _ _ _ _ h4, pure_bind, READWRITE_read _ _ _ _ _ h5,
    READWRITE_read _ _ _ _ _ h6, READWRITE_read _ _ _ _ _ h7]
  rfl

/-- Claim C4 at the bytes whose denomination integer is -1, for which
`IntegerToDenomination` returns `false`: the stream constructor builds a spend of
denomination `SIGMA_1`. -/
theorem sigma_fromStream_accepts_any_denomination_witness :
    (IntegerToDenomination (-1) .SIGMA_1).1 = false ∧
    sigma.CoinSpend.fromStream sigma.sampleParams
        (byteVector.Serialize [1, 2, 3, 4]
          ++ ((fixedUInt 32).Serialize 0x1234
          ++ ((fixedUInt 4).Serialize 30
          ++ ((fixedInt 8).Serialize (-1)
          ++ ((fixedUInt 32).Serialize 0xabcdef
          ++ (byteVector.Serialize [2, 5]
          ++ (byteVector.Serialize [7, 8, 9] ++ [])))))))
      = some ({ sigma.sampleSpend with denomination := .SIGMA_1 }, []) :=
  ⟨rfl, sigma_fromStream_accepts_any_denomination sigma.sampleParams sigma.sampleSpend (-1) []
    (byteVector_roundTripsAt _ (by decide)) (fixedUInt_roundTripsAt _ _ (by decide))
    (fixedUInt_roundTripsAt _ _ (by decide))
    (fixedInt_roundTripsAt_int64 _ (by decide) (by decide))
    (fixedUInt_roundTripsAt _ _ (by decide)) (byteVector_roundTripsAt _ (by decide))
    (byteVector_roundTripsAt _ (by decide))⟩

/-- Claim C5 as stated fails at a spend read from the wire: for either generation, the
stream constructor reads the sample bytes, and `setVersion(31)` on the object it built
changes the serialized bytes. -/
theorem setVersion_changes_bytes :
    (∃ spend rest,
      sigma.CoinSpend.fromStream sigma.sampleParams
        (sigma.CoinSpend.Serialize sigma.sampleParams sigma.sampleSpend) = some (spend, rest) ∧
      sigma.CoinSpend.Serialize sigma.sampleParams (spend.call (.setVersion 31))
        ≠ sigma.CoinSpend.Serialize sigma.sampleParams spend) ∧
    (∃ spend rest,
      libzerocoin.CoinSpend.fromStream libzerocoin.sampleParams
        (libzerocoin.CoinSpend.Serialize libzerocoin.sampleParams libzerocoin.sampleSpend)
          = some (spend, rest) ∧
      libzerocoin.CoinSpend.Serialize libzerocoin.sampleParams (spend.call (.setVersion 31))
        ≠ libzerocoin.CoinSpend.Serialize libzerocoin.sampleParams spend) :=
  ⟨⟨sigma.sampleSpend, [], rfl, by decide⟩, ⟨libzerocoin.sampleSpend, [], rfl, by decide⟩⟩

/-- Claim C5, amended.  For either generation, the accessors `getVersion` and
`getAccumulatorBlockHash` leave the serialized bytes as they were, and `setVersion(n)`
replaces the bytes of the version member by those of `n` (as an `unsigned int`) and
leaves the bytes of every other member as they were. -/
theorem member_ops_serialized
    (ps : sigma.Params Scalar SigmaPlusProof CoinDenomination)
    (spend : sigma.CoinSpend Scalar SigmaPlusProof CoinDenomination)
    (pl : libzerocoin.Params Bignum AccumulatorProofOfKnowledge
      SerialNumberSignatureOfKnowledge CommitmentProofOfKnowledge)
    (lspend : libzerocoin.CoinSpend Bignum AccumulatorProofOfKnowledge
      SerialNumberSignatureOfKnowledge CommitmentProofOfKnowledge) (n : Nat) :
    (sigma.CoinSpend.Serialize ps (spend.call .getVersion) = sigma.CoinSpend.Serialize ps spend ∧
     sigma.CoinSpend.Serialize ps (spend.call .getAccumulatorBlockHash)
        = sigma.CoinSpend.Serialize ps spend ∧
     sigma.CoinSpend.Serialize ps (spend.call (.setVersion n)) =
        ps.proofCodec.Serialize spend.sigmaProof
          ++ ps.scalarCodec.Serialize spend.coinSerialNumber
          ++ ps.uintCodec.Serialize (n % 2 ^ 32)
          ++ ps.int64Codec.Serialize (ps.DenominationToInteger spend.denomination (-1)).2
          ++ ps.uint256Codec.Serialize spend.accumulatorBlockHash
          ++ ps.vectorCodec.Serialize spend.ecdsaPubkey
          ++ ps.vectorCodec.Serialize spend.ecdsaSignature) ∧
    (libzerocoin.CoinSpend.Serialize pl (lspend.call .getVersion)
        = libzerocoin.CoinSpend.Serialize pl lspend ∧
     libzerocoin.CoinSpend.Serialize pl (lspend.call .getAccumulatorBlockHash)
        = libzerocoin.CoinSpend.Serialize pl lspend ∧
     libzerocoin.CoinSpend.Serialize pl (lspend.call (.setVersion n)) =
        pl.intCodec.Serialize lspend.denomination
          ++ pl.bignumCodec.Serialize lspend.accCommitmentToCoinValue
          ++ pl.bignumCodec.Serialize lspend.serialCommitmentToCoinValue
          ++ pl.bignumCodec.Serialize lspend.coinSerialNumber
          ++ pl.accumulatorPoKCodec.Serialize lspend.accumulatorPoK
          ++ pl.serialNumberSoKCodec.Serialize lspend.serialNumberSoK
          ++ pl.commitmentPoKCodec.Serialize lspend.commitmentPoK
          ++ pl.uintCodec.Serialize (n % 2 ^ 32)
          ++ pl.vectorCodec.Serialize lspend.ecdsaPubkey
          ++ pl.vectorCodec.Serialize lspend.ecdsaSignature
          ++ pl.uint256Codec.Serialize lspend.accumulatorBlockHash) := by
  refine ⟨⟨rfl, rfl, ?_⟩, ⟨rfl, rfl, ?_⟩⟩
  · simp only [sigma.CoinSpend.Serialize, sigma_SerializationOp_write, List.nil_append,
      sigma.CoinSpend.call, sigma.CoinSpend.setVersion]
  · simp only [libzerocoin.CoinSpend.Serialize, libzerocoin_SerializationOp_write,
      List.nil_append, libzerocoin.CoinSpend.call, libzerocoin.CoinSpend.setVersion]

/-! ## Truncated input -/

/-- Reading a member from a prefix `s` of `Serialize x ++ rest` with a canonical codec:
the read throws, or `s` holds all the bytes of `x`, which are read back, and what is
left of `s` is a prefix of `rest`. -/
theorem READWRITE_read_prefix {α β : Type} (c : FieldCodec α) (hc : c.Canonical)
    (x y : α) (rest s t : CDataStream) (f : CDataStream × α → Option β)
    (hx : c.RoundTripsAt x) (hst : c.Serialize x ++ rest = s ++ t) :
    (READWRITE c .CSerActionUnserialize s y >>= f) = none ∨
      ∃ s', (READWRITE c .CSerActionUnserialize s y >>= f) = f (s', x) ∧ rest = s' ++ t := by
  cases hread : c.Unserialize s with
  | none => left; simp [READWRITE, hread]
  | some yr =>
    obtain ⟨y', r⟩ := yr
    obtain ⟨hs, hy⟩ := hc s y' r hread
    have h1 := hx rest
    rw [hst, hs, List.append_assoc, hy (r ++ t)] at h1
    simp only [Option.some.injEq, Prod.mk.injEq] at h1
    obtain ⟨hxy, hrest⟩ := h1
    right
    exact ⟨r, by simp [READWRITE, hread, hxy], hrest.symm⟩

/-- Truncated sigma input: with canonical codecs, the stream constructor throws on
every strict prefix of the bytes of a spend. -/
theorem sigma_fromStream_truncated
    (p : sigma.Params Scalar SigmaPlusProof CoinDenomination) (hp : p.Canonical)
    (spend : sigma.CoinSpend Scalar SigmaPlusProof CoinDenomination)
    (hspend : sigma.CoinSpend.FieldsRoundTrip p spend)
    (input tail : CDataStream) (htail : tail ≠ [])
    (h : sigma.CoinSpend.Serialize p spend = input ++ tail) :
    sigma.CoinSpend.fromStream p input = none := by
  obtain ⟨c1, c2, c3, c4, c5, c6⟩ := hp
  obtain ⟨h1, h2, h3, h4, -, h5, h6, h7⟩ := hspend
  simp only [sigma.CoinSpend.Serialize, sigma_SerializationOp_write, List.nil_append,
    List.append_assoc] at h
  unfold sigma.CoinSpend.fromStream sigma.CoinSpend.SerializationOp
  rcases READWRITE_read_prefix _ c1 _ _ _ _ _ _ h1 h with e | ⟨s1, e, r1⟩
  · rw [e]; rfl
  rw [e]
  rcases READWRITE_read_prefix _ c2 _ _ _ _ _ _ h2 r1 with e | ⟨s2, e, r2⟩
  · rw [e]; rfl
  rw [e]
  rcases READWRITE_read_prefix _ c3 _ _ _ _ _ _ h3 r2 with e | ⟨s3, e, r3⟩
  · rw [e]; rfl
  rw [e]
  simp only [SerAction.ForRead, if_true, bind_assoc]
  rcases READWRITE_read_prefix _ c4 _ _ _ _ _ _ h4 r3 with e | ⟨s4, e, r4⟩
  · rw [e]; rfl
  rw [e, pure_bind]
  rcases READWRITE_read_prefix _ c5 _ _ _ _ _ _ h5 r4 with e | ⟨s5, e, r5⟩
  · rw [e]; rfl
  rw [e]
  rcases READWRITE_read_prefix _ c6 _ _ _ _ _ _ h6 r5 with e | ⟨s6, e, r6⟩
  · rw [e]; rfl
  rw [e]
  have r6' : p.vectorCodec.Serialize spend.ecdsaSignature ++ [] = s6 ++ tail := by
    rw [List.append_nil]; exact r6
  rcases READWRITE_read_prefix _ c6 _ _ _ _ _ _ h7 r6' with e | ⟨s7, e, r7⟩
  · rw [e]; rfl
  · exact absurd (List.append_eq_nil.mp r7.symm).2 htail

/-- Truncated legacy input: with canonical codecs, the stream constructor throws on
every strict prefix of the bytes of a spend. -/
theorem libzerocoin_fromStream_truncated
    (p : libzerocoin.Params Bignum AccumulatorProofOfKnowledge
      SerialNumberSignatureOfKnowledge CommitmentProofOfKnowledge) (hp : p.Canonical)
    (spend : libzerocoin.CoinSpend Bignum AccumulatorProofOfKnowledge
      SerialNumberSignatureOfKnowledge CommitmentProofOfKnowledge)
    (hspend : libzerocoin.CoinSpend.FieldsRoundTrip p spend)
    (input tail : CDataStream) (htail : tail ≠ [])
    (h : libzerocoin.CoinSpend.Serialize p spend = input ++ tail) :
    libzerocoin.CoinSpend.fromStream p input = none := by
  obtain ⟨cInt, cUint, cBig, cAcc, cSok, cCom, cHash, cVec⟩ := hp
  obtain ⟨g1, g2, g3, g4, g5, g6, g7, g8, g9, g10, g11⟩ := hspend
  simp only [libzerocoin.CoinSpend.Serialize, libzerocoin_SerializationOp_write,
    List.nil_append, List.append_assoc] at h
  unfold libzerocoin.CoinSpend.fromStream libzerocoin.CoinSpend.SerializationOp
  rcases READWRITE_read_prefix _ cInt _ _ _ _ _ _ g1 h with e | ⟨s1, e, r1⟩
  · rw [e]; rfl
  rw [e]
  rcases READWRITE_read_prefix _ cBig _ _ _ _ _ _ g2 r1 with e | ⟨s2, e, r2⟩
  · rw [e]; rfl
  rw [e]
  rcases READWRITE_read_prefix _ cBig _ _ _ _ _ _ g3 r2 with e | ⟨s3, e, r3⟩
  · rw [e]; rfl
  rw [e]
  rcases READWRITE_read_prefix _ cBig _ _ _ _ _ _ g4 r3 with e | ⟨s4, e, r4⟩
  · rw [e]; rfl
  rw [e]
  rcases READWRITE_read_prefix _ cAcc _ _ _ _ _ _ g5 r4 with e | ⟨s5, e, r5⟩
  · rw [e]; rfl
  rw [e]
  rcases READWRITE_read_prefix _ cSok _ _ _ _ _ _ g6 r5 with e | ⟨s6, e, r6⟩
  · rw [e]; rfl
  rw [e]
  rcases READWRITE_read_prefix _ cCom _ _ _ _ _ _ g7 r6 with e | ⟨s7, e, r7⟩
  · rw [e]; rfl
  rw [e]
  rcases READWRITE_read_prefix _ cUint _ _ _ _ _ _ g8 r7 with e | ⟨s8, e, r8⟩
  · rw [e]; rfl
  rw [e]
  rcases READWRITE_read_prefix _ cVec _ _ _ _ _ _ g9 r8 with e | ⟨s9, e, r9⟩
  · rw [e]; rfl
  rw [e]
  rcases READWRITE_read_prefix _ cVec _ _ _ _ _ _ g10 r9 with e | ⟨s10, e, r10⟩
  · rw [e]; rfl
  rw [e]
  have r10' : p.uint256Codec.Serialize spend.accumulatorBlockHash ++ [] = s10 ++ tail := by
    rw [List.append_nil]; exact r10
  rcases READWRITE_read_prefix _ cHash _ _ _ _ _ _ g11 r10' with e | ⟨s11, e, r11⟩
  · rw [e]; rfl
  · exact absurd (List.append_eq_nil.mp r11.symm).2 htail

/-- The truncation theorems at the sample spends: the bytes of either sample spend
without their last byte are rejected by the stream constructor. -/
theorem fromStream_truncated_sample :
    sigma.CoinSpend.fromStream sigma.sampleParams
      (sigma.CoinSpend.Serialize sigma.sampleParams sigma.sampleSpend).dropLast = none ∧
    libzerocoin.CoinSpend.fromStream libzerocoin.sampleParams
      (libzerocoin.CoinSpend.Serialize libzerocoin.sampleParams
        libzerocoin.sampleSpend).dropLast = none :=
  ⟨sigma_fromStream_truncated sigma.sampleParams sigma_sampleParams_canonical
      sigma.sampleSpend sigma_sampleSpend_fieldsRoundTrip _ [9] (by decide) (by decide),
    libzerocoin_fromStream_truncated libzerocoin.sampleParams
      libzerocoin_sampleParams_canonical libzerocoin.sampleSpend
      libzerocoin_sampleSpend_fieldsRoundTrip _ [0] (by decide) (by decide)⟩

/-! ## Re-serializing what was read -/

/-- A read with a canonical codec that lets the rest of the operation succeed has
consumed exactly the bytes of the value it read. -/
theorem READWRITE_read_eq_some {α β : Type} (c : FieldCodec α) (hc : c.Canonical)
    (s : CDataStream) (y : α) (f : CDataStream × α → Option β) (b : β)
    (h : (READWRITE c .CSerActionUnserialize s y >>= f) = some b) :
    ∃ x s', s = c.Serialize x ++ s' ∧ f (s', x) = some b := by
  cases hread : c.Unserialize s with
  | none => simp [READWRITE, hread] at h
  | some r =>
    obtain ⟨x, s'⟩ := r
    refine ⟨x, s', (hc s x s' hread).1, ?_⟩
    simpa [READWRITE, hread] using h

/-- Legacy re-serialization: with canonical codecs, whenever the stream constructor
succeeds, the object it built serializes to exactly the bytes it consumed. -/
theorem libzerocoin_fromStream_reserialize
    (p : libzerocoin.Params Bignum AccumulatorProofOfKnowledge
      SerialNumberSignatureOfKnowledge CommitmentProofOfKnowledge) (hp : p.Canonical)
    (input rest : CDataStream)
    (spend : libzerocoin.CoinSpend Bignum AccumulatorProofOfKnowledge
      SerialNumberSignatureOfKnowledge CommitmentProofOfKnowledge)
    (h : libzerocoin.CoinSpend.fromStream p input = some (spend, rest)) :
    libzerocoin.CoinSpend.Serialize p spend ++ rest = input := by
  obtain ⟨cInt, cUint, cBig, cAcc, cSok, cCom, cHash, cVec⟩ := hp
  simp only [libzerocoin.CoinSpend.fromStream, Option.map_eq_some'] at h
  obtain ⟨r, h, hr⟩ := h
  unfold libzerocoin.CoinSpend.SerializationOp at h
  obtain ⟨x1, s1, e1, h⟩ := READWRITE_read_eq_some _ cInt _ _ _ _ h
  obtain ⟨x2, s2, e2, h⟩ := READWRITE_read_eq_some _ cBig _ _ _ _ h
  obtain ⟨x3, s3, e3, h⟩ := READWRITE_read_eq_some _ cBig _ _ _ _ h
  obtain ⟨x4, s4, e4, h⟩ := READWRITE_read_eq_some _ cBig _ _ _ _ h
  obtain ⟨x5, s5, e5, h⟩ := READWRITE_read_eq_some _ cAcc _ _ _ _ h
  obtain ⟨x6, s6, e6, h⟩ := READWRITE_read_eq_some _ cSok _ _ _ _ h
  obtain ⟨x7, s7, e7, h⟩ := READWRITE_read_eq_some _ cCom _ _ _ _ h
  obtain ⟨x8, s8, e8, h⟩ := READWRITE_read_eq_some _ cUint _ _ _ _ h
  obtain ⟨x9, s9, e9, h⟩ := READWRITE_read_eq_some _ cVec _ _ _ _ h
  obtain ⟨x10, s10, e10, h⟩ := READWRITE_read_eq_some _ cVec _ _ _ _ h
  obtain ⟨x11, s11, e11, h⟩ := READWRITE_read_eq_some _ cHash _ _ _ _ h
  simp only [Option.pure_def, Option.some.injEq] at h
  subst h
  simp only [Prod.mk.injEq] at hr
  obtain ⟨hspend, hrest⟩ := hr
  subst hspend hrest
  simp only [libzerocoin.CoinSpend.Serialize, libzerocoin_SerializationOp_write,
    List.nil_append, List.append_assoc]
  simp only at e1 e2 e3 e4 e5 e6 e7 e8 e9 e10 e11
  rw [e1, e2, e3, e4, e5, e6, e7, e8, e9, e10, e11]

/-- Sigma re-serialization: with canonical codecs, whenever the stream constructor
succeeds it has read some denomination integer `value` from the wire, the object has
the denomination that `IntegerToDenomination` left in place of `SIGMA_1`, and the
object serializes to the bytes consumed exactly when converting that denomination
back gives the bytes of `value`. -/
theorem sigma_fromStream_reserialize
    (p : sigma.Params Scalar SigmaPlusProof CoinDenomination) (hp : p.Canonical)
    (input rest : CDataStream)
    (spend : sigma.CoinSpend Scalar SigmaPlusProof CoinDenomination)
    (h : sigma.CoinSpend.fromStream p input = some (spend, rest)) :
    ∃ value : Int,
      spend.denomination = (p.IntegerToDenomination value p.SIGMA_1).2 ∧
      (sigma.CoinSpend.Serialize p spend ++ rest = input ↔
        p.int64Codec.Serialize (p.DenominationToInteger spend.denomination (-1)).2
          = p.int64Codec.Serialize value) := by
  obtain ⟨c1, c2, c3, c4, c5, c6⟩ := hp
  simp only [sigma.CoinSpend.fromStream, Option.map_eq_some'] at h
  obtain ⟨r, h, hr⟩ := h
  unfold sigma.CoinSpend.SerializationOp at h
  obtain ⟨x1, s1, e1, h⟩ := READWRITE_read_eq_some _ c1 _ _ _ _ h
  obtain ⟨x2, s2, e2, h⟩ := READWRITE_read_eq_some _ c2 _ _ _ _ h
  obtain ⟨x3, s3, e3, h⟩ := READWRITE_read_eq_some _ c3 _ _ _ _ h
  simp only [SerAction.ForRead, if_true, bind_assoc] at h
  obtain ⟨x4, s4, e4, h⟩ := READWRITE_read_eq_some _ c4 _ _ _ _ h
  rw [pure_bind] at h
  obtain ⟨x5, s5, e5, h⟩ := READWRITE_read_eq_some _ c5 _ _ _ _ h
  obtain ⟨x6, s6, e6, h⟩ := READWRITE_read_eq_some _ c6 _ _ _ _ h
  obtain ⟨x7, s7, e7, h⟩ := READWRITE_read_eq_some _ c6 _ _ _ _ h
  simp only [Option.pure_def, Option.some.injEq] at h
  subst h
  simp only [Prod.mk.injEq] at hr
  obtain ⟨hspend, hrest⟩ := hr
  subst hspend hrest
  refine ⟨x4, rfl, ?_⟩
  simp only [sigma.CoinSpend.Serialize, sigma_SerializationOp_write, List.nil_append,
    List.append_assoc]
  simp only at e1 e2 e3 e4 e5 e6 e7
  rw [e1, e2, e3, e4, e5, e6, e7]
  simp only [List.append_assoc, List.append_right_inj, List.append_left_inj]

end layout

/-! ## `sendtypeto` and its `test_fee` parameter -/

/-- Either form of the outputs leaves the `test_fee` offset at 5 or above. -/
theorem SendToInner.recipients_nTestFeeOfs (ext : Externals) (request : JSONRPCRequest)
    (typeOut : OutputTypes) (r : SendToInner.Recipients)
    (h : SendToInner.recipients ext request typeOut = .ok r) : 5 ≤ r.nTestFeeOfs := by
  simp only [SendToInner.recipients, bind, Except.bind, pure, Except.pure] at h
  repeat' (split at h <;> try contradiction)
  all_goals (cases h; simp)

/-- Without a parameter at the `test_fee` offset, `fCheckFeeOnly` keeps its initial
value `false`. -/
theorem SendToInner.checkFeeOnly_of_size_le (request : JSONRPCRequest) (nTestFeeOfs : Nat)
    (h : request.params.size ≤ nTestFeeOfs) :
    SendToInner.checkFeeOnly request nTestFeeOfs = .ok false := by
  have hlt : ¬ request.params.size > nTestFeeOfs := by omega
  simp [SendToInner.checkFeeOnly, hlt, pure, Except.pure]

/-- With at most five parameters left, `SendToInner` reaches the end of its
preparation only with `fCheckFeeOnly = false`. -/
theorem SendToInner.prepare_fCheckFeeOnly (ext : Externals) (pwallet : CHDWallet)
    (request : JSONRPCRequest) (typeIn typeOut : OutputTypes) (l : SendToInner.Locals)
    (hsize : request.params.size ≤ 5)
    (h : SendToInner.prepare ext pwallet request typeIn typeOut = .ok l) :
    l.fCheckFeeOnly = false := by
  have key : ∀ r v, SendToInner.recipients ext request typeOut = .ok r →
      SendToInner.checkFeeOnly request r.nTestFeeOfs = .ok v → v = false := by
    intro r v hr hv
    have h5 := SendToInner.recipients_nTestFeeOfs ext request typeOut r hr
    rw [SendToInner.checkFeeOnly_of_size_le request r.nTestFeeOfs (by omega)] at hv
    cases hv
    rfl
  simp only [SendToInner.prepare, bind, Except.bind, pure, Except.pure] at h
  repeat' (split at h <;> try contradiction)
  all_goals
    cases h
    exact key _ _ (by assumption) (by assumption)

/-- With at most five parameters left and no help flag, whatever `SendToInner` returns
is the id of a transaction that it has passed to `CommitTransaction`. -/
theorem SendToInner.result_of_size_le (ext : Externals) (request : JSONRPCRequest)
    (typeIn typeOut : OutputTypes) (hhelp : request.fHelp = false)
    (hsize : request.params.size ≤ 5) (v : UniValue)
    (hv : (SendToInner ext request typeIn typeOut).result = .ok v) :
    ∃ wtx rtx, (SendToInner ext request typeIn typeOut).committed = [(wtx, rtx)] ∧
      v = .VSTR wtx.tx.hash := by
  unfold SendToInner at hv ⊢
  split at hv
  · cases hv
  · simp only [EnsureWalletIsAvailable, hhelp, Bool.false_eq_true, if_false] at hv
    split_ifs at hv
  · rename_i pwallet hw
    simp only [hw]
    split at hv
    · cases hv
    · rename_i l hl
      have hfee := SendToInner.prepare_fCheckFeeOnly ext pwallet request typeIn typeOut l hsize hl
      simp only [hl, hfee, Bool.false_eq_true, if_false] at hv ⊢
      split_ifs at hv ⊢
      all_goals first
        | (cases hv; done)
        | (cases hv; exact ⟨_, _, rfl, rfl⟩)

/-- Removing the two type words from an array of at most seven parameters leaves at
most five. -/
theorem UniValue.size_erase_two (params : UniValue) (harr : params.isArray = true)
    (hsize : params.size ≤ 7) : (params.erase 0 2).size ≤ 5 := by
  cases params <;> simp_all [UniValue.isArray, UniValue.erase, UniValue.size]

/-- Claim C10.  On every `sendtypeto` request that passes the argument-count check
(no help flag, an array of 3 to 7 parameters), whatever its `test_fee` parameter says:
when the call returns a value, that value is the id of a transaction that the call has
passed to `CommitTransaction`.  The fee report is never returned. -/
theorem sendtypeto_never_fee_report (ext : Externals) (request : JSONRPCRequest)
    (hhelp : request.fHelp = false) (harr : request.params.isArray = true)
    (hsize : 3 ≤ request.params.size ∧ request.params.size ≤ 7) (v : UniValue)
    (hv : (sendtypeto ext request).result = .ok v) :
    ∃ wtx rtx, (sendtypeto ext request).committed = [(wtx, rtx)] ∧ v = .VSTR wtx.tx.hash := by
  have herase := UniValue.size_erase_two request.params harr hsize.2
  unfold sendtypeto at hv ⊢
  split at hv
  · cases hv
  · rename_i pwallet hw
    simp only [hw]
    split at hv
    · cases hv
    · rename_i he
      cases pwallet <;>
        simp [EnsureWalletIsAvailable, hhelp, pure, Except.pure] at he
      split_ifs at he
    · have hcount : (request.fHelp || decide (request.params.size < 3)
          || decide (request.params.size > 7)) = false := by
        simp [hhelp]
        omega
      simp only [hcount, Bool.false_eq_true, if_false] at hv ⊢
      split at hv
      · cases hv
      · rename_i sTypeIn hin
        split at hv
        · cases hv
        · rename_i sTypeOut hout
          split_ifs at hv ⊢
          exact SendToInner.result_of_size_le ext
            { request with params := request.params.erase 0 2 } _ _ hhelp herase v hv

/-- Claim C10 at the request with `test_fee = true` in the seventh place: the call
commits the transaction and returns its id. -/
theorem sendtypeto_never_fee_report_witness :
    (sendtypeto sampleExternals testFeeRequest).result = .ok (.VSTR "5ac1e0") ∧
    ∃ wtx rtx, (sendtypeto sampleExternals testFeeRequest).committed = [(wtx, rtx)] ∧
      UniValue.VSTR "5ac1e0" = .VSTR wtx.tx.hash :=
  ⟨rfl, sendtypeto_never_fee_report sampleExternals testFeeRequest rfl rfl
    ⟨by decide, by decide⟩ (.VSTR "5ac1e0") rfl⟩

/-- With `test_fee = true` in the sixth place the value is read as `inputs_per_sig`:
the call throws, and nothing is committed. -/
theorem sendtypeto_test_fee_sixth_place :
    (sendtypeto sampleExternals testFeeRequestSixth).result
      = .error (.runtime_error "JSON value is not an integer as expected") ∧
    (sendtypeto sampleExternals testFeeRequestSixth).committed = [] :=
  ⟨rfl, rfl⟩

/-! ## The output objects of `sendtypeto` -/

/-- Claim C15 (the code departs from it): an output object with a valid address, a
positive amount and a narration of more than 24 characters is not rejected by the loop
of `SendToInner` over the outputs; the recipient is appended with the whole narration. -/
theorem SendToInner_outputs_long_narration (ext : Externals) (typeOut : OutputTypes)
    (members : List (String × UniValue)) (sAddress sNarr : String) (amount : UniValue)
    (nAmount : Int) (vecSend : List CTempRecipient) (nTotal : Int)
    (haddress : UniValue.findKey members "address" = some (.VSTR sAddress))
    (hstealth : ext.IsValidStealthAddress sAddress = true)
    (hvalid : ext.IsValid sAddress = true)
    (hamount : UniValue.findKey members "amount" = some amount)
    (hvalue : ext.AmountFromValue amount = .ok nAmount)
    (hpos : 0 < nAmount)
    (hsubfee : UniValue.findKey members "subfee" = none)
    (hscript : UniValue.findKey members "script" = none)
    (hnarr : UniValue.findKey members "narr" = some (.VSTR sNarr))
    (_hlong : 24 < sNarr.utf8ByteSize) :
    SendToInner.outputs ext typeOut [.VOBJ members] (vecSend, nTotal) =
      .ok (vecSend ++ [{ nType := typeOut, nAmount := nAmount, nAmountSelected := nAmount,
                         fSubtractFeeFromAmount := false, address := sAddress,
                         sNarration := sNarr, scriptPubKey := [], fScriptSet := false,
                         fChange := false, n := 0 }],
           nTotal + nAmount) := by
  have hn : ¬ nAmount ≤ 0 := not_le.mpr hpos
  simp [SendToInner.outputs, UniValue.isObject, UniValue.existsKey, UniValue.atKey,
    UniValue.get_str, AddOutput, haddress, hstealth, hvalid, hamount, hvalue, hn, hsubfee,
    hscript, hnarr, bind, Except.bind, pure, Except.pure]

/-- The sample request with a narration of 26 characters meets every hypothesis of
`SendToInner_outputs_long_narration`. -/
theorem SendToInner_outputs_long_narration_witness :
    24 < longNarration.utf8ByteSize ∧
    SendToInner.outputs sampleExternals .OUTPUT_STANDARD
        [.VOBJ [("address", .VSTR sampleStealthAddress), ("amount", .VNUM "0.1"),
                ("narr", .VSTR longNarration)]] ([], 0) =
      .ok ([] ++ [{ nType := .OUTPUT_STANDARD, nAmount := 10000000,
                    nAmountSelected := 10000000,
                    fSubtractFeeFromAmount := false, address := sampleStealthAddress,
                    sNarration := longNarration, scriptPubKey := [], fScriptSet := false,
                    fChange := false, n := 0 }],
           0 + 10000000) :=
  ⟨by decide,
   SendToInner_outputs_long_narration sampleExternals .OUTPUT_STANDARD _ sampleStealthAddress
     longNarration (.VNUM "0.1") 10000000 [] 0 rfl (by decide) (by decide) rfl rfl
     (by decide) rfl rfl rfl (by decide)⟩

/-- The whole call on the sample request: `sendtypeto` returns the transaction id, and
the transaction it commits carries the narration of 26 characters under `n0`. -/
theorem sendtypeto_long_narration_committed :
    (sendtypeto sampleExternals longNarrationRequest).result = .ok (.VSTR "5ac1e0") ∧
    (sendtypeto sampleExternals longNarrationRequest).committed.map
        (fun c => c.1.mapValue) = [[("n0", longNarration)]] := by
  constructor <;> rfl

/-- Claim C17 (the code departs from it): an output object with a `script` field whose
address is valid and is not the word `script` is not rejected by the loop of
`SendToInner` over the outputs; the recipient is appended with `scriptPubKey` set from
the script and `fScriptSet` set. -/
theorem SendToInner_outputs_script_without_script_address (ext : Externals)
    (members : List (String × UniValue)) (sAddress sScript : String) (amount : UniValue)
    (nAmount : Int) (vecSend : List CTempRecipient) (nTotal : Int)
    (haddress : UniValue.findKey members "address" = some (.VSTR sAddress))
    (_hword : sAddress ≠ "script")
    (hstealth : ext.IsValidStealthAddress sAddress = true)
    (hamount : UniValue.findKey members "amount" = some amount)
    (hvalue : ext.AmountFromValue amount = .ok nAmount)
    (hpos : 0 < nAmount)
    (hsubfee : UniValue.findKey members "subfee" = none)
    (hnarr : UniValue.findKey members "narr" = none)
    (hscript : UniValue.findKey members "script" = some (.VSTR sScript)) :
    SendToInner.outputs ext .OUTPUT_STANDARD [.VOBJ members] (vecSend, nTotal) =
      .ok (vecSend ++ [{ nType := .OUTPUT_STANDARD, nAmount := nAmount,
                         nAmountSelected := nAmount,
                         fSubtractFeeFromAmount := false, address := sAddress,
                         sNarration := "", scriptPubKey := ext.ParseHex sScript,
                         fScriptSet := true, fChange := false, n := 0 }],
           nTotal + nAmount) := by
  have hn : ¬ nAmount ≤ 0 := not_le.mpr hpos
  simp [SendToInner.outputs, UniValue.isObject, UniValue.existsKey, UniValue.atKey,
    UniValue.get_str, AddOutput, haddress, hstealth, hamount, hvalue, hn, hsubfee,
    hscript, hnarr, bind, Except.bind, pure, Except.pure]

/-- The sample output with the script `51` and the sample address meets every
hypothesis of `SendToInner_outputs_script_without_script_address`. -/
theorem SendToInner_outputs_script_without_script_address_witness :
    sampleStealthAddress ≠ "script" ∧
    SendToInner.outputs scriptExternals .OUTPUT_STANDARD
        [.VOBJ [("address", .VSTR sampleStealthAddress), ("amount", .VNUM "0.1"),
                ("script", .VSTR "51")]] ([], 0) =
      .ok ([] ++ [{ nType := .OUTPUT_STANDARD, nAmount := 10000000,
                    nAmountSelected := 10000000,
                    fSubtractFeeFromAmount := false, address := sampleStealthAddress,
                    sNarration := "", scriptPubKey := scriptExternals.ParseHex "51",
                    fScriptSet := true, fChange := false, n := 0 }],
           0 + 10000000) :=
  ⟨by decide,
   SendToInner_outputs_script_without_script_address scriptExternals _ sampleStealthAddress
     "51" (.VNUM "0.1") 10000000 [] 0 rfl (by decide) (by decide) rfl rfl
     (by decide) rfl rfl rfl⟩

/-- The whole call on the sample request with a script: `sendtypeto` returns the
transaction id and commits the transaction; no error is raised. -/
theorem sendtypeto_script_committed :
    (sendtypeto scriptExternals scriptRequest).result = .ok (.VSTR "5ac1e0") ∧
    (sendtypeto scriptExternals scriptRequest).committed.length = 1 := by
  constructor <;> rfl

/-! ## `reservebalance` -/

/-- The rounding of `reservebalance`: for an amount that is not negative, the amount
divided by `CENT` with truncation and multiplied by `CENT` again is a multiple of
`CENT`, not negative, not greater than the amount, and less than one `CENT` below it. -/
theorem CENT_rounding (a : Int) (ha : 0 ≤ a) :
    CENT ∣ a.tdiv CENT * CENT ∧ 0 ≤ a.tdiv CENT * CENT ∧ a.tdiv CENT * CENT ≤ a ∧
      a - a.tdiv CENT * CENT < CENT := by
  have hc : (0 : Int) < CENT := by decide
  have h1 : a.tdiv CENT = a / CENT := Int.tdiv_eq_ediv ha (le_of_lt hc)
  rw [h1]
  refine ⟨Dvd.intro_left _ rfl, ?_, ?_, ?_⟩
  · exact mul_nonneg (Int.ediv_nonneg ha (le_of_lt hc)) (le_of_lt hc)
  · exact Int.ediv_mul_le a (ne_of_gt hc)
  · have := Int.lt_ediv_add_one_mul_self a hc
    linarith

/-- Claim C18: on a request that names an unlocked wallet, `reservebalance true v`
with an amount `a >= 0` returns a result and stores `a` rounded down to cent (a multiple
of `CENT`, not greater than `a`, less than one `CENT` below `a`), and
`reservebalance false` returns a result and stores 0. -/
theorem reservebalance_rounds_to_cent (ext : Externals) (old : Int)
    (request : JSONRPCRequest) (pwallet : CHDWallet)
    (hwallet : GetHDWalletForJSONRPCRequest ext request = .ok (some pwallet))
    (hhelp : request.fHelp = false)
    (hunlocked : pwallet.IsLocked = false) :
    (∀ (v : UniValue) (a : Int), request.params = .VARR [.VBOOL true, v] →
        ext.AmountFromValue v = .ok a → 0 ≤ a →
        (∃ r, (reservebalance ext old request).result = .ok r) ∧
        CENT ∣ (reservebalance ext old request).nReserveBalance ∧
        (reservebalance ext old request).nReserveBalance ≤ a ∧
        a - (reservebalance ext old request).nReserveBalance < CENT) ∧
    (request.params = .VARR [.VBOOL false] →
        (∃ r, (reservebalance ext old request).result = .ok r) ∧
        (reservebalance ext old request).nReserveBalance = 0) := by
  constructor
  · intro v a hparams hvalue ha
    obtain ⟨hdvd, hnonneg, hle, hlt⟩ := CENT_rounding a ha
    have hn : ¬ a.tdiv CENT * CENT < 0 := not_lt.mpr hnonneg
    have hset : reservebalance.set ext pwallet request = .ok (a.tdiv CENT * CENT) := by
      simp [reservebalance.set, SetReserveBalance, EnsureWalletIsUnlocked, hunlocked, hparams, UniValue.atIndex,
        UniValue.get_bool, UniValue.size, hvalue, hn, bind, Except.bind, pure, Except.pure]
    have hout : reservebalance ext old request =
        { result := .ok (.VOBJ [("reserve", .VBOOL (decide (a.tdiv CENT * CENT > 0))),
                                ("amount", ext.ValueFromAmount (a.tdiv CENT * CENT))]),
          nReserveBalance := a.tdiv CENT * CENT } := by
      simp [reservebalance, hwallet, EnsureWalletIsAvailable, hhelp, hparams, UniValue.size,
        hset, pure, Except.pure]
    rw [hout]
    exact ⟨⟨_, rfl⟩, hdvd, hle, hlt⟩
  · intro hparams
    have hset : reservebalance.set ext pwallet request = .ok 0 := by
      simp [reservebalance.set, SetReserveBalance, EnsureWalletIsUnlocked, hunlocked, hparams, UniValue.atIndex,
        UniValue.get_bool, UniValue.size, bind, Except.bind, pure, Except.pure]
    have hout : reservebalance ext old request =
        { result := .ok (.VOBJ [("reserve", .VBOOL (decide ((0 : Int) > 0))),
                                ("amount", ext.ValueFromAmount 0)]),
          nReserveBalance := 0 } := by
      simp [reservebalance, hwallet, EnsureWalletIsAvailable, hhelp, hparams, UniValue.size,
        hset, pure, Except.pure]
    rw [hout]
    exact ⟨⟨_, rfl⟩, rfl⟩

/-- The request `reservebalance true 0.12345678` on the sample wallet: the hypotheses of
`reservebalance_rounds_to_cent` hold, and 12345678 base units are stored as 12000000. -/
theorem reservebalance_rounds_to_cent_witness :
    GetHDWalletForJSONRPCRequest reserveExternals reserveRequest = .ok (some sampleWallet) ∧
    (reservebalance reserveExternals 5 reserveRequest).nReserveBalance = 12000000 ∧
    CENT ∣ (reservebalance reserveExternals 5 reserveRequest).nReserveBalance ∧
    (reservebalance reserveExternals 5 reserveRequest).nReserveBalance ≤ 12345678 ∧
    12345678 - (reservebalance reserveExternals 5 reserveRequest).nReserveBalance < CENT :=
  ⟨rfl, by decide,
   ((reservebalance_rounds_to_cent reserveExternals 5 reserveRequest sampleWallet rfl rfl
      rfl).1 (.VNUM "0.12345678") 12345678 rfl rfl (by decide)).2⟩

/-- The request `reservebalance false` on the sample wallet stores 0 and reports the
reserve as off. -/
theorem reservebalance_off_sample :
    (reservebalance reserveExternals 5 reserveOffRequest).nReserveBalance = 0 ∧
    (reservebalance reserveExternals 5 reserveOffRequest).result =
      .ok (.VOBJ [("reserve", .VBOOL false), ("amount", .VNUM "0")]) := by
  constructor <;> rfl

/-! ## `extkey options` -/

/-- An assignment to a map is found again under its key. -/
theorem lookup_mapAssign {ν : Type} (m : List (Nat × ν)) (key : Nat) (value : ν) :
    (mapAssign m key value).lookup key = some value := by
  induction m with
  | nil => simp [mapAssign, List.lookup]
  | cons kv rest ih =>
    obtain ⟨k, v⟩ := kv
    by_cases h : k = key
    · simp [mapAssign, h, List.lookup]
    · have h2 : (key == k) = false := by
        simp only [beq_eq_false_iff_ne, ne_eq]
        exact fun e => h e.symm
      simp [mapAssign, h, List.lookup, h2, ih]

/-- The word `options` as first parameter selects the mode `options`. -/
theorem extkey_mode_options (request : JSONRPCRequest) (rest : List UniValue)
    (hparams : request.params = .VARR (.VSTR "options" :: rest)) :
    extkey.mode request = .ok ("options", "", 1) := by
  unfold extkey.mode
  rw [hparams]
  have hs : (UniValue.VARR (.VSTR "options" :: rest)).size > 0 := by simp [UniValue.size]
  rw [if_pos hs]
  rfl

/-- With a new value that is not empty, `ManageExtKey` leaves the label as it is and
reports the label as it is; `ManageExtAccount` stores and reports the new value. -/
theorem ManageExtKey_label (ek : ExtKeyExternals) (sek : CStoredExtKey)
    (sea : CExtKeyAccount) (sOptValue : String) (result : List (String × UniValue))
    (hvalue : 0 < sOptValue.utf8ByteSize) :
    ManageExtKey ek sek "label" sOptValue result =
      .ok (0, sek, result ++ [("set_label", .VSTR sek.sLabel)]) ∧
    ManageExtAccount ek sea "label" sOptValue result =
      .ok (0, { sea with sLabel := sOptValue }, result ++ [("set_label", .VSTR sOptValue)]) := by
  have h0 : sOptValue.utf8ByteSize ≠ 0 := Nat.pos_iff_ne_zero.mp hvalue
  constructor
  · simp [ManageExtKey, h0, pure, Except.pure]
  · simp [ManageExtAccount, hvalue, pure, Except.pure]

/-- Claim C16 (the code departs from it): `extkey options <key> label <newValue>` with a
new value that is not empty, on a loose key held in memory and with every database call
succeeding, reports `set_label` as the label the key had before and `Success.`, and
the key keeps that label in memory and in the database. -/
theorem extkey_options_label_keeps_old_label (ext : Externals) (ek : ExtKeyExternals)
    (w : ExtKeyWallet) (request : JSONRPCRequest) (pwallet : CHDWallet)
    (sKey newValue : String) (id : CKeyID) (sek : CStoredExtKey)
    (hwallet : GetHDWalletForJSONRPCRequest ext request = .ok (some pwallet))
    (hsafe : ext.ObserveSafeMode = .ok ())
    (hhelp : request.fHelp = false)
    (hunlocked : pwallet.IsLocked = false)
    (hparams : request.params =
      .VARR [.VSTR "options", .VSTR sKey, .VSTR "label", .VSTR newValue])
    (hnew : 0 < newValue.utf8ByteSize)
    (hstring : ek.SetString sKey = true)
    (hid : ek.ExtKeyHashID sKey = some id)
    (hkey : w.mapExtKeys.lookup id = some sek)
    (hbegin : ek.TxnBegin = true)
    (hwrite : ek.WriteExtKey id sek = true)
    (hcommit : ek.TxnCommit = true) :
    (extkey ext ek w request).result =
      .ok (.VOBJ [("set_label", .VSTR sek.sLabel), ("result", .VSTR "Success.")]) ∧
    (extkey ext ek w request).wallet.mapExtKeys.lookup id = some sek ∧
    (extkey ext ek w request).wallet.dbExtKeys.lookup id = some sek := by
  have h0 : newValue.utf8ByteSize ≠ 0 := Nat.pos_iff_ne_zero.mp hnew
  have hargs : extkey.optionArgs request 1 "" = .ok (sKey, "label", newValue) := by
    have he : "".utf8ByteSize = 0 := rfl
    simp [extkey.optionArgs, hparams, UniValue.size, UniValue.atIndex, UniValue.get_str,
      he, bind, Except.bind, pure, Except.pure]
  have htarget : extkey.optionTarget ek w sKey = .ok (id, false, true) := by
    simp [extkey.optionTarget, hstring, hid, pure, Except.pure]
  have hmanage := (ManageExtKey_label ek sek { sLabel := "", nFlags := 0 } newValue [] hnew).1
  have hkeyout : extkey.optionsKey ek w id "label" newValue [] =
      { result := .ok (.VOBJ [("set_label", .VSTR sek.sLabel), ("result", .VSTR "Success.")]),
        wallet := { w with mapExtKeys := mapAssign w.mapExtKeys id sek,
                           dbExtKeys := mapAssign w.dbExtKeys id sek } } := by
    simp [extkey.optionsKey, hkey, hmanage, hwrite, hnew, h0, extkey.optionsCommit, hcommit]
  have hout : extkey ext ek w request = extkey.optionsKey ek w id "label" newValue [] := by
    simp [extkey, hwallet, EnsureWalletIsAvailable, hsafe, hhelp, hparams, UniValue.size,
      EnsureWalletIsUnlocked, hunlocked, extkey_mode_options request _ hparams,
      extkey.options, hargs, htarget, hbegin, pure, Except.pure]
  rw [hout, hkeyout]
  exact ⟨rfl, lookup_mapAssign _ _ _, lookup_mapAssign _ _ _⟩

/-- The request `extkey options <sample key> label new` on the sample wallet meets the
hypotheses of `extkey_options_label_keeps_old_label`: `set_label` is `old`, not `new`. -/
theorem extkey_options_label_keeps_old_label_witness :
    (extkey sampleExternals sampleExtKeyExternals sampleExtKeyWallet labelKeyRequest).result =
      .ok (.VOBJ [("set_label", .VSTR "old"), ("result", .VSTR "Success.")]) ∧
    (extkey sampleExternals sampleExtKeyExternals sampleExtKeyWallet
        labelKeyRequest).wallet.mapExtKeys.lookup 7 =
      some { sLabel := "old", nFlags := 1, mapValue := [] } ∧
    (extkey sampleExternals sampleExtKeyExternals sampleExtKeyWallet
        labelKeyRequest).wallet.dbExtKeys.lookup 7 =
      some { sLabel := "old", nFlags := 1, mapValue := [] } :=
  extkey_options_label_keeps_old_label sampleExternals sampleExtKeyExternals
    sampleExtKeyWallet labelKeyRequest sampleWallet sampleExtKeyId "new" 7
    { sLabel := "old", nFlags := 1, mapValue := [] } rfl rfl rfl rfl rfl (by decide)
    (by decide) (by decide) rfl rfl rfl rfl

/-- The same request for the sample account: `ManageExtAccount` stores the new label,
and `set_label` is `new`. -/
theorem extkey_options_label_account_sample :
    (extkey sampleExternals sampleExtKeyExternals sampleExtKeyWallet
        labelAccountRequest).result =
      .ok (.VOBJ [("set_label", .VSTR "new"), ("result", .VSTR "Success.")]) ∧
    (extkey sampleExternals sampleExtKeyExternals sampleExtKeyWallet
        labelAccountRequest).wallet.mapExtAccounts.lookup 8 =
      some { sLabel := "new", nFlags := 1 } := by
  constructor <;> rfl

/-! ## `filtertransactions` -/

/-- The option `type` of `filtertransactions` with the value `anon` or `blind`, both
listed in the help text, is refused. -/
theorem filtertransactions_optionsType_refused (members : List (String × UniValue))
    (type fallback : String)
    (htype : UniValue.findKey members "type" = some (.VSTR type))
    (hlisted : type = "anon" ∨ type = "blind") :
    filtertransactions.optionsType (.VOBJ members) fallback =
      .error (.JSONRPCError .RPC_INVALID_PARAMETER ("Invalid type: " ++ type ++ ".")) := by
  rcases hlisted with h | h <;> subst h <;>
    simp [filtertransactions.optionsType, UniValue.existsKey, UniValue.atKey, htype,
      UniValue.get_str, bind, Except.bind, throw, throwThe, MonadExceptOf.throw]

/-- Claim C13 (the code departs from it): a request whose options carry the type `anon`
or `blind`, and pass the type check and the checks of the options read before `type`,
fails with the error `Invalid type`. -/
theorem filtertransactions_type_anon_blind_invalid (ext : Externals)
    (env : HistoryExternals) (wallet : WalletHistory) (request : JSONRPCRequest)
    (pwallet : CHDWallet) (members : List (String × UniValue)) (type : String)
    (o : FilterOptions)
    (hwallet : GetHDWalletForJSONRPCRequest ext request = .ok (some pwallet))
    (hhelp : request.fHelp = false)
    (hsafe : ext.ObserveSafeMode = .ok ())
    (hparams : request.params = .VARR [.VOBJ members])
    (htype : UniValue.findKey members "type" = some (.VSTR type))
    (hlisted : type = "anon" ∨ type = "blind")
    (hcheck : RPCTypeCheckObj (.VOBJ members) filtertransactions.typesExpected true = .ok ())
    (hhead : filtertransactions.optionsHead ext env (.VOBJ members) = .ok o) :
    filtertransactions ext env wallet request =
      .error (.JSONRPCError .RPC_INVALID_PARAMETER ("Invalid type: " ++ type ++ ".")) := by
  have hrefused := filtertransactions_optionsType_refused members type o.type htype hlisted
  have hoptions : filtertransactions.options ext env (.VOBJ members) =
      .error (.JSONRPCError .RPC_INVALID_PARAMETER ("Invalid type: " ++ type ++ ".")) := by
    simp only [filtertransactions.options, UniValue.get_obj, hcheck, hhead, hrefused, bind,
      Except.bind]
  simp [filtertransactions, hwallet, EnsureWalletIsAvailable, hhelp, hparams, UniValue.size,
    hsafe, UniValue.atIndex, UniValue.isNull, hoptions, bind, Except.bind, pure, Except.pure]

/-- The requests with the options `type: anon` and `type: blind` on the sample wallet
meet the hypotheses of `filtertransactions_type_anon_blind_invalid`. -/
theorem filtertransactions_type_anon_blind_invalid_witness :
    filtertransactions historyExternals sampleHistoryExternals sampleHistory
        (filterRequest [("type", .VSTR "anon")]) =
      .error (.JSONRPCError .RPC_INVALID_PARAMETER ("Invalid type: " ++ "anon" ++ ".")) :=
  filtertransactions_type_anon_blind_invalid historyExternals sampleHistoryExternals
    sampleHistory (filterRequest [("type", .VSTR "anon")]) sampleWallet
    [("type", .VSTR "anon")] "anon" (FilterOptions.defaults sampleHistoryExternals)
    rfl rfl rfl rfl rfl (Or.inl rfl) rfl rfl

/-- The types that the code lists, `all`, `standard` and `zerocoin`, are accepted on the
sample wallet, and `blind` is refused as `anon` is. -/
theorem filtertransactions_type_samples :
    (filtertransactions historyExternals sampleHistoryExternals sampleHistory
        (filterRequest [("type", .VSTR "all")])).toBool = true ∧
    (filtertransactions historyExternals sampleHistoryExternals sampleHistory
        (filterRequest [("type", .VSTR "standard")])).toBool = true ∧
    filtertransactions historyExternals sampleHistoryExternals sampleHistory
        (filterRequest [("type", .VSTR "zerocoin")]) = .ok (.VARR []) ∧
    filtertransactions historyExternals sampleHistoryExternals sampleHistory
        (filterRequest [("type", .VSTR "blind")]) =
      .error (.JSONRPCError .RPC_INVALID_PARAMETER "Invalid type: blind.") := by
  refine ⟨?_, ?_, ?_, ?_⟩ <;> rfl

/-- The search string `123` occurs in the amount strings that `ParseOutput` keeps for
1.23 and 12.3 coins, the amounts in base units, and in neither of the amount strings
that `ParseRecords` keeps for them, the amounts in coins in fixed notation. -/
theorem stringFind_amount_strings :
    stringFind (toString (123000000 : Int)) "123" = true ∧
    stringFind (toString (1230000000 : Int)) "123" = true ∧
    stringFind "1.230000" "123" = false ∧
    stringFind "12.300000" "123" = false := by
  refine ⟨?_, ?_, ?_, ?_⟩ <;> rfl

/-- The wallet transactions meet the claim C14: `ParseOutputs` with the search string
`123` appends an entry for a transaction without sent outputs whose one received
output, not watch-only, is of 1.23 or 12.3 coins. -/
theorem ParseOutputs_search_finds (ext : Externals) (env : HistoryExternals)
    (entries : List UniValue) (wtx : TxItem) (r : COutputEntry) (watchonly : Nat)
    (fWithReward fBech32 : Bool)
    (hfrom : wtx.IsFromMeWatchOnly = false)
    (hsent : wtx.listSent = [])
    (hreceived : wtx.listReceived = [r])
    (hmine : r.ismine &&& env.ISMINE_WATCH_ONLY = 0)
    (hamount : r.amount = 123000000 ∨ r.amount = 1230000000) :
    ∃ entry, ParseOutputs ext env entries wtx watchonly "123" fWithReward fBech32 =
      .ok (entries ++ [entry]) := by
  have hfound : stringFind (toString r.amount) "123" = true := by
    rcases hamount with h | h <;> rw [h] <;> rfl
  have hne : ("123" : String) ≠ "" := by decide
  simp only [ParseOutputs, hfrom, hsent, hreceived, ParseOutputs.sent,
    ParseOutputs.received, ParseOutput, hmine, ParseOutputs.markExisting, searchPush, hne,
    bind, Except.bind, pure, Except.pure]
  simp only [ne_eq, not_true_eq_false, false_and, if_false, Bool.false_and,
    Bool.false_eq_true, List.nil_append, List.any_cons, List.any_nil, hfound,
    Bool.true_or, Bool.or_true, if_true, Bool.not_false, ite_self, not_false_eq_true]
  split_ifs <;> exact ⟨_, rfl⟩

/-- Claim C14 (the code departs from it for transaction records): `ParseRecords` with
the search string `123` appends no entry for a record whose one output, owned by the
wallet and no change, is of 1.23 or 12.3 coins, when the amount is printed in fixed
notation as `1.230000` or `12.300000` and no address of the output contains `123`. -/
theorem ParseRecords_search_misses_decimal_amount (ext : Externals)
    (env : HistoryExternals) (entries : List UniValue) (rtx : RtxItem)
    (record : COutputRecord) (watchonly : Nat) (text : String) (x : ℚ)
    (hvout : rtx.vout = [record])
    (hchange : record.nFlags &&& env.ORF_CHANGE = 0)
    (hown : record.nFlags &&& env.ORF_OWN_ANY ≠ 0)
    (_hvalue : record.nValue = 123000000 ∨ record.nValue = 1230000000)
    (hprint : ext.ValueFromAmount record.nValue = .VNUM text)
    (hreal : env.strtod text = some x)
    (hfixed : env.to_string x = "1.230000" ∨ env.to_string x = "12.300000")
    (haddresses :
      (ParseRecords.addresses env record).any (fun addr => stringFind addr "123") = false) :
    ParseRecords ext env entries rtx watchonly "123" = .ok entries := by
  have hstring : ParseRecords.amountString ext env record.nValue = .ok (env.to_string x) := by
    simp [ParseRecords.amountString, hprint, UniValue.get_real, hreal, bind, Except.bind,
      pure, Except.pure]
  have hmiss : stringFind (env.to_string x) "123" = false := by
    rcases hfixed with h | h <;> rw [h] <;> rfl
  have hne : ("123" : String) ≠ "" := by decide
  have houtput : ∃ l, ParseRecords.outputs ext env rtx.vout
      { outputs := [], addresses := [], amounts := [], nOwned := 0, nFrom := 0,
        nWatchOnly := 0, nLockedOutputs := 0, totalAmount := 0 } = .ok l ∧
      l.addresses = ParseRecords.addresses env record ∧
      l.amounts = [env.to_string x] ∧ l.totalAmount = record.nValue := by
    simp [hvout, ParseRecords.outputs, hchange, ParseRecords.output, hown, hstring, bind,
      Except.bind, pure, Except.pure]
  obtain ⟨l, hl, haddr, hamounts, htotal⟩ := houtput
  simp only [ParseRecords, hl, htotal, hstring, bind, Except.bind, pure, Except.pure,
    searchPush, hne, haddr, haddresses, hamounts]
  simp [hmiss]

/-- The sample record of 1.23 coins meets the hypotheses of
`ParseRecords_search_misses_decimal_amount`: the search for `123` does not find it. -/
theorem ParseRecords_search_misses_decimal_amount_witness :
    ParseRecords historyExternals sampleHistoryExternals []
      (recordOf "b1" 200 1 123000000) 4 "123" = .ok [] :=
  ParseRecords_search_misses_decimal_amount historyExternals sampleHistoryExternals []
    (recordOf "b1" 200 1 123000000)
    { nType := .OUTPUT_STANDARD, nFlags := 1, n := 0, nValue := 123000000,
      scriptPubKey := [8], sNarration := "", vPath := [] }
    4 "1.23000000" sampleReal rfl rfl (by decide) (Or.inl rfl) rfl rfl (Or.inl rfl) rfl

/-- The whole call with the search string `123` on the sample wallet: the two wallet
transactions of 12.3 and 1.23 coins are returned, and the two records of the same
amounts are not. -/
theorem filtertransactions_search_sample :
    fieldsOf "time"
        (filtertransactions historyExternals sampleHistoryExternals sampleHistory
          (filterRequest [("search", .VSTR "123")])) =
      .ok [.VNUM "110", .VNUM "100"] ∧
    fieldsOf "amount"
        (filtertransactions historyExternals sampleHistoryExternals sampleHistory
          (filterRequest [("search", .VSTR "123")])) =
      .ok [.VNUM "12.30000000", .VNUM "1.23000000"] := by
  constructor <;> rfl

/-- One step of the insertion sort with a comparator that does not throw on the
elements at hand is the ordered insertion of the relation `r`, where `r x y` holds when
the comparator does not put `y` before `x`. -/
theorem sortInsert_eq_orderedInsert {α ε : Type} (comp : α → α → Except ε Bool)
    (r : α → α → Prop) [DecidableRel r] (x : α) (ys : List α)
    (h : ∀ y ∈ ys, comp y x = .ok (decide (¬ r x y))) :
    sortInsert comp x ys = .ok (List.orderedInsert r x ys) := by
  induction ys with
  | nil => rfl
  | cons y ys ih =>
    have hy := h y (List.mem_cons_self y ys)
    have ih2 := ih fun z hz => h z (List.mem_cons_of_mem y hz)
    by_cases hr : r x y
    · simp [sortInsert, hy, hr, bind, Except.bind, pure, Except.pure]
    · simp [sortInsert, hy, hr, ih2, bind, Except.bind, pure, Except.pure]

/-- The insertion sort with a comparator that does not throw on the elements of the
list returns the insertion sort of the relation `r`. -/
theorem stdSort_eq_insertionSort {α ε : Type} (comp : α → α → Except ε Bool)
    (r : α → α → Prop) [DecidableRel r] (l : List α)
    (h : ∀ x ∈ l, ∀ y ∈ l, comp y x = .ok (decide (¬ r x y))) :
    stdSort comp l = .ok (List.insertionSort r l) := by
  induction l with
  | nil => rfl
  | cons x xs ih =>
    have ih2 := ih fun a ha b hb =>
      h a (List.mem_cons_of_mem x ha) b (List.mem_cons_of_mem x hb)
    have hins := sortInsert_eq_orderedInsert comp r x (List.insertionSort r xs)
      fun y hy => h x (List.mem_cons_self x xs) y
        (List.mem_cons_of_mem x ((List.perm_insertionSort r xs).subset hy))
    simp [stdSort, ih2, hins, bind, Except.bind]

/-- On two entries with a category string, an amount that is a number and an address
that can be read, the comparator under `amount` tells whether the first has the greater
sort key. -/
theorem filtertransactions_less_amount (env : HistoryExternals) (a b : UniValue)
    (ha : ∃ k, filtertransactions.sortAmount env a = .ok k) (haddr : ∃ s, getAddress a = .ok s)
    (hb : ∃ k, filtertransactions.sortAmount env b = .ok k) (hbddr : ∃ s, getAddress b = .ok s) :
    filtertransactions.less env "amount" a b =
      .ok (decide (filtertransactions.sortKey env a > filtertransactions.sortKey env b)) := by
  obtain ⟨ka, hka⟩ := ha
  obtain ⟨kb, hkb⟩ := hb
  obtain ⟨sa, hsa⟩ := haddr
  obtain ⟨sb, hsb⟩ := hbddr
  simp [filtertransactions.less, filtertransactions.sortKey, hka, hkb, hsa, hsb, bind,
    Except.bind, pure, Except.pure]

/-- The loop of `filtertransactions` only appends entries of the values, in their
order. -/
theorem filtertransactions_loop_sublist (ext : Externals) (category type : String)
    (fCollate : Bool) (values : List UniValue) :
    ∀ (count : Nat) (skip : Int) (l l2 : FilterLocals),
      filtertransactions.loop ext category type fCollate values count skip l = .ok l2 →
      ∃ s, s.Sublist values ∧ l2.result = l.result ++ s := by
  induction values with
  | nil =>
    intro count skip l l2 h
    simp only [filtertransactions.loop, pure, Except.pure, Except.ok.injEq] at h
    exact ⟨[], List.Sublist.refl _, by simp [← h]⟩
  | cons v rest ih =>
    intro count skip l l2 h
    simp only [filtertransactions.loop, bind, Except.bind, pure, Except.pure] at h
    repeat' (split at h <;> try contradiction)
    · cases h
      exact ⟨[], List.nil_sublist _, by simp⟩
    · obtain ⟨s, hs, hr⟩ := ih _ _ _ _ h
      exact ⟨s, hs.cons v, hr⟩
    · obtain ⟨s, hs, hr⟩ := ih _ _ _ _ h
      exact ⟨v :: s, hs.cons₂ v, by simp [hr]⟩
    · obtain ⟨s, hs, hr⟩ := ih _ _ _ _ h
      exact ⟨s, hs.cons v, hr⟩
    · obtain ⟨s, hs, hr⟩ := ih _ _ _ _ h
      exact ⟨s, hs.cons v, hr⟩

/-- Claim C12 as the code has it: under `sort = amount` the entries are ordered,
greatest first, by the amount field with its sign reversed for entries of the category
`send`.  For collected entries that each have such a key (a category string and an
amount that is a number) and a readable address, `std::sort` returns a rearrangement of
them in which the key of each entry is greater than or equal to the key of every later
entry, and the list that the filter loop returns from it is in that order too. -/
theorem filtertransactions_sort_amount_order (ext : Externals) (env : HistoryExternals)
    (o : FilterOptions) (transactions : List UniValue)
    (hsort : o.sort = "amount")
    (hentries : ∀ v ∈ transactions,
      (∃ k, specAmountKey env v = some k) ∧ ∃ s, getAddress v = .ok s) :
    ∃ values, stdSort (filtertransactions.less env o.sort) transactions = .ok values ∧
      values.Perm transactions ∧
      values.Pairwise
        (fun a b => ∃ ka kb, specAmountKey env a = some ka ∧ specAmountKey env b = some kb ∧
          kb ≤ ka) ∧
      ∀ l, filtertransactions.select ext o.category o.type o.fCollate values o.count o.skip
          = .ok l →
        l.result.Pairwise
          (fun a b => ∃ ka kb, specAmountKey env a = some ka ∧
            specAmountKey env b = some kb ∧ kb ≤ ka) := by
  let r : UniValue → UniValue → Prop :=
    fun a b => filtertransactions.sortKey env b ≤ filtertransactions.sortKey env a
  have htotal : IsTotal UniValue r := ⟨fun a b => le_total _ _⟩
  have htrans : IsTrans UniValue r := ⟨fun a b c hab hbc => le_trans hbc hab⟩
  -- the amount that the comparator computes is the key of the description
  have hspec : ∀ (value : UniValue) (k : ℚ), specAmountKey env value = some k →
      filtertransactions.sortAmount env value = .ok k := by
    intro value k hkey
    unfold specAmountKey entryCategory entryAmount at hkey
    unfold filtertransactions.sortAmount
    cases hc : value.atKey "category" <;> rw [hc] at hkey <;>
      try (simp at hkey; done)
    rename_i c
    cases ha : value.atKey "amount" <;> rw [ha] at hkey <;>
      try (simp at hkey; done)
    rename_i text
    cases hx : env.strtod text with
    | none => simp [hx] at hkey
    | some x =>
      simp only [hx, Option.some.injEq] at hkey
      by_cases hsend : c = "send"
      · simp [UniValue.get_str, UniValue.get_real, hx, hsend, bind, Except.bind, pure,
          Except.pure] at hkey ⊢
        exact hkey
      · simp [UniValue.get_str, UniValue.get_real, hx, hsend, bind, Except.bind, pure,
          Except.pure] at hkey ⊢
        exact hkey
  have hamount : ∀ v ∈ transactions, ∃ k, specAmountKey env v = some k ∧
      filtertransactions.sortAmount env v = .ok k ∧ filtertransactions.sortKey env v = k := by
    intro v hv
    obtain ⟨k, hk⟩ := (hentries v hv).1
    have h := hspec v k hk
    exact ⟨k, hk, h, by simp [filtertransactions.sortKey, h]⟩
  have hcomp : ∀ x ∈ transactions, ∀ y ∈ transactions,
      filtertransactions.less env o.sort y x = .ok (decide (¬ r x y)) := by
    intro x hx y hy
    obtain ⟨kx, _, hax, _⟩ := hamount x hx
    obtain ⟨ky, _, hay, _⟩ := hamount y hy
    rw [hsort, filtertransactions_less_amount env y x ⟨ky, hay⟩ (hentries y hy).2
      ⟨kx, hax⟩ (hentries x hx).2]
    simp only [r, not_le, gt_iff_lt]
  have hsorted := stdSort_eq_insertionSort (filtertransactions.less env o.sort) r
    transactions hcomp
  have hperm := List.perm_insertionSort r transactions
  have hpair : (List.insertionSort r transactions).Pairwise r :=
    List.sorted_insertionSort r transactions
  have hkeys : ∀ s : List UniValue, s.Sublist (List.insertionSort r transactions) →
      s.Pairwise (fun a b => ∃ ka kb, specAmountKey env a = some ka ∧
        specAmountKey env b = some kb ∧ kb ≤ ka) := by
    intro s hs
    have hmem : ∀ v ∈ s, v ∈ transactions := fun v hv => hperm.subset (hs.subset hv)
    refine (List.Pairwise.and_mem.mp (hpair.sublist hs)).imp ?_
    rintro a b ⟨ha, hb, hab⟩
    obtain ⟨ka, hka, _, hsa⟩ := hamount a (hmem a ha)
    obtain ⟨kb, hkb, _, hsb⟩ := hamount b (hmem b hb)
    exact ⟨ka, kb, hka, hkb, by simpa only [r, hsa, hsb] using hab⟩
  refine ⟨List.insertionSort r transactions, hsorted, hperm,
    hkeys _ (List.Sublist.refl _), ?_⟩
  intro l hl
  obtain ⟨s, hs, hr⟩ := filtertransactions_loop_sublist ext o.category o.type o.fCollate
    _ _ _ _ l hl
  rw [hr, List.nil_append]
  exact hkeys s hs

/-- The entries of 3 coins received and of 5 coins sent meet the hypotheses of
`filtertransactions_sort_amount_order`: the entry of the 5 coins sent, whose amount field
is -5, has the key 5, the entry of the 3 coins received has the key 3, and the sorted
list, in the order of the keys, has the entry of the 5 coins sent first. -/
theorem filtertransactions_sort_amount_order_witness :
    specAmountKey sampleHistoryExternals
        (.VOBJ [("category", .VSTR "send"), ("amount", .VNUM "-5.00000000")]) = some 5 ∧
    specAmountKey sampleHistoryExternals
        (.VOBJ [("category", .VSTR "receive"), ("amount", .VNUM "3.00000000")]) = some 3 ∧
    stdSort (filtertransactions.less sampleHistoryExternals "amount")
        [.VOBJ [("category", .VSTR "receive"), ("amount", .VNUM "3.00000000")],
         .VOBJ [("category", .VSTR "send"), ("amount", .VNUM "-5.00000000")]] =
      .ok [.VOBJ [("category", .VSTR "send"), ("amount", .VNUM "-5.00000000")],
           .VOBJ [("category", .VSTR "receive"), ("amount", .VNUM "3.00000000")]] ∧
    ∃ values,
      stdSort (filtertransactions.less sampleHistoryExternals "amount")
        [.VOBJ [("category", .VSTR "receive"), ("amount", .VNUM "3.00000000")],
         .VOBJ [("category", .VSTR "send"), ("amount", .VNUM "-5.00000000")]] = .ok values ∧
      values.Perm
        [.VOBJ [("category", .VSTR "receive"), ("amount", .VNUM "3.00000000")],
         .VOBJ [("category", .VSTR "send"), ("amount", .VNUM "-5.00000000")]] ∧
      values.Pairwise
        (fun a b => ∃ ka kb, specAmountKey sampleHistoryExternals a = some ka ∧
          specAmountKey sampleHistoryExternals b = some kb ∧ kb ≤ ka) :=
  let ⟨values, h1, h2, h3, _⟩ :=
    filtertransactions_sort_amount_order historyExternals sampleHistoryExternals
      { FilterOptions.defaults sampleHistoryExternals with sort := "amount" }
      [.VOBJ [("category", .VSTR "receive"), ("amount", .VNUM "3.00000000")],
       .VOBJ [("category", .VSTR "send"), ("amount", .VNUM "-5.00000000")]]
      rfl
      (by
        intro v hv
        simp only [List.mem_cons, List.mem_singleton, List.not_mem_nil, or_false] at hv
        rcases hv with h | h <;> subst h
        · exact ⟨⟨_, rfl⟩, ⟨_, rfl⟩⟩
        · exact ⟨⟨_, rfl⟩, ⟨_, rfl⟩⟩)
  ⟨rfl, rfl, rfl, values, h1, h2, h3⟩

/-- Counterexample to claim C12 as worded: with `sort = amount` the sample wallet
returns the entry of amount -5 (5 coins sent) before the entry of amount 3, and -5 is
not greater than or equal to 3. -/
theorem filtertransactions_sort_amount_counterexample :
    fieldsOf "amount"
        (filtertransactions historyExternals sampleHistoryExternals sampleHistory
          (filterRequest [("sort", .VSTR "amount")])) =
      .ok [.VNUM "12.30000000", .VNUM "12.30000000", .VNUM "-5.00000000",
           .VNUM "3.00000000", .VNUM "1.23000000", .VNUM "1.23000000"] ∧
    (UniValue.VNUM "-5.00000000").get_real sampleStrtod = .ok (-5) ∧
    (UniValue.VNUM "3.00000000").get_real sampleStrtod = .ok 3 ∧
    ¬ ((3 : ℚ) ≤ -5) := by
  refine ⟨rfl, ?_, ?_, by norm_num⟩
  · rfl
  · rfl

/-- A 32-bit integer is its own value. -/
theorem wrapInt32_eq (x : Int) (h1 : -2 ^ 31 ≤ x) (h2 : x < 2 ^ 31) : wrapInt32 x = x := by
  unfold wrapInt32
  omega

/-- On an entry with a category string and a type that is absent or a string, the
tests of the loop agree with the filter of the description. -/
theorem specFilter_iff (category type : String) (value : UniValue) (c : String)
    (hc : (value.atKey "category").get_str = .ok c)
    (ht : (value.atKey "type").isNull = true ∨ ∃ t, (value.atKey "type").get_str = .ok t) :
    ∃ irrelevant, filtertransactions.typeIrrelevant type value = .ok irrelevant ∧
      (specFilter category type value = true ↔
        (c = category ∨ category = "all") ∧ irrelevant = false) := by
  have hcat : entryCategory value = some c := by
    unfold entryCategory
    cases hv : value.atKey "category" <;> rw [hv] at hc <;>
      simp_all [UniValue.get_str]
  unfold filtertransactions.typeIrrelevant specFilter entryType
  rw [hcat]
  cases hv : value.atKey "type" with
  | VNULL =>
    refine ⟨!(decide (type = "all") || decide (type = "standard")), ?_, ?_⟩
    · simp [UniValue.isNull, pure, Except.pure]
    · simp only [decide_eq_true_eq, Option.some.injEq, Bool.not_eq_false', Bool.or_eq_true,
        reduceCtorEq, true_and, false_or]
      tauto
  | VSTR t =>
    refine ⟨!(decide (t = type) || decide (type = "all")), ?_, ?_⟩
    · simp [UniValue.isNull, UniValue.get_str, bind, Except.bind, pure, Except.pure]
    · simp only [decide_eq_true_eq, Option.some.injEq, Bool.not_eq_false', Bool.or_eq_true,
        reduceCtorEq, false_and, or_false]
      tauto
  | VOBJ m => rw [hv] at ht; simp [UniValue.isNull, UniValue.get_str] at ht
  | VARR m => rw [hv] at ht; simp [UniValue.isNull, UniValue.get_str] at ht
  | VNUM m => rw [hv] at ht; simp [UniValue.isNull, UniValue.get_str] at ht
  | VBOOL m => rw [hv] at ht; simp [UniValue.isNull, UniValue.get_str] at ht

/-- The loop of `filtertransactions`, on entries with a category string, a type that is
absent or a string and amounts that can be summed, with `skip` in the range where its
decrements do not wrap: it returns, and it has appended the entries that pass the
filter, without the first `skip` and limited to `count`. -/
theorem filtertransactions_loop_spec (ext : Externals) (category type : String)
    (fCollate : Bool) (values : List UniValue)
    (hentries : ∀ v ∈ values,
      (∃ c, (v.atKey "category").get_str = .ok c) ∧
      ((v.atKey "type").isNull = true ∨ ∃ t, (v.atKey "type").get_str = .ok t) ∧
      ∀ totals, ∃ sums, filtertransactions.collate ext fCollate v totals = .ok sums) :
    ∀ (count : Nat) (skip : Int) (l : FilterLocals),
      -2 ^ 31 ≤ skip - values.length → skip < 2 ^ 31 →
      ∃ l2, filtertransactions.loop ext category type fCollate values count skip l = .ok l2 ∧
        l2.result = l.result ++
          (((values.filter (specFilter category type)).drop skip.toNat).take count) := by
  induction values with
  | nil =>
    intro count skip l _ _
    exact ⟨l, rfl, by simp⟩
  | cons v rest ih =>
    intro count skip l hlow hhigh
    have hrest := ih fun w hw => hentries w (List.mem_cons_of_mem v hw)
    obtain ⟨⟨c, hc⟩, ht, hcollate⟩ := hentries v (List.mem_cons_self v rest)
    obtain ⟨irrelevant, hirr, hfilter⟩ := specFilter_iff category type v c hc ht
    have hlen : ((v :: rest).length : Int) = rest.length + 1 := by simp
    rw [hlen] at hlow
    by_cases hcount : count = 0
    · subst hcount
      exact ⟨l, by simp [filtertransactions.loop, pure, Except.pure], by simp⟩
    by_cases hcat : c = category ∨ category = "all"
    · cases hi : irrelevant with
      | true =>
        have hf : specFilter category type v = false := by
          rw [← Bool.not_eq_true, hfilter, hi]
          simp
        obtain ⟨l2, h1, h2⟩ := hrest count skip l (by omega) hhigh
        refine ⟨l2, ?_, ?_⟩
        · rw [← h1]
          rw [hi] at hirr
          simp [filtertransactions.loop, hcount, hc, hcat, hirr, bind, Except.bind]
        · rw [h2, List.filter_cons_of_neg (by simp [hf])]
      | false =>
        have hf : specFilter category type v = true := by
          rw [hfilter, hi]
          exact ⟨hcat, rfl⟩
        rw [hi] at hirr
        by_cases hskip : skip ≤ 0
        · obtain ⟨sums, hsums⟩ := hcollate (l.nTotalAmount, l.nTotalReward)
          have hwrap : wrapInt32 (skip - 1) = skip - 1 := wrapInt32_eq _ (by omega) (by omega)
          obtain ⟨l2, h1, h2⟩ := hrest (count - 1) (skip - 1)
            { result := l.result ++ [v], nTotalAmount := sums.1, nTotalReward := sums.2 }
            (by omega) (by omega)
          refine ⟨l2, ?_, ?_⟩
          · rw [← h1]
            simp [filtertransactions.loop, hcount, hc, hcat, hirr, hskip, hsums, hwrap, bind,
              Except.bind]
          · have h0 : skip.toNat = 0 := by omega
            have h0' : (skip - 1).toNat = 0 := by omega
            rw [h2, List.filter_cons_of_pos hf, h0, h0']
            obtain ⟨n, hn⟩ : ∃ n, count = n + 1 := ⟨count - 1, by omega⟩
            subst hn
            simp
        · have hwrap : wrapInt32 (skip - 1) = skip - 1 := wrapInt32_eq _ (by omega) (by omega)
          obtain ⟨l2, h1, h2⟩ := hrest count (skip - 1) l (by omega) (by omega)
          refine ⟨l2, ?_, ?_⟩
          · rw [← h1]
            simp [filtertransactions.loop, hcount, hc, hcat, hirr, hskip, hwrap, bind,
              Except.bind]
          · obtain ⟨n, hn⟩ : ∃ n, skip.toNat = n + 1 := ⟨skip.toNat - 1, by omega⟩
            have hn' : (skip - 1).toNat = n := by omega
            rw [h2, List.filter_cons_of_pos hf, hn, hn']
            simp
    · have hf : specFilter category type v = false := by
        rw [← Bool.not_eq_true, hfilter]
        exact fun h => hcat h.1
      obtain ⟨l2, h1, h2⟩ := hrest count skip l (by omega) hhigh
      refine ⟨l2, ?_, ?_⟩
      · rw [← h1]
        have hcat1 : ¬ c = category := fun h => hcat (Or.inl h)
        have hcat2 : ¬ category = "all" := fun h => hcat (Or.inr h)
        simp [filtertransactions.loop, hcount, hc, hcat1, hcat2, bind, Except.bind]
      · rw [h2, List.filter_cons_of_neg (by simp [hf])]

/-- Claim C11: for every list of fewer than 2^31 collected entries, each with a category
string, a type that is absent or a string and amounts that can be summed, every filter,
every `skip` from 0 up to the greatest `int` and every `count` that fits an `unsigned
int`, the filter loop of `filtertransactions` returns, and the list it returns is the
list of the description: the entries that pass the filter, in their order, the first
`skip` of them dropped and the rest limited to the first `count`, without limit when
`count` is 0. -/
theorem filtertransactions_select_refines (ext : Externals) (category type : String)
    (fCollate : Bool) (values : List UniValue) (count : Nat) (skip : Int)
    (hlength : values.length < 2 ^ 31)
    (hskip : 0 ≤ skip) (hint : skip < 2 ^ 31)
    (_hcount : count < 2 ^ 32)
    (hentries : ∀ v ∈ values,
      (∃ c, (v.atKey "category").get_str = .ok c) ∧
      ((v.atKey "type").isNull = true ∨ ∃ t, (v.atKey "type").get_str = .ok t) ∧
      ∀ totals, ∃ sums, filtertransactions.collate ext fCollate v totals = .ok sums) :
    ∃ l, filtertransactions.select ext category type fCollate values count skip = .ok l ∧
      l.result = specSelect category type skip.toNat count values := by
  have hlow : -2 ^ 31 ≤ skip - (values.length : Int) := by omega
  unfold filtertransactions.select specSelect
  by_cases hzero : count = 0
  · obtain ⟨l, h1, h2⟩ := filtertransactions_loop_spec ext category type fCollate values
      hentries (values.length % 2 ^ 32) skip
      { result := [], nTotalAmount := 0, nTotalReward := 0 } hlow hint
    refine ⟨l, by simpa [hzero] using h1, ?_⟩
    have hmod : values.length % 2 ^ 32 = values.length := Nat.mod_eq_of_lt (by omega)
    rw [h2, hmod]
    simp only [hzero, if_true, List.nil_append]
    apply List.take_of_length_le
    rw [List.length_drop]
    exact le_trans (Nat.sub_le _ _) (List.length_filter_le _ _)
  · obtain ⟨l, h1, h2⟩ := filtertransactions_loop_spec ext category type fCollate values
      hentries count skip { result := [], nTotalAmount := 0, nTotalReward := 0 } hlow hint
    refine ⟨l, by simpa [hzero] using h1, ?_⟩
    rw [h2]
    simp [hzero]

/-- The three sample entries with the category `receive`, `skip = 1` and `count = 5`
meet the hypotheses of `filtertransactions_select_refines`: the second entry of the
category is returned. -/
theorem filtertransactions_select_refines_witness :
    ∃ l, filtertransactions.select historyExternals "receive" "all" false sampleEntries 5 1
        = .ok l ∧
      l.result = specSelect "receive" "all" (1 : Int).toNat 5 sampleEntries ∧
      specSelect "receive" "all" 1 5 sampleEntries =
        [.VOBJ [("category", .VSTR "receive"), ("amount", .VNUM "1.23000000")]] :=
  let ⟨l, h1, h2⟩ :=
    filtertransactions_select_refines historyExternals "receive" "all" false sampleEntries
      5 1 (by decide) (by decide) (by decide) (by decide)
      (by
        intro v hv
        simp only [sampleEntries, List.mem_cons, List.mem_singleton, List.not_mem_nil,
          or_false] at hv
        rcases hv with h | h | h <;> subst h <;>
          exact ⟨⟨_, rfl⟩, Or.inl rfl, fun totals => ⟨totals, rfl⟩⟩)
  ⟨l, h1, h2, rfl⟩

/-- The whole call on the sample wallet with `skip = 1` and `count = 2`: of the six
entries, most recent first, the second and the third are returned. -/
theorem filtertransactions_skip_count_sample :
    fieldsOf "time"
        (filtertransactions historyExternals sampleHistoryExternals sampleHistory
          (filterRequest [("skip", .VNUM "1"), ("count", .VNUM "2")])) =
      .ok [.VNUM "300", .VNUM "210"] := by
  rfl

end NixCore
